import Mathlib

/-!
Verification of the Oracle `CONNECT BY` → recursive-CTE converter
(`oracle2databricks/connect_by_converter.py`) through a shallow embedding.

SQL text is modelled as `List Char`.  Every Python regular expression used
by the converter is re-implemented as a deterministic scanner; each scanner
carries a comment citing the regex it implements and, where the regex could
in principle backtrack, a note on why the deterministic scan agrees with
the leftmost/greedy/lazy semantics of Python's `re` module for the pattern
in question.  Character classes follow Python's ASCII behaviour (`\s`,
`\w`, `str.upper`); all concrete inputs used below are ASCII.

Recursion that is not structural in the Python source (`re.split` driven
splitting, the self-recursive compound-condition parser) is realised with
an explicit fuel argument initialised so that fuel can provably never be
exhausted before the input is consumed (each step consumes at least one
character and spends exactly one unit of fuel), keeping every definition
kernel-reducible for concrete evaluation.
-/

namespace O2D

abbrev Str := List Char

def lit (s : String) : Str := s.data

/-- Python regex `\s` character class (ASCII part). -/
def isSpc (c : Char) : Bool :=
  c = ' ' || c = '\t' || c = '\n' || c = '\x0b' || c = '\x0c' || c = '\r'

/-- Python regex `\w` character class (ASCII part). -/
def isWrd (c : Char) : Bool := c.isAlphanum || c = '_'

/-- Python regex `\d` / `str.isdigit` (ASCII part). -/
def isDig (c : Char) : Bool := c.isDigit

/-- `str.upper`, per character (ASCII): explicit table so that facts such as
`isSpc (up c) = isSpc c` follow by case analysis. -/
def up (c : Char) : Char :=
  match c with
  | 'a' => 'A' | 'b' => 'B' | 'c' => 'C' | 'd' => 'D' | 'e' => 'E' | 'f' => 'F'
  | 'g' => 'G' | 'h' => 'H' | 'i' => 'I' | 'j' => 'J' | 'k' => 'K' | 'l' => 'L'
  | 'm' => 'M' | 'n' => 'N' | 'o' => 'O' | 'p' => 'P' | 'q' => 'Q' | 'r' => 'R'
  | 's' => 'S' | 't' => 'T' | 'u' => 'U' | 'v' => 'V' | 'w' => 'W' | 'x' => 'X'
  | 'y' => 'Y' | 'z' => 'Z' | other => other

/-- `str.lower`, per character (ASCII). -/
def low (c : Char) : Char :=
  match c with
  | 'A' => 'a' | 'B' => 'b' | 'C' => 'c' | 'D' => 'd' | 'E' => 'e' | 'F' => 'f'
  | 'G' => 'g' | 'H' => 'h' | 'I' => 'i' | 'J' => 'j' | 'K' => 'k' | 'L' => 'l'
  | 'M' => 'm' | 'N' => 'n' | 'O' => 'o' | 'P' => 'p' | 'Q' => 'q' | 'R' => 'r'
  | 'S' => 's' | 'T' => 't' | 'U' => 'u' | 'V' => 'v' | 'W' => 'w' | 'X' => 'x'
  | 'Y' => 'y' | 'Z' => 'z' | other => other

def toUp (s : Str) : Str := s.map up

def toLow (s : Str) : Str := s.map low

/-- `pat` is a prefix of `s`. -/
def isPrefOf : Str → Str → Bool
  | [], _ => true
  | _ :: _, [] => false
  | a :: as, b :: bs => a == b && isPrefOf as bs

/-- Python substring test `pat in s`. -/
def occurs (pat : Str) : Str → Bool
  | [] => pat.isEmpty
  | c :: t => isPrefOf pat (c :: t) || occurs pat t

/-- Case-insensitive equality of two character lists. -/
def ciEq (a b : Str) : Bool := decide (toUp a = toUp b)

/-- `str.strip()`. -/
def stripStr (s : Str) : Str := ((s.dropWhile isSpc).reverse.dropWhile isSpc).reverse

/-- `str.split()` with no argument: whitespace tokenisation, empty tokens
dropped (`cur` is the current token, reversed). -/
def wsTokensAux : Str → Str → List Str
  | cur, [] => if cur = [] then [] else [cur.reverse]
  | cur, c :: t =>
    if isSpc c then
      if cur = [] then wsTokensAux [] t else cur.reverse :: wsTokensAux [] t
    else wsTokensAux (c :: cur) t

def wsTokens (s : Str) : List Str := wsTokensAux [] s

def joinWith (sep : Str) : List Str → Str
  | [] => []
  | [x] => x
  | x :: y :: t => x ++ sep ++ joinWith sep (y :: t)

/-- `' '.join(sql.split())` — whitespace normalisation done by the extractor. -/
def normalizeWs (s : Str) : Str := joinWith (lit " ") (wsTokens s)

/-- `str.split('.')` (keeps empty segments, like Python). -/
def splitDot : Str → List Str
  | [] => [[]]
  | c :: t =>
    if c = '.' then [] :: splitDot t
    else
      match splitDot t with
      | [] => [[c]]
      | h :: r => (c :: h) :: r

/-- `s.split('.')[-1]`. -/
def lastSeg (s : Str) : Str := (splitDot s).getLastD []

/-- Character class `[\w.]` used for column references in the join patterns. -/
def isWrdDot (c : Char) : Bool := isWrd c || c = '.'

/-- `str.isdigit()`: nonempty and all digits. -/
def pyIsDigit (s : Str) : Bool := !s.isEmpty && s.all isDig

/-- `int(s)` for a digit string. -/
def digitsToNat (s : Str) : Nat := s.foldl (fun n c => n * 10 + (c.toNat - 48)) 0

/-- The decimal digit character for `n < 10` (only applied to `n % 10` and
to `n < 10` below). -/
def digitChar : Nat → Char
  | 0 => '0' | 1 => '1' | 2 => '2' | 3 => '3' | 4 => '4'
  | 5 => '5' | 6 => '6' | 7 => '7' | 8 => '8' | _ => '9'

/-- `str(n)` for a natural number.  Fuel-structural: `fuel > n` is
maintained (`n / 10 < n ≤ fuel - 1` when `n ≥ 10`), so with `n + 1`
initial fuel the exhaustion case is unreachable. -/
def natToStrAux : Nat → Nat → Str
  | 0, _ => []
  | f + 1, n =>
    if n < 10 then [digitChar n]
    else natToStrAux f (n / 10) ++ [digitChar (n % 10)]

def natToStr (n : Nat) : Str := natToStrAux (n + 1) n

/-!
### Join inference: `_parse_connect_by_condition` (lines 480–531)
-/

/-- `re.match(r'\s*PRIOR\s+([\w.]+)\s*=\s*([\w.]+)\s*$', s, re.IGNORECASE)`.
Both `([\w.]+)` groups are greedy runs over a class disjoint from `\s` and
`=`, so backtracking can never produce a different match: each group is the
maximal `[\w.]` run at its position. -/
def priorLeft (s : Str) : Option (Str × Str) :=
  let s1 := s.dropWhile isSpc
  if ciEq (s1.take 5) (lit "PRIOR") then
    let s2 := s1.drop 5
    if (s2.takeWhile isSpc).isEmpty then none
    else
      let s3 := s2.dropWhile isSpc
      let g1 := s3.takeWhile isWrdDot
      if g1.isEmpty then none
      else
        match (s3.dropWhile isWrdDot).dropWhile isSpc with
        | '=' :: s5 =>
          let s6 := s5.dropWhile isSpc
          let g2 := s6.takeWhile isWrdDot
          if g2.isEmpty then none
          else if (s6.dropWhile isWrdDot).dropWhile isSpc = [] then some (g1, g2)
          else none
        | _ => none
  else none

/-- `re.match(r'\s*([\w.]+)\s*=\s*PRIOR\s+([\w.]+)\s*$', s, re.IGNORECASE)`;
returns `(child, parent)` = (group 1, group 2). -/
def priorRight (s : Str) : Option (Str × Str) :=
  let s1 := s.dropWhile isSpc
  let g1 := s1.takeWhile isWrdDot
  if g1.isEmpty then none
  else
    match (s1.dropWhile isWrdDot).dropWhile isSpc with
    | '=' :: s3 =>
      let s4 := s3.dropWhile isSpc
      if ciEq (s4.take 5) (lit "PRIOR") then
        let s5 := s4.drop 5
        if (s5.takeWhile isSpc).isEmpty then none
        else
          let s6 := s5.dropWhile isSpc
          let g2 := s6.takeWhile isWrdDot
          if g2.isEmpty then none
          else if (s6.dropWhile isWrdDot).dropWhile isSpc = [] then some (g1, g2)
          else none
      else none
    | _ => none

/-- `f"{table_alias}.{child_col} = {cte_name}.{parent_col}"` after the
`col.split('.')[-1]` qualification stripping on both columns. -/
def renderJoin (tableAlias cteName child parent : Str) : Str :=
  tableAlias ++ '.' :: lastSeg child ++ lit " = " ++ cteName ++ '.' :: lastSeg parent

/-- One conjunct through the two `PRIOR` patterns (lines 493–518). -/
def parseSimpleCond (tableAlias cteName s : Str) : Option Str :=
  match priorLeft s with
  | some (p, c) => some (renderJoin tableAlias cteName c p)
  | none =>
    match priorRight s with
    | some (c, p) => some (renderJoin tableAlias cteName c p)
    | none => none

/-- Length of the match of `\s+AND\s+` (case-insensitive) starting exactly at
the head of `s`, if any.  Both `\s+` runs are maximal: a shorter first run
would leave a space where `A` is required, and greedy trailing `\s+` takes
the maximal run. -/
def sepLenAt (s : Str) : Option Nat :=
  match s with
  | [] => none
  | c :: _ =>
    if isSpc c then
      let r := s.takeWhile isSpc
      let s1 := s.drop r.length
      if ciEq (s1.take 3) (lit "AND") then
        let r2 := (s1.drop 3).takeWhile isSpc
        if r2.isEmpty then none else some (r.length + 3 + r2.length)
      else none
    else none

/-- `re.split(r'\s+AND\s+', s, flags=re.IGNORECASE)`, single left-to-right
pass; `acc` is the current piece reversed.  Fuel is spent one unit per step
while at least one character is consumed per step, so starting from
`s.length` the fuel-exhaustion case can only be reached with `s = []`,
where it coincides with the normal base case. -/
def splitAndF : Nat → Str → Str → List Str
  | 0, acc, s => [acc.reverse ++ s]
  | _ + 1, acc, [] => [acc.reverse]
  | f + 1, acc, c :: t =>
    match sepLenAt (c :: t) with
    | some L => acc.reverse :: splitAndF f [] ((c :: t).drop L)
    | none => splitAndF f (c :: acc) t

def splitAnd (s : Str) : List Str := splitAndF s.length [] s

/-- `_parse_connect_by_condition(connect_by, table_alias, cte_name)`.
The Python function recurses into itself on each `AND`-split piece; pieces
are at least five characters shorter than the input (a `\s+AND\s+` match
was removed), so one unit of fuel per level with `s.length + 1` initial
fuel can never be exhausted. -/
def parseCBCF (ta cn : Str) : Nat → Str → Option Str
  | 0, _ => none
  | f + 1, s =>
    if s.isEmpty then none
    else
      match parseSimpleCond ta cn s with
      | some r => some r
      | none =>
        if occurs (lit " AND ") (toUp s) then
          let conv := (splitAnd s).filterMap (fun p => parseCBCF ta cn f (stripStr p))
          if conv.isEmpty then none else some (joinWith (lit " AND ") conv)
        else none

def parseCBC (ta cn s : Str) : Option Str := parseCBCF ta cn (s.length + 1) s

/-!
### Generic scanner combinators

`re.search`-style driving loops: try a prefix-test at every position, left
to right, optionally tracking the previous character for `\b` boundaries.
-/

def scanFirst {α : Type} (test : Str → Option α) : Str → Option α
  | [] => test []
  | c :: t =>
    match test (c :: t) with
    | some x => some x
    | none => scanFirst test t

def scanFirstB {α : Type} (test : Option Char → Str → Option α) :
    Option Char → Str → Option α
  | prev, [] => test prev []
  | prev, c :: t =>
    match test prev (c :: t) with
    | some x => some x
    | none => scanFirstB test (some c) t

/-- `\b` holds before a word character iff the previous character is absent
or not a word character. -/
def noWrdBefore (prev : Option Char) : Bool :=
  match prev with
  | none => true
  | some c => !isWrd c

/-- `\b` holds after a word character iff the next character is absent or
not a word character. -/
def noWrdAt (s : Str) : Bool :=
  match s with
  | [] => true
  | c :: _ => !isWrd c

/-- Lazy group `(.*?)` with a zero-width lookahead: the group is the minimal
prefix after which `la` holds (first component), paired with the rest. -/
def lazyUntil (la : Str → Bool) : Str → Option (Str × Str)
  | [] => if la [] then some ([], []) else none
  | c :: t =>
    if la (c :: t) then some ([], c :: t)
    else (lazyUntil la t).map (fun r => (c :: r.1, r.2))

/-- Lazy group `(.+?)` (at least one character) with a consuming
continuation: minimal nonempty prefix whose remainder satisfies `cont`. -/
def lazyGE1 {α : Type} (cont : Str → Option α) : Str → Option (Str × α)
  | [] => none
  | c :: t =>
    match cont t with
    | some x => some ([c], x)
    | none => (lazyGE1 cont t).map (fun r => (c :: r.1, r.2))

/-- `\s+(.*?)⟨continuation that itself starts with \s+⟩`, with Python's
backtracking priorities.  `contFull s` tests the continuation (starting
with its own `\s+`) and `contBare s` tests the continuation with the
leading `\s+` already consumed.  The leading `\s+` is first taken maximal
(run `r`); the lazy group is then grown minimally.  If no continuation
position exists at or after the end of the run, the only remaining
possibility is that the continuation keyword starts exactly at the end of
the run, with the run split between the leading `\s+` (≥ 1) and the
continuation's `\s+` (≥ 1), which needs `r.length ≥ 2` and yields an empty
group — exactly the order in which Python's engine backtracks. -/
def lazySpGroup (contFull : Str → Bool) (contBare : Str → Bool) (s : Str) :
    Option Str :=
  let r := s.takeWhile isSpc
  if r.isEmpty then none
  else
    match lazyUntil contFull (s.dropWhile isSpc) with
    | some (g, _) => some g
    | none => if 2 ≤ r.length && contBare (s.dropWhile isSpc) then some [] else none

/-- `\s*KW` as a zero-width lookahead alternative (`\s*` maximal; a shorter
run would leave a space where the keyword's first letter is required). -/
def lookKw1 (kw : String) (s : Str) : Bool :=
  ciEq ((s.dropWhile isSpc).take (lit kw).length) (lit kw)

/-- `\s*KW1\s+KW2` lookahead. -/
def lookKw2 (kw1 kw2 : String) (s : Str) : Bool :=
  let u := s.dropWhile isSpc
  ciEq (u.take (lit kw1).length) (lit kw1) &&
    (let v := u.drop (lit kw1).length
     !(v.takeWhile isSpc).isEmpty &&
       ciEq ((v.dropWhile isSpc).take (lit kw2).length) (lit kw2))

/-- `\s*KW1\s+KW2\s+KW3` lookahead. -/
def lookKw3 (kw1 kw2 kw3 : String) (s : Str) : Bool :=
  let u := s.dropWhile isSpc
  ciEq (u.take (lit kw1).length) (lit kw1) &&
    (let v := u.drop (lit kw1).length
     !(v.takeWhile isSpc).isEmpty &&
       (let w := v.dropWhile isSpc
        ciEq (w.take (lit kw2).length) (lit kw2) &&
          (let x := w.drop (lit kw2).length
           !(x.takeWhile isSpc).isEmpty &&
             ciEq ((x.dropWhile isSpc).take (lit kw3).length) (lit kw3))))

/-- `\s*$` lookahead. -/
def lookEnd (s : Str) : Bool := (s.dropWhile isSpc).isEmpty

/-!
### Clause extractor scanners (`_parse_connect_by_query`, lines 160–299)
-/

/-- `re.match(r'^\s*SELECT\s+(.*?)\s+FROM\s+', sql, re.IGNORECASE | re.DOTALL)`
group 1 (before the `.strip()` applied by the caller). -/
def selectMatch (s : Str) : Option Str :=
  let s1 := s.dropWhile isSpc
  if ciEq (s1.take 6) (lit "SELECT") then
    lazySpGroup
      (fun u => !(u.takeWhile isSpc).isEmpty &&
        ciEq ((u.dropWhile isSpc).take 4) (lit "FROM") &&
        !(((u.dropWhile isSpc).drop 4).takeWhile isSpc).isEmpty)
      (fun u => ciEq (u.take 4) (lit "FROM") && !((u.drop 4).takeWhile isSpc).isEmpty)
      (s1.drop 6)
  else none

/-- The lookahead `(?=\s+(?:WHERE|START|CONNECT|ORDER|GROUP|HAVING|$))` of
the FROM pattern: at least one space, then (after the maximal run) one of
the keywords or the end of the string. -/
def fromLook (s : Str) : Bool :=
  !(s.takeWhile isSpc).isEmpty &&
    (let u := s.dropWhile isSpc
     u.isEmpty || ciEq (u.take 5) (lit "WHERE") || ciEq (u.take 5) (lit "START") ||
       ciEq (u.take 7) (lit "CONNECT") || ciEq (u.take 5) (lit "ORDER") ||
       ciEq (u.take 5) (lit "GROUP") || ciEq (u.take 6) (lit "HAVING"))

/-- `(?:AS\s+)?(\w+)` followed by the FROM lookahead, with Python's ordering:
the `AS`-branch (consuming `AS\s+`) is tried before the plain word.  Each
`(\w+)` is the maximal word run (a shorter run would leave a word character
where the lookahead requires `\s`). -/
def fromAlias (u : Str) : Option Str :=
  let tryWord : Str → Option Str := fun v =>
    let w := v.takeWhile isWrd
    if w.isEmpty then none
    else if fromLook (v.dropWhile isWrd) then some w else none
  match (if ciEq (u.take 2) (lit "AS") && !((u.drop 2).takeWhile isSpc).isEmpty then
           tryWord ((u.drop 2).dropWhile isSpc)
         else none) with
  | some w => some w
  | none => tryWord u

/-- Test, at one position, of
`\bFROM\s+([\w.]+)(?:\s+(?:AS\s+)?(\w+))?(?=\s+(?:WHERE|START|CONNECT|ORDER|GROUP|HAVING|$))`.
`([\w.]+)` is the maximal `[\w.]` run: a shorter run leaves a `[\w.]`
character where both the optional alias part and the lookahead require
whitespace. -/
def fromTest1 (prev : Option Char) (s : Str) : Option (Str × Option Str) :=
  if noWrdBefore prev && ciEq (s.take 4) (lit "FROM") then
    let s2 := s.drop 4
    if (s2.takeWhile isSpc).isEmpty then none
    else
      let s3 := s2.dropWhile isSpc
      let g1 := s3.takeWhile isWrdDot
      if g1.isEmpty then none
      else
        let s4 := s3.dropWhile isWrdDot
        -- optional alias part: `\s+(?:AS\s+)?(\w+)` then lookahead, tried
        -- before the alias-less alternative (lookahead directly at s4)
        match (if (s4.takeWhile isSpc).isEmpty then none
               else fromAlias (s4.dropWhile isSpc)) with
        | some w => some (g1, some w)
        | none => if fromLook s4 then some (g1, none) else none
  else none

/-- Fallback `re.search(r'\bFROM\s+([\w.]+)', sql, re.IGNORECASE)`. -/
def fromTest2 (prev : Option Char) (s : Str) : Option Str :=
  if noWrdBefore prev && ciEq (s.take 4) (lit "FROM") then
    let s2 := s.drop 4
    if (s2.takeWhile isSpc).isEmpty then none
    else
      let g1 := (s2.dropWhile isSpc).takeWhile isWrdDot
      if g1.isEmpty then none else some g1
  else none

/-- Test, at one position, of `\bKW₁\s+KW₂\s+(.*?)(?=LOOKAHEAD)`:
used for `START WITH`, `CONNECT BY` (without the NOCYCLE group),
`WHERE` (single keyword), `GROUP BY` and `ORDER BY`.  After the final
mandatory `\s+` a match always exists because every lookahead here has a
`\s*$` alternative, so the maximal run is never backtracked. -/
def kwTail1 (kw : String) (la : Str → Bool) (prev : Option Char) (s : Str) :
    Option Str :=
  if noWrdBefore prev && ciEq (s.take (lit kw).length) (lit kw) then
    let s2 := s.drop (lit kw).length
    if (s2.takeWhile isSpc).isEmpty then none
    else (lazyUntil la (s2.dropWhile isSpc)).map Prod.fst
  else none

def kwTail2 (kw1 kw2 : String) (la : Str → Bool) (prev : Option Char) (s : Str) :
    Option Str :=
  if noWrdBefore prev && ciEq (s.take (lit kw1).length) (lit kw1) then
    let s2 := s.drop (lit kw1).length
    if (s2.takeWhile isSpc).isEmpty then none
    else
      let s3 := s2.dropWhile isSpc
      if ciEq (s3.take (lit kw2).length) (lit kw2) then
        let s4 := s3.drop (lit kw2).length
        if (s4.takeWhile isSpc).isEmpty then none
        else (lazyUntil la (s4.dropWhile isSpc)).map Prod.fst
      else none
  else none

def kwTail3 (kw1 kw2 kw3 : String) (la : Str → Bool) (prev : Option Char)
    (s : Str) : Option Str :=
  if noWrdBefore prev && ciEq (s.take (lit kw1).length) (lit kw1) then
    let s2 := s.drop (lit kw1).length
    if (s2.takeWhile isSpc).isEmpty then none
    else
      let s3 := s2.dropWhile isSpc
      if ciEq (s3.take (lit kw2).length) (lit kw2) then
        let s4 := s3.drop (lit kw2).length
        if (s4.takeWhile isSpc).isEmpty then none
        else
          let s5 := s4.dropWhile isSpc
          if ciEq (s5.take (lit kw3).length) (lit kw3) then
            let s6 := s5.drop (lit kw3).length
            if (s6.takeWhile isSpc).isEmpty then none
            else (lazyUntil la (s6.dropWhile isSpc)).map Prod.fst
          else none
      else none
  else none

/-- `re.search(r'\bSTART\s+WITH\s+(.*?)(?=\s*CONNECT\s+BY|\s*ORDER\s+SIBLINGS\s+BY|\s*ORDER\s+BY|\s*GROUP\s+BY|\s*$)', ...)`. -/
def startWithSearch (s : Str) : Option Str :=
  scanFirstB
    (kwTail2 "START" "WITH" (fun u =>
      lookKw2 "CONNECT" "BY" u || lookKw3 "ORDER" "SIBLINGS" "BY" u ||
        lookKw2 "ORDER" "BY" u || lookKw2 "GROUP" "BY" u || lookEnd u))
    none s

/-- Lookahead of the CONNECT BY pattern. -/
def cbLook (u : Str) : Bool :=
  lookKw2 "START" "WITH" u || lookKw3 "ORDER" "SIBLINGS" "BY" u ||
    lookKw2 "ORDER" "BY" u || lookKw2 "GROUP" "BY" u || lookKw1 "HAVING" u ||
    lookEnd u

/-- Test, at one position, of
`\bCONNECT\s+BY\s+(NOCYCLE\s+)?(.*?)(?=…|\s*$)` returning
(`NOCYCLE` group matched, group 2).  The optional `(NOCYCLE\s+)` group is
tried first; since the lookahead has a `\s*$` alternative, a match always
exists either way and the engine never backtracks out of a successful
`NOCYCLE\s+`. -/
def connectByTest (prev : Option Char) (s : Str) : Option (Bool × Str) :=
  if noWrdBefore prev && ciEq (s.take 7) (lit "CONNECT") then
    let s2 := s.drop 7
    if (s2.takeWhile isSpc).isEmpty then none
    else
      let s3 := s2.dropWhile isSpc
      if ciEq (s3.take 2) (lit "BY") then
        let s4 := s3.drop 2
        if (s4.takeWhile isSpc).isEmpty then none
        else
          let s5 := s4.dropWhile isSpc
          let noc := ciEq (s5.take 7) (lit "NOCYCLE") &&
            !((s5.drop 7).takeWhile isSpc).isEmpty
          let s6 := if noc then (s5.drop 7).dropWhile isSpc else s5
          (lazyUntil cbLook s6).map (fun r => (noc, r.1))
      else none
  else none

def connectBySearch (s : Str) : Option (Bool × Str) := scanFirstB connectByTest none s

/-- `re.search(r'\bWHERE\s+(.*?)(?=\s*START\s+WITH|\s*CONNECT\s+BY|\s*ORDER\s+BY|\s*GROUP\s+BY|\s*$)', ...)`. -/
def whereSearch (s : Str) : Option Str :=
  scanFirstB
    (kwTail1 "WHERE" (fun u =>
      lookKw2 "START" "WITH" u || lookKw2 "CONNECT" "BY" u ||
        lookKw2 "ORDER" "BY" u || lookKw2 "GROUP" "BY" u || lookEnd u))
    none s

/-- `re.search(r'\bORDER\s+SIBLINGS\s+BY\s+(.*?)(?=\s*ORDER\s+BY|\s*$)', ...)`. -/
def orderSibSearch (s : Str) : Option Str :=
  scanFirstB
    (kwTail3 "ORDER" "SIBLINGS" "BY" (fun u => lookKw2 "ORDER" "BY" u || lookEnd u))
    none s

/-- `re.search(r'\bORDER\s+BY\s+(.*?)(?=\s*$)', ...)` (used both by the plain
path and the sequence generator; the inputs are whitespace-normalised, so
the missing DOTALL flag is immaterial). -/
def orderBySearch (s : Str) : Option Str :=
  scanFirstB (kwTail2 "ORDER" "BY" lookEnd) none s

/-- Test at one position of
`\bORDER\s+SIBLINGS\s+BY\s+.*?\s+ORDER\s+BY\s+(.*?)(?=\s*$)` — the variant
used when `ORDER SIBLINGS BY` is present.  The inner `.*?\s+ORDER\s+BY\s+`
has the same backtracking shape as `lazySpGroup`; here only group 1 (after
the inner `ORDER BY`) is wanted, produced by `tailFrom`. -/
def orderBy2Test (prev : Option Char) (s : Str) : Option Str :=
  if noWrdBefore prev && ciEq (s.take 5) (lit "ORDER") then
    let s2 := s.drop 5
    if (s2.takeWhile isSpc).isEmpty then none
    else
      let s3 := s2.dropWhile isSpc
      if ciEq (s3.take 8) (lit "SIBLINGS") then
        let s4 := s3.drop 8
        if (s4.takeWhile isSpc).isEmpty then none
        else
          let s5 := s4.dropWhile isSpc
          if ciEq (s5.take 2) (lit "BY") then
            let s6 := s5.drop 2
            -- `\s+.*?\s+ORDER\s+BY\s+(.*?)(?=\s*$)`
            let contOB : Str → Option Str := fun v =>
              if (v.takeWhile isSpc).isEmpty then none
              else
                let v1 := v.dropWhile isSpc
                if ciEq (v1.take 5) (lit "ORDER") then
                  let v2 := v1.drop 5
                  if (v2.takeWhile isSpc).isEmpty then none
                  else
                    let v3 := v2.dropWhile isSpc
                    if ciEq (v3.take 2) (lit "BY") then
                      let v4 := v3.drop 2
                      if (v4.takeWhile isSpc).isEmpty then none
                      else (lazyUntil lookEnd (v4.dropWhile isSpc)).map Prod.fst
                    else none
                else none
            let contBare : Str → Option Str := fun v1 =>
              if ciEq (v1.take 5) (lit "ORDER") then
                let v2 := v1.drop 5
                if (v2.takeWhile isSpc).isEmpty then none
                else
                  let v3 := v2.dropWhile isSpc
                  if ciEq (v3.take 2) (lit "BY") then
                    let v4 := v3.drop 2
                    if (v4.takeWhile isSpc).isEmpty then none
                    else (lazyUntil lookEnd (v4.dropWhile isSpc)).map Prod.fst
                  else none
              else none
            let r := s6.takeWhile isSpc
            if r.isEmpty then none
            else
              match lazyGE1 contOB (s6.dropWhile isSpc) with
              | some (_, g) => some g
              | none =>
                -- `.*?` may also be empty with the separating `\s+` taken
                -- from the run itself (needs only one space here since the
                -- first `.*?` may be empty: `\s+` then `.*?` empty then the
                -- continuation's own `\s+` — both can share the run only if
                -- it has at least 2 characters; with the run length 1 the
                -- continuation `\s+ORDER` must reuse that single space, and
                -- the outer `\s+` fails, so the keyword-at-run-end case
                -- needs r.length ≥ 2)
                if 2 ≤ r.length then contBare (s6.dropWhile isSpc) else none
          else none
      else none
  else none

def orderBy2Search (s : Str) : Option Str := scanFirstB orderBy2Test none s

/-- `re.search(r'\bGROUP\s+BY\s+(.*?)(?=\s*HAVING|\s*ORDER|\s*$)', ...)`. -/
def groupBySearch (s : Str) : Option Str :=
  scanFirstB
    (kwTail2 "GROUP" "BY" (fun u =>
      lookKw1 "HAVING" u || lookKw1 "ORDER" u || lookEnd u))
    none s

/-- `re.search(r'\bFROM\s+DUAL\b.*\bCONNECT\s+BY\s+LEVEL\s*<=\s*(\d+|\w+)', sql_upper)`
as a Boolean (the group is re-extracted later from the original text).
`.*` is greedy but only existence matters: the pattern matches iff some
`\bFROM\s+DUAL\b` occurrence is followed, anywhere to its right, by a
`\bCONNECT\s+BY\s+LEVEL\s*<=\s*[\w]` occurrence. -/
def dualSearch (sU : Str) : Bool :=
  let cbTest : Option Char → Str → Option Unit := fun prev v =>
    if noWrdBefore prev && isPrefOf (lit "CONNECT") v then
      let v2 := v.drop 7
      if (v2.takeWhile isSpc).isEmpty then none
      else
        let v3 := v2.dropWhile isSpc
        if isPrefOf (lit "BY") v3 then
          let v4 := v3.drop 2
          if (v4.takeWhile isSpc).isEmpty then none
          else
            let v5 := v4.dropWhile isSpc
            if isPrefOf (lit "LEVEL") v5 then
              let v6 := (v5.drop 5).dropWhile isSpc
              if isPrefOf (lit "<=") v6 then
                match (v6.drop 2).dropWhile isSpc with
                | c :: _ => if isWrd c then some () else none
                | [] => none
              else none
            else none
        else none
    else none
  let fdTest : Option Char → Str → Option Unit := fun prev v =>
    if noWrdBefore prev && isPrefOf (lit "FROM") v then
      let v2 := v.drop 4
      if (v2.takeWhile isSpc).isEmpty then none
      else
        let v3 := v2.dropWhile isSpc
        if isPrefOf (lit "DUAL") v3 && noWrdAt (v3.drop 4) then
          scanFirstB cbTest (some 'L') (v3.drop 4)
        else none
    else none
  (scanFirstB fdTest none sU).isSome

/-!
### Substitution scanners (`re.sub`)

All are single left-to-right passes: at each position either a match is
consumed and the replacement emitted, or one character is copied.  The
scan continues after the match (Python `re.sub` semantics), carrying the
previous *original* character for `\b` tests.  Fuel is spent one unit per
step while at least one character is consumed per step, so `s.length`
initial fuel cannot be exhausted before `s` is. -/

/-- `re.sub(r'\bTOK\b', repl, s, flags=re.IGNORECASE)` for a word-character
token `TOK` (used with `LEVEL` and `CONNECT_BY_ISLEAF`). -/
def subTokF (tok repl : Str) : Nat → Option Char → Str → Str
  | 0, _, s => s
  | _ + 1, _, [] => []
  | f + 1, prev, c :: t =>
    if noWrdBefore prev && ciEq ((c :: t).take tok.length) tok &&
        noWrdAt ((c :: t).drop tok.length) then
      repl ++ subTokF tok repl f (((c :: t).take tok.length).getLast?) ((c :: t).drop tok.length)
    else c :: subTokF tok repl f (some c) t

def subToken (tok repl s : Str) : Str := subTokF tok repl s.length none s

/-- `re.sub(r'\bLEVEL\b(?!\s*\()', 'id', s, flags=re.IGNORECASE)` — the
sequence-generator select-list rewrite, which must not touch `LEVEL(`
function calls. -/
def subLevelIdF : Nat → Option Char → Str → Str
  | 0, _, s => s
  | _ + 1, _, [] => []
  | f + 1, prev, c :: t =>
    if noWrdBefore prev && ciEq ((c :: t).take 5) (lit "LEVEL") &&
        noWrdAt ((c :: t).drop 5) &&
        !((((c :: t).drop 5).dropWhile isSpc).take 1 == ['(']) then
      lit "id" ++ subLevelIdF f (((c :: t).take 5).getLast?) ((c :: t).drop 5)
    else c :: subLevelIdF f (some c) t

def subLevelId (s : Str) : Str := subLevelIdF s.length none s

/-- The operator class `[<>=!]`. -/
def isOpChar (c : Char) : Bool := c = '<' || c = '>' || c = '=' || c = '!'

/-- Length of the match of `\bLEVEL\s*[<>=!]+\s*\d+\s*(?:AND\s*)?` starting
exactly at the head of `s` (the `\b` before `LEVEL` is checked by the
caller).  All runs are greedy and the classes of adjacent parts are
disjoint, so each run is maximal; the trailing parts are optional, so the
greedy `\d+`, `\s*` and `(?:AND\s*)?` simply extend the match as far as
they reach. -/
def levelCmpLenAt (s : Str) : Option Nat :=
  if ciEq (s.take 5) (lit "LEVEL") then
    let u1 := (s.drop 5).dropWhile isSpc
    let ops := u1.takeWhile isOpChar
    if ops.isEmpty then none
    else
      let u2 := (u1.dropWhile isOpChar).dropWhile isSpc
      let ds := u2.takeWhile isDig
      if ds.isEmpty then none
      else
        let u3 := (u2.dropWhile isDig).dropWhile isSpc
        let extra :=
          if ciEq (u3.take 3) (lit "AND") then 3 + ((u3.drop 3).takeWhile isSpc).length
          else 0
        some (s.length - u3.length + extra)
  else none

/-- `re.sub(r'\bLEVEL\s*[<>=!]+\s*\d+\s*(?:AND\s*)?', '', s, flags=re.IGNORECASE)`. -/
def subLevelCmpF : Nat → Option Char → Str → Str
  | 0, _, s => s
  | _ + 1, _, [] => []
  | f + 1, prev, c :: t =>
    match (if noWrdBefore prev then levelCmpLenAt (c :: t) else none) with
    | some L => subLevelCmpF f (((c :: t).take L).getLast?) ((c :: t).drop L)
    | none => c :: subLevelCmpF f (some c) t

def subLevelCmp (s : Str) : Str := subLevelCmpF s.length none s

/-- `re.sub(r'\s+AND\s*$', '', s, flags=re.IGNORECASE)`: removes a trailing
`AND`.  The match is anchored at the end, so there is at most one; `re.sub`
replaces the leftmost position from which `\s+AND\s*` runs to the end. -/
def trailAndTest (s : Str) : Option Unit :=
  if (s.takeWhile isSpc).isEmpty then none
  else
    let u := s.dropWhile isSpc
    if ciEq (u.take 3) (lit "AND") && ((u.drop 3).dropWhile isSpc).isEmpty then some ()
    else none

def subTrailAnd (s : Str) : Str :=
  match (lazyUntil (fun v => (trailAndTest v).isSome) s) with
  | some (g, _) => g
  | none => s

/-- `re.search(r'\bLEVEL\s*([<>=!]+)\s*(\d+)', s, re.IGNORECASE)` groups. -/
def levelCmpSearch (s : Str) : Option (Str × Str) :=
  scanFirstB
    (fun prev v =>
      if noWrdBefore prev && ciEq (v.take 5) (lit "LEVEL") then
        let u1 := (v.drop 5).dropWhile isSpc
        let ops := u1.takeWhile isOpChar
        if ops.isEmpty then none
        else
          let u2 := (u1.dropWhile isOpChar).dropWhile isSpc
          let ds := u2.takeWhile isDig
          if ds.isEmpty then none else some (ops, ds)
      else none)
    none s

/-- The per-position test of `levelCmpSearch`, as a named function. -/
def lvlCmpTest (prev : Option Char) (v : Str) : Option (Str × Str) :=
  if noWrdBefore prev && ciEq (v.take 5) (lit "LEVEL") then
    let u1 := (v.drop 5).dropWhile isSpc
    let ops := u1.takeWhile isOpChar
    if ops.isEmpty then none
    else
      let u2 := (u1.dropWhile isOpChar).dropWhile isSpc
      let ds := u2.takeWhile isDig
      if ds.isEmpty then none else some (ops, ds)
  else none

/-!
### The parsed components (`ConnectByComponents`, lines 52–72)
-/

structure ConnectByComponents where
  select_clause : Str
  from_clause : Str
  where_clause : Option Str := none
  start_with_clause : Option Str := none
  connect_by_clause : Option Str := none
  order_siblings_by : Option Str := none
  order_by_clause : Option Str := none
  group_by_clause : Option Str := none
  having_clause : Option Str := none
  has_prior : Bool := false
  has_nocycle : Bool := false
  has_level : Bool := false
  has_sys_connect_by_path : Bool := false
  has_connect_by_root : Bool := false
  has_connect_by_isleaf : Bool := false
  is_sequence_generator : Bool := false
  level_limit : Option Str := none
  table_alias : Option Str := none
  deriving DecidableEq, Repr

structure ConversionResult where
  success : Bool
  converted_sql : Str
  original_sql : Str
  warnings : List Str := []
  notes : List Str := []
  deriving DecidableEq, Repr

/-- `_is_connect_by_query` (lines 155–158). -/
def isConnectByQuery (sql : Str) : Bool :=
  occurs (lit "CONNECT BY") (toUp sql) || occurs (lit "CONNECT_BY") (toUp sql)

/-- `re.match(r'^\s*SELECT\s+(.*?)\s+FROM\s+DUAL', sql, re.IGNORECASE | re.DOTALL)`
group 1 — same backtracking shape as `selectMatch`. -/
def seqSelectMatch (s : Str) : Option Str :=
  let s1 := s.dropWhile isSpc
  if ciEq (s1.take 6) (lit "SELECT") then
    lazySpGroup
      (fun u => !(u.takeWhile isSpc).isEmpty &&
        (let v := u.dropWhile isSpc
         ciEq (v.take 4) (lit "FROM") &&
           (let v2 := v.drop 4
            !(v2.takeWhile isSpc).isEmpty &&
              ciEq ((v2.dropWhile isSpc).take 4) (lit "DUAL"))))
      (fun v => ciEq (v.take 4) (lit "FROM") &&
        (let v2 := v.drop 4
         !(v2.takeWhile isSpc).isEmpty &&
           ciEq ((v2.dropWhile isSpc).take 4) (lit "DUAL")))
      (s1.drop 6)
  else none

/-- `re.search(r'\bCONNECT\s+BY\s+LEVEL\s*<=\s*(\d+|\w+)', sql, re.IGNORECASE)`
group 1.  The alternation prefers `\d+`: a maximal digit run if the first
character is a digit, else a maximal word run. -/
def seqLimitSearch (s : Str) : Option Str :=
  scanFirstB
    (fun prev v =>
      if noWrdBefore prev && ciEq (v.take 7) (lit "CONNECT") then
        let v2 := v.drop 7
        if (v2.takeWhile isSpc).isEmpty then none
        else
          let v3 := v2.dropWhile isSpc
          if ciEq (v3.take 2) (lit "BY") then
            let v4 := v3.drop 2
            if (v4.takeWhile isSpc).isEmpty then none
            else
              let v5 := v4.dropWhile isSpc
              if ciEq (v5.take 5) (lit "LEVEL") then
                let v6 := (v5.drop 5).dropWhile isSpc
                if isPrefOf (lit "<=") v6 then
                  let v7 := (v6.drop 2).dropWhile isSpc
                  let dsRun := v7.takeWhile isDig
                  if !dsRun.isEmpty then some dsRun
                  else
                    let wRun := v7.takeWhile isWrd
                    if wRun.isEmpty then none else some wRun
                else none
              else none
          else none
      else none)
    none s

/-- `_parse_sequence_generator` (lines 301–336); its argument is the
whitespace-normalised statement. -/
def parseSequenceGenerator (sqlN : Str) : ConnectByComponents :=
  let sel := match seqSelectMatch sqlN with
    | some g => stripStr g
    | none => lit "LEVEL"
  let limit := (seqLimitSearch sqlN).getD (lit "10")
  let ob := (orderBySearch sqlN).map stripStr
  { select_clause := sel
    from_clause := lit "DUAL"
    is_sequence_generator := true
    level_limit := some limit
    order_by_clause := ob
    has_level := true }

/-- The reserved-keyword filter applied to a parsed alias (lines 208–210). -/
def cleanAlias (al : Option Str) : Option Str :=
  match al with
  | none => none
  | some a =>
    if toUp a = lit "START" || toUp a = lit "CONNECT" || toUp a = lit "WHERE" ||
        toUp a = lit "ORDER" || toUp a = lit "GROUP" || toUp a = lit "HAVING" then none
    else some a

/-- `_parse_connect_by_query` (lines 160–299). -/
def parseConnectByQuery (sql : Str) : Option ConnectByComponents :=
  let sqlN := normalizeWs sql
  let sqlU := toUp sqlN
  if dualSearch sqlU then some (parseSequenceGenerator sqlN)
  else
    match selectMatch sqlN with
    | none => none
    | some sel =>
      let fromRes : Option (Str × Option Str) :=
        match scanFirstB fromTest1 none sqlN with
        | some (g1, al) => some (stripStr g1, cleanAlias al)
        | none =>
          match scanFirstB fromTest2 none sqlN with
          | some g1 => some (stripStr g1, none)
          | none => none
      match fromRes with
      | none => none
      | some (fromClause, tblAlias) =>
        match connectBySearch sqlN with
        | none => none
        | some (noc, cbRaw) =>
          let cb := stripStr cbRaw
          let sibs := (orderSibSearch sqlN).map stripStr
          some
          { select_clause := stripStr sel
            from_clause := fromClause
            where_clause := (whereSearch sqlN).map stripStr
            start_with_clause := (startWithSearch sqlN).map stripStr
            connect_by_clause := some cb
            order_siblings_by := sibs
            order_by_clause :=
              (match sibs with
               | some _ => orderBy2Search sqlN
               | none => orderBySearch sqlN).map stripStr
            group_by_clause := (groupBySearch sqlN).map stripStr
            has_prior := occurs (lit "PRIOR") (toUp cb)
            has_nocycle := noc
            has_level := occurs (lit "LEVEL") sqlU && occurs (lit "CONNECT BY") sqlU
            has_sys_connect_by_path := occurs (lit "SYS_CONNECT_BY_PATH") sqlU
            has_connect_by_root := occurs (lit "CONNECT_BY_ROOT") sqlU
            has_connect_by_isleaf := occurs (lit "CONNECT_BY_ISLEAF") sqlU
            table_alias := tblAlias }

/-- `_convert_sequence_generator` (lines 338–382). -/
def convertSequenceGenerator (comps : ConnectByComponents) : Str :=
  let levelLimit := match comps.level_limit with
    | some l => if l.isEmpty then lit "10" else l
    | none => lit "10"
  let selConv := subLevelId comps.select_clause
  let rangeExpr :=
    if pyIsDigit levelLimit then
      lit "RANGE(1, " ++ natToStr (digitsToNat levelLimit + 1) ++ lit ")"
    else lit "RANGE(1, " ++ levelLimit ++ lit " + 1)"
  let res := lit "SELECT " ++ selConv ++ lit "\nFROM " ++ rangeExpr
  match comps.order_by_clause with
  | some ob =>
    if ob.isEmpty then res
    else res ++ lit "\nORDER BY " ++ subToken (lit "LEVEL") (lit "id") ob
  | none => res

/-!
### Column classifier (`_build_column_lists`, lines 533–663, and
`_split_select_columns`, lines 665–689)
-/

/-- `_split_select_columns`: split on top-level commas, tracking parenthesis
depth (which, as in Python, may go negative — hence `Int`).  Pieces at
commas are appended stripped even when empty; the final piece only when
nonempty after stripping. -/
def splitColsAux : Int → Str → Str → List Str
  | _, cur, [] => if stripStr cur.reverse = [] then [] else [stripStr cur.reverse]
  | d, cur, c :: t =>
    if c = '(' then splitColsAux (d + 1) (c :: cur) t
    else if c = ')' then splitColsAux (d - 1) (c :: cur) t
    else if c = ',' && d == 0 then stripStr cur.reverse :: splitColsAux d [] t
    else splitColsAux d (c :: cur) t

def splitCols (s : Str) : List Str := splitColsAux 0 [] s

/-- `re.match(r'^\s*LEVEL\s*$', col, re.IGNORECASE)` as a Boolean. -/
def isBareLevel (col : Str) : Bool :=
  ciEq (stripStr col) (lit "LEVEL")

/-- `(\w+)\s*$` at `v`: the maximal word run, then whitespace, then the
end — a shorter run would leave a word character where `\s*$` fails. -/
def wordThenEnd (v : Str) : Option Str :=
  let w := v.takeWhile isWrd
  if w.isEmpty then none
  else if ((v.dropWhile isWrd).dropWhile isSpc).isEmpty then some w
  else none

/-- `re.match(r'^\s*LEVEL\s+(?:AS\s+)?(\w+)\s*$', col, re.IGNORECASE)`
group 1.  The optional `AS\s+` is tried first; on failure of its tail the
engine falls back to matching the word directly (so `LEVEL AS` yields the
alias `AS`). -/
def levelAliasMatch (col : Str) : Option Str :=
  let s1 := col.dropWhile isSpc
  if ciEq (s1.take 5) (lit "LEVEL") then
    let s2 := s1.drop 5
    if (s2.takeWhile isSpc).isEmpty then none
    else
      let u := s2.dropWhile isSpc
      match (if ciEq (u.take 2) (lit "AS") && !((u.drop 2).takeWhile isSpc).isEmpty
             then wordThenEnd ((u.drop 2).dropWhile isSpc) else none) with
      | some w => some w
      | none => wordThenEnd u
  else none

/-- `(\w+)?\s*$` at `v`.  If the maximal word run is nonempty but its tail
fails, backing off to the empty option cannot succeed either (the head of
`v` is then a word character, failing `\s*$`), so no extra case arises. -/
def optWordEnd (v : Str) : Option (Option Str) :=
  let w := v.takeWhile isWrd
  if w.isEmpty then
    if (v.dropWhile isSpc).isEmpty then some none else none
  else if ((v.dropWhile isWrd).dropWhile isSpc).isEmpty then some (some w)
  else none

/-- `(?:AS\s+)?(\w+)?\s*$` at `v`, `AS` branch first. -/
def aliasTail (v : Str) : Option (Option Str) :=
  match (if ciEq (v.take 2) (lit "AS") && !((v.drop 2).takeWhile isSpc).isEmpty
         then optWordEnd ((v.drop 2).dropWhile isSpc) else none) with
  | some r => some r
  | none => optWordEnd v

/-- Continuation `\s*,\s*'` after the lazy expression group of the
`SYS_CONNECT_BY_PATH` pattern; returns the rest after the opening quote. -/
def pathComma (x : Str) : Option Str :=
  match x.dropWhile isSpc with
  | ',' :: x2 =>
    match x2.dropWhile isSpc with
    | '\'' :: rest => some rest
    | _ => none
  | _ => none

/-- `'\s*\)\s*(?:AS\s+)?(\w+)?\s*$'` after the closing quote. -/
def pathTail (afterClose : Str) : Option (Option Str) :=
  match afterClose.dropWhile isSpc with
  | ')' :: s4 => aliasTail (s4.dropWhile isSpc)
  | _ => none

/-- The delimiter group `(.+?)'` with full backtracking against the tail:
the earliest closing-quote candidate (group nonempty) whose tail matches
wins; a quote whose tail fails is swallowed into the group and scanning
continues, exactly as the engine grows a lazy group on tail failure. -/
def quoteScanF : Nat → Str → Str → Option (Str × Option Str)
  | 0, _, _ => none
  | _ + 1, _, [] => none
  | f + 1, acc, c :: t =>
    if c = '\'' && !acc.isEmpty then
      match pathTail t with
      | some al => some (acc.reverse, al)
      | none => quoteScanF f (c :: acc) t
    else quoteScanF f (c :: acc) t

/-- The expression group `(.+?)\s*,\s*'` with full backtracking: comma
splits are tried left to right (lazy group); for each, all delimiter/tail
continuations are tried; on failure the group keeps growing.  The greedy
`\s*` of `\(\s*` only shifts where the group *starts inside a whitespace
run*, which cannot change the group's value on inputs whose whitespace was
normalised to single `' '` characters (every character of a run is `' '`),
so the group is scanned from the position right after `(`. -/
def pathScanF : Nat → Str → Str → Option (Str × Str × Option Str)
  | 0, _, _ => none
  | f + 1, acc, rest =>
    match (if acc.isEmpty then none
           else (pathComma rest).bind (fun afterQ =>
             (quoteScanF afterQ.length [] afterQ).map
               (fun r => (acc.reverse, r.1, r.2)))) with
    | some res => some res
    | none =>
      match rest with
      | [] => none
      | c :: t => pathScanF f (c :: acc) t

/-- `re.match(r"^\s*SYS_CONNECT_BY_PATH\s*\(\s*(.+?)\s*,\s*'(.+?)'\s*\)\s*(?:AS\s+)?(\w+)?\s*$", col, re.IGNORECASE)`:
returns (expression, delimiter, alias group). -/
def pathMatch (col : Str) : Option (Str × Str × Option Str) :=
  let s1 := col.dropWhile isSpc
  if ciEq (s1.take 19) (lit "SYS_CONNECT_BY_PATH") then
    match (s1.drop 19).dropWhile isSpc with
    | '(' :: s3 => pathScanF (s3.length + 1) [] s3
    | _ => none
  else none

/-- `re.match(r'^\s*CONNECT_BY_ROOT\s+(\w+)\s+(?:AS\s+)?(\w+)?\s*$', col, re.IGNORECASE)`:
returns (column, alias group).  Note the *mandatory* `\s+` after the
column group. -/
def rootMatch (col : Str) : Option (Str × Option Str) :=
  let s1 := col.dropWhile isSpc
  if ciEq (s1.take 15) (lit "CONNECT_BY_ROOT") then
    let s2 := s1.drop 15
    if (s2.takeWhile isSpc).isEmpty then none
    else
      let s3 := s2.dropWhile isSpc
      let w1 := s3.takeWhile isWrd
      if w1.isEmpty then none
      else
        let s4 := s3.dropWhile isWrd
        if (s4.takeWhile isSpc).isEmpty then none
        else
          match aliasTail (s4.dropWhile isSpc) with
          | some al => some (w1, al)
          | none => none
  else none

/-- `re.match(r'^\s*CONNECT_BY_ISLEAF\s*(?:AS\s+)?(\w+)?\s*$', col, re.IGNORECASE)`
(line 605; note `\s*` after the keyword). -/
def isleafMatch (col : Str) : Bool :=
  let s1 := col.dropWhile isSpc
  ciEq (s1.take 17) (lit "CONNECT_BY_ISLEAF") &&
    (aliasTail ((s1.drop 17).dropWhile isSpc)).isSome

/-- `re.match(r'^\s*CONNECT_BY_ISLEAF\s+(?:AS\s+)?(\w+)?\s*$', col, re.IGNORECASE)`
(line 606; note mandatory `\s+`), collapsed with the `or "is_leaf"` default
of line 607. -/
def isleafAlias (col : Str) : Str :=
  let s1 := col.dropWhile isSpc
  if ciEq (s1.take 17) (lit "CONNECT_BY_ISLEAF") &&
      !((s1.drop 17).takeWhile isSpc).isEmpty then
    match aliasTail ((s1.drop 17).dropWhile isSpc) with
    | some (some w) => w
    | _ => lit "is_leaf"
  else lit "is_leaf"

/-- `re.search(r'\s+(?:AS\s+)?(\w+)\s*$', col, re.IGNORECASE)` computed from
the right: any match ends at the end of the string, so its `(\w+)` group is
the final word run; the match succeeds iff that run is nonempty and
directly preceded by whitespace (either the mandatory `\s+` or the `\s+`
of the `AS` branch).  The leftmost match extends over the maximal
whitespace run before the word and — when the run is preceded by `AS`
which is itself preceded by whitespace — over that `AS` and the maximal
whitespace run before it.  Returns (matched text = `group(0)`, alias =
`group(1)`). -/
def aliasSearch (col : Str) : Option (Str × Str) :=
  let r := col.reverse
  let tsp := r.takeWhile isSpc
  let r0 := r.dropWhile isSpc
  let wrev := r0.takeWhile isWrd
  if wrev.isEmpty then none
  else
    let r1 := r0.dropWhile isWrd
    let sp2 := r1.takeWhile isSpc
    if sp2.isEmpty then none
    else
      let r2 := r1.dropWhile isSpc
      if ciEq (r2.take 2).reverse (lit "AS") &&
          !((r2.drop 2).takeWhile isSpc).isEmpty then
        some (((r2.drop 2).takeWhile isSpc).reverse ++ (r2.take 2).reverse ++
          sp2.reverse ++ wrev.reverse ++ tsp.reverse, wrev.reverse)
      else some (sp2.reverse ++ wrev.reverse ++ tsp.reverse, wrev.reverse)

/-- The per-item state transformer of `_build_column_lists` (the body of
the `for col in columns` loop, lines 550–650); the state is
(anchor_cols, recursive_cols, output_cols). -/
def colStep (tableAlias cteName : Str) (st : List Str × List Str × List Str)
    (col0 : Str) : List Str × List Str × List Str :=
  let col := stripStr col0
  if col.isEmpty then st
  else if isBareLevel col then
    (st.1 ++ [lit "1 AS level"],
     st.2.1 ++ [cteName ++ lit ".level + 1 AS level"],
     st.2.2 ++ [lit "level"])
  else
    match levelAliasMatch col with
    | some a =>
      (st.1 ++ [lit "1 AS " ++ a],
       st.2.1 ++ [cteName ++ '.' :: a ++ lit " + 1 AS " ++ a],
       st.2.2 ++ [a])
    | none =>
      match pathMatch col with
      | some (pexpr, delim, aliasOpt) =>
        let a := aliasOpt.getD (lit "path")
        (st.1 ++ [lit "CONCAT(" ++ '\'' :: delim ++ '\'' :: lit ", CAST(" ++
            pexpr ++ lit " AS STRING)) AS " ++ a],
         st.2.1 ++ [lit "CONCAT(" ++ cteName ++ '.' :: a ++ lit ", " ++
            '\'' :: delim ++ '\'' :: lit ", CAST(" ++ tableAlias ++ '.' :: pexpr ++
            lit " AS STRING)) AS " ++ a],
         st.2.2 ++ [a])
      | none =>
        match rootMatch col with
        | some (rc, aliasOpt) =>
          let a := aliasOpt.getD (lit "root_" ++ rc)
          (st.1 ++ [rc ++ lit " AS " ++ a],
           st.2.1 ++ [cteName ++ '.' :: a ++ lit " AS " ++ a],
           st.2.2 ++ [a])
        | none =>
          if isleafMatch col then
            (st.1, st.2.1,
             st.2.2 ++ [lit "-- CONNECT_BY_ISLEAF needs manual implementation AS " ++
               isleafAlias col])
          else if occurs (lit "LEVEL") (toUp col) then
            let anchorCol := subToken (lit "LEVEL") (lit "1") col
            match aliasSearch col with
            | some (_, a) =>
              let recCol := subToken (lit "LEVEL") (cteName ++ lit ".level + 1") col
              (st.1 ++ [anchorCol], st.2.1 ++ [recCol], st.2.2 ++ [a])
            | none =>
              let a := lit "level_expr_" ++ natToStr st.1.length
              let recCol :=
                subToken (lit "LEVEL") (cteName ++ lit ".level + 1") col ++
                  lit " AS " ++ a
              (st.1 ++ [anchorCol ++ lit " AS " ++ a], st.2.1 ++ [recCol],
               st.2.2 ++ [a])
          else
            match aliasSearch col with
            | some (g0, a) =>
              -- `col_base = col[:col.rfind(group0)]`: the match ends at the
              -- end of `col`, so the last occurrence of the matched text
              -- starts at `col.length - g0.length`
              let colBase := col.take (col.length - g0.length)
              (st.1 ++ [col],
               st.2.1 ++ [tableAlias ++ '.' :: stripStr colBase ++ lit " AS " ++ a],
               st.2.2 ++ [a])
            | none =>
              let cn := stripStr (lastSeg col)
              (st.1 ++ [col], st.2.1 ++ [tableAlias ++ '.' :: cn], st.2.2 ++ [cn])

/-- `_build_column_lists` as the three lists (before the `', '.join`). -/
def buildColumnListsL (comps : ConnectByComponents) (tableAlias cteName : Str) :
    List Str × List Str × List Str :=
  let st := (splitCols comps.select_clause).foldl (colStep tableAlias cteName)
    ([], [], [])
  if !(st.1.any (fun c => occurs (lit "level") (toLow c))) && comps.has_level then
    (st.1 ++ [lit "1 AS level"],
     st.2.1 ++ [cteName ++ lit ".level + 1 AS level"],
     st.2.2 ++ [lit "level"])
  else st

/-- `_build_column_lists` (returns the joined strings, as in the source). -/
def buildColumnLists (comps : ConnectByComponents) (tableAlias cteName : Str) :
    Str × Str × Str :=
  let st := buildColumnListsL comps tableAlias cteName
  (joinWith (lit ", ") st.1, joinWith (lit ", ") st.2.1, joinWith (lit ", ") st.2.2)

/-!
### CTE assembler (`_build_recursive_cte`, lines 384–478) and
the driver (`convert`, lines 93–153)
-/

/-- `_generate_alias` (lines 716–721): `name[0]` raises `IndexError` on an
empty string, caught by `convert`'s handler — modelled as `Except`. -/
def generateAlias (tableName : Str) : Except Str Str :=
  match lastSeg tableName with
  | [] => .error (lit "string index out of range")
  | c :: _ => .ok [low c]

/-- `components.from_clause.split()[0]` (line 393), `Except` as above. -/
def headToken (s : Str) : Except Str Str :=
  match wsTokens s with
  | [] => .error (lit "list index out of range")
  | h :: _ => .ok h

/-- `_convert_pseudo_columns` (lines 709–714). -/
def convertPseudoColumns (clause : Str) (_cteName : Str) : Str :=
  subToken (lit "CONNECT_BY_ISLEAF") (lit "is_leaf")
    (subToken (lit "LEVEL") (lit "level") clause)

/-- `_extract_level_filter` (lines 691–707). -/
def extractLevelFilter (comps : ConnectByComponents) : Option Str :=
  match comps.where_clause with
  | none => none
  | some w =>
    if w.isEmpty then none
    else
      match levelCmpSearch w with
      | some (op, v) => some (lit "level " ++ op ++ ' ' :: v)
      | none => none

/-- The anchor `WHERE` computation of `_build_recursive_cte`
(lines 412–428). -/
def anchorWhere (comps : ConnectByComponents) : Str :=
  let aw := match comps.start_with_clause with
    | some s => if s.isEmpty then lit "1=1" else s
    | none => lit "1=1"
  match comps.where_clause with
  | none => aw
  | some w =>
    if w.isEmpty then aw
    else
      let w1 := stripStr (subLevelCmp w)
      let w2 := stripStr (subTrailAnd w1)
      if !w2.isEmpty && toUp w2 ≠ lit "AND" then
        '(' :: aw ++ lit ") AND (" ++ w2 ++ [')']
      else aw

def joinPlaceholder : Str := lit "1=0  -- TODO: Fix join condition"

def joinWarning : Str :=
  lit "Could not parse CONNECT BY condition - may need manual review"

/-- The generated CTE name `f"hierarchy_cte_{self.cte_counter}"`. -/
def cteNameOf (n : Nat) : Str := lit "hierarchy_cte_" ++ natToStr n

/-- The join-condition inference of lines 397–401 (`None` from
`_parse_connect_by_condition`, including the case of a missing
`connect_by_clause`, Python's `not connect_by`). -/
def joinCondOf (comps : ConnectByComponents) (tableAlias cteName : Str) :
    Option Str :=
  match comps.connect_by_clause with
  | none => none
  | some cb => parseCBC tableAlias cteName cb

/-- `_build_recursive_cte` (lines 384–478); `n` is the value of
`self.cte_counter` after the increment of line 389.  Returns the assembled
SQL together with the warnings and notes appended by this call, in order. -/
def buildRecursiveCte (comps : ConnectByComponents) (n : Nat) :
    Except Str (Str × List Str × List Str) := do
  let cteName := cteNameOf n
  let tableName ← headToken comps.from_clause
  let tableAlias ← match comps.table_alias with
    | some a => Except.ok a
    | none => generateAlias tableName
  let joinOpt := joinCondOf comps tableAlias cteName
  let (joinCond, warns0) := match joinOpt with
    | some j => if j.isEmpty then (joinPlaceholder, [joinWarning]) else (j, ([] : List Str))
    | none => (joinPlaceholder, [joinWarning])
  let cols := buildColumnLists comps tableAlias cteName
  let aw := anchorWhere comps
  let base :=
    lit "WITH RECURSIVE " ++ cteName ++
    lit " AS (\n    -- Anchor member: root nodes (START WITH condition)\n    SELECT " ++
    cols.1 ++ lit "\n    FROM " ++ tableName ++ lit " AS " ++ tableAlias ++
    lit "\n    WHERE " ++ aw ++
    lit "\n    \n    UNION ALL\n    \n    -- Recursive member: child nodes (CONNECT BY condition)\n    SELECT " ++
    cols.2.1 ++ lit "\n    FROM " ++ tableName ++ lit " AS " ++ tableAlias ++
    lit "\n    INNER JOIN " ++ cteName ++ lit " ON " ++ joinCond ++
    lit "\n)\nSELECT " ++ cols.2.2 ++ lit "\nFROM " ++ cteName
  -- the three `cte_sql += …` suffixes of lines 447–465, in source order
  -- (appending them one by one or as one concatenation is the same string)
  let levelPart := match extractLevelFilter comps with
    | some lf => if lf.isEmpty then [] else lit "\nWHERE " ++ lf
    | none => []
  let groupPart := match comps.group_by_clause with
    | some g =>
      if g.isEmpty then ([] : Str)
      else lit "\nGROUP BY " ++ convertPseudoColumns g cteName
    | none => []
  let (orderPart, warns1, notes1) := match comps.order_by_clause with
    | some ob =>
      if ob.isEmpty then
        match comps.order_siblings_by with
        | some os =>
          if os.isEmpty then (([] : Str), ([] : List Str), ([] : List Str))
          else (lit "\nORDER BY level, " ++ convertPseudoColumns os cteName,
            [lit "ORDER SIBLINGS BY approximated - may not preserve exact sibling order"],
            [lit "Consider adding path-based ordering for exact sibling order"])
        | none => ([], [], [])
      else (lit "\nORDER BY " ++ convertPseudoColumns ob cteName, [], [])
    | none =>
      match comps.order_siblings_by with
      | some os =>
        if os.isEmpty then ([], [], [])
        else (lit "\nORDER BY level, " ++ convertPseudoColumns os cteName,
          [lit "ORDER SIBLINGS BY approximated - may not preserve exact sibling order"],
          [lit "Consider adding path-based ordering for exact sibling order"])
      | none => ([], [], [])
  let base := base ++ levelPart ++ groupPart ++ orderPart
  let notes2 :=
    (if comps.has_sys_connect_by_path then
      [lit "SYS_CONNECT_BY_PATH converted to path concatenation in recursive CTE"]
     else []) ++
    (if comps.has_connect_by_root then
      [lit "CONNECT_BY_ROOT tracked via root_* columns in CTE"] else []) ++
    (if comps.has_connect_by_isleaf then
      [lit "CONNECT_BY_ISLEAF approximated - uses NOT EXISTS subquery"] else []) ++
    (if comps.has_nocycle then
      [lit "NOCYCLE ignored - Databricks handles cycles with MAXRECURSION"] else [])
  let warns2 :=
    if comps.has_connect_by_isleaf then
      [lit "CONNECT_BY_ISLEAF may need manual verification"]
    else []
  return (base, warns0 ++ warns1 ++ warns2, notes1 ++ notes2)

/-- `ConnectByConverter.convert` (lines 93–153) with the converter's
`cte_counter` passed explicitly (its value before the call). -/
def convertWith (counter : Nat) (sql : Str) : ConversionResult :=
  if !isConnectByQuery sql then
    { success := false, converted_sql := sql, original_sql := sql,
      warnings := [lit "Not a CONNECT BY query"] }
  else
    match parseConnectByQuery sql with
    | none =>
      { success := false, converted_sql := sql, original_sql := sql,
        warnings := [lit "Failed to parse CONNECT BY query structure"] }
    | some comps =>
      if comps.is_sequence_generator then
        { success := true, converted_sql := convertSequenceGenerator comps,
          original_sql := sql,
          notes := [lit "Converted CONNECT BY LEVEL sequence generator to SEQUENCE function"] }
      else
        match buildRecursiveCte comps (counter + 1) with
        | .ok (out, ws, ns) =>
          { success := true, converted_sql := out, original_sql := sql,
            warnings := ws, notes := ns }
        | .error e =>
          { success := false, converted_sql := sql, original_sql := sql,
            warnings := [lit "Conversion error: " ++ e] }

/-- `convert_connect_by` (lines 724–735): a fresh converter has counter 0. -/
def convert0 (sql : Str) : ConversionResult := convertWith 0 sql

/-!
## Statement vocabulary

Predicates used only to state theorems: a class of column references, and
a segment grammar describing strings on which the `\bLEVEL\b` rewrites act
predictably.
-/

/-- A (possibly dot-qualified) column reference as accepted by the
`([\w.]+)` groups of the two `PRIOR` patterns. -/
def IsQualId (s : Str) : Prop := s ≠ [] ∧ ∀ c ∈ s, isWrdDot c = true

/-- The string ends in a non-word character. -/
def endsNonWrdB (t : Str) : Bool :=
  match t.reverse with
  | [] => false
  | c :: _ => !isWrd c

/-- Rendering of a segment decomposition `w₁ t₁ w₂ t₂ …` where each `wᵢ`
is a case variant of the token `LEVEL` and each `tᵢ` is surrounding
text. -/
def segsRender (ps : List (Str × Str)) : Str :=
  (ps.map (fun p => p.1 ++ p.2)).join

/-- The same decomposition with every `LEVEL` token replaced by `repl`. -/
def segsRepl (repl : Str) (ps : List (Str × Str)) : Str :=
  (ps.map (fun p => repl ++ p.2)).join

/-- Well-formedness of a segment decomposition with respect to the
pattern `\bLEVEL\b(?!\s*\()`: each `wᵢ` is `LEVEL` up to case and sits at
word boundaries, no `wᵢ` is followed (after optional whitespace) by `(`,
and no text segment contains `LEVEL` or lets a match span across its
boundary (its last character is a non-word character unless it is the
final segment). -/
def segWF : List (Str × Str) → Bool
  | [] => true
  | (w, t) :: rest =>
      (toUp w == lit "LEVEL") &&
      !occurs (lit "LEVEL") (toUp t) &&
      (t.take 1).all (fun c => !isWrd c) &&
      !((t.dropWhile isSpc).take 1 == ['(']) &&
      (rest.isEmpty || (!t.isEmpty && endsNonWrdB t)) &&
      segWF rest

/-- One top-level conjunct of a WHERE clause, for stating the C7 claim:
either a `LEVEL <op> <int>` comparison (with its internal spacing) or a
plain conjunct. -/
inductive WAtom where
  | lvl (w sp1 ops sp2 ds : Str)
  | plain (t : Str)

def wAtomStr : WAtom → Str
  | .lvl w sp1 ops sp2 ds => w ++ (sp1 ++ (ops ++ (sp2 ++ ds)))
  | .plain t => t

/-- Constraints under which the regex rewrites act conjunct-wise: a level
atom is `LEVEL` (any case) + spaces + a nonempty `[<>=!]` run + spaces + a
nonempty digit run; a plain conjunct is nonempty, has non-space edge
characters, and contains neither `LEVEL` nor `AND` (any case). -/
def wAtomOk : WAtom → Bool
  | .lvl w sp1 ops sp2 ds =>
      (toUp w == lit "LEVEL") && sp1.all isSpc &&
      (!ops.isEmpty && ops.all isOpChar) && sp2.all isSpc &&
      (!ds.isEmpty && ds.all isDig)
  | .plain t =>
      !t.isEmpty &&
      (t.take 1).all (fun c => !isSpc c) &&
      (t.reverse.take 1).all (fun c => !isSpc c) &&
      !occurs (lit "LEVEL") (toUp t) &&
      !occurs (lit "AND") (toUp t)

/-- The WHERE clause rendered from its conjuncts. -/
def wRender (atoms : List WAtom) : Str :=
  joinWith (lit " AND ") (atoms.map wAtomStr)

/-- The plain conjuncts, in order. -/
def wPlains : List WAtom → List Str
  | [] => []
  | .lvl _ _ _ _ _ :: rest => wPlains rest
  | .plain t :: rest => t :: wPlains rest

/-- The operator and integer of the first `LEVEL` comparison, if any. -/
def wFirstLvl : List WAtom → Option (Str × Str)
  | [] => none
  | .lvl _ _ ops _ ds :: _ => some (ops, ds)
  | .plain _ :: rest => wFirstLvl rest

/-- The result of deleting every `LEVEL` comparison together with the
`AND` separator that follows it (the trailing separator survives when the
deleted comparison is last). -/
def wStripped : List WAtom → Str
  | [] => []
  | [.lvl _ _ _ _ _] => []
  | .lvl _ _ _ _ _ :: rest => wStripped rest
  | [.plain t] => t
  | .plain t :: rest => t ++ lit " AND " ++ wStripped rest

/-!
## Basic lemmas about the string toolkit
-/

theorem ciEq_iff {a b : Str} : ciEq a b = true ↔ toUp a = toUp b := by
  simp [ciEq]

theorem isSpc_cases {c : Char} (h : isSpc c = true) :
    c = ' ' ∨ c = '\t' ∨ c = '\n' ∨ c = '\x0b' ∨ c = '\x0c' ∨ c = '\r' := by
  have := h
  simp only [isSpc, Bool.or_eq_true, decide_eq_true_eq] at this
  tauto

theorem wrdDot_not_spc {c : Char} (h : isWrdDot c = true) : isSpc c = false := by
  by_contra hne
  have hs : isSpc c = true := by
    cases hv : isSpc c
    · exact absurd hv hne
    · rfl
  rcases isSpc_cases hs with rfl | rfl | rfl | rfl | rfl | rfl <;>
    exact absurd h (by decide)

theorem wrd_not_spc {c : Char} (h : isWrd c = true) : isSpc c = false :=
  wrdDot_not_spc (by simp [isWrdDot, h])

theorem takeWhile_app_of_all {p : Char → Bool} {a : Str} (b : Str)
    (ha : ∀ c ∈ a, p c = true) :
    (a ++ b).takeWhile p = a ++ b.takeWhile p := by
  induction a with
  | nil => simp
  | cons c t ih =>
    have hc : p c = true := ha c (by simp)
    simp only [List.cons_append, List.takeWhile_cons, hc, if_true]
    rw [ih (fun d hd => ha d (by simp [hd]))]

theorem dropWhile_app_of_all {p : Char → Bool} {a : Str} (b : Str)
    (ha : ∀ c ∈ a, p c = true) :
    (a ++ b).dropWhile p = b.dropWhile p := by
  induction a with
  | nil => simp
  | cons c t ih =>
    have hc : p c = true := ha c (by simp)
    simp only [List.cons_append, List.dropWhile_cons, hc, if_true]
    exact ih (fun d hd => ha d (by simp [hd]))

theorem takeWhile_cons_neg {p : Char → Bool} {c : Char} (t : Str)
    (hc : p c = false) : (c :: t).takeWhile p = [] := by
  simp [List.takeWhile_cons, hc]

theorem dropWhile_cons_neg {p : Char → Bool} {c : Char} (t : Str)
    (hc : p c = false) : (c :: t).dropWhile p = c :: t := by
  simp [List.dropWhile_cons, hc]

theorem takeWhile_all_eq {p : Char → Bool} {s : Str}
    (h : ∀ c ∈ s, p c = true) : s.takeWhile p = s := by
  have := takeWhile_app_of_all (p := p) (a := s) [] h
  simpa using this

theorem dropWhile_all_eq {p : Char → Bool} {s : Str}
    (h : ∀ c ∈ s, p c = true) : s.dropWhile p = [] := by
  have := dropWhile_app_of_all (p := p) (a := s) [] h
  simpa using this

/-!
## Claim C5: failed conversions pass the input through unchanged
-/

/-- **C5.** For every converter state and input, whenever `convert` returns
`success = false` (not a CONNECT BY query, structural parse failure, or
internal conversion error), the returned `converted_sql` is exactly the
original input string. -/
theorem C5_failure_passthrough (k : Nat) (sql : Str)
    (h : (convertWith k sql).success = false) :
    (convertWith k sql).converted_sql = sql := by
  unfold convertWith at h ⊢
  by_cases h1 : isConnectByQuery sql
  · simp only [h1, Bool.not_true, Bool.false_eq_true, if_false] at h ⊢
    cases hp : parseConnectByQuery sql with
    | none => simp [hp]
    | some comps =>
      simp only [hp] at h ⊢
      by_cases hs : comps.is_sequence_generator
      · simp [hs] at h
      · simp only [hs, Bool.false_eq_true, if_false] at h ⊢
        cases hb : buildRecursiveCte comps (k + 1) with
        | ok r =>
          obtain ⟨out, ws, ns⟩ := r
          simp [hb] at h
        | error e => simp [hb]
  · simp only [h1] at h ⊢
    simp

/-- Witness for C5 at the concrete input `"hello"`. -/
theorem C5_failure_passthrough_witness :
    (convertWith 0 (lit "hello")).success = false ∧
      (convertWith 0 (lit "hello")).converted_sql = lit "hello" :=
  ⟨by decide, C5_failure_passthrough 0 (lit "hello") (by decide)⟩

/-!
## Claim C4: inputs without CONNECT BY
-/

/-- **C4 (counterexample).** The claim says every input without the token
sequence `CONNECT BY` is classified `NotHierarchical` and conversion
returns the not-applicable result.  The input `"CONNECT_BY"` contains no
`CONNECT BY`, yet `_is_connect_by_query` classifies it as hierarchical
(it also tests for the substring `CONNECT_BY`), and conversion returns the
structural-parse-failure result (warning `"Failed to parse CONNECT BY
query structure"`) instead of the not-applicable result (warning
`"Not a CONNECT BY query"`). -/
theorem C4_counterexample :
    occurs (lit "CONNECT BY") (toUp (lit "CONNECT_BY")) = false ∧
      isConnectByQuery (lit "CONNECT_BY") = true ∧
      (convert0 (lit "CONNECT_BY")).warnings =
        [lit "Failed to parse CONNECT BY query structure"] ∧
      (convert0 (lit "CONNECT_BY")).warnings ≠ [lit "Not a CONNECT BY query"] := by
  refine ⟨by decide, by decide, by decide, by decide⟩

/-- **C4 (amended).** For every input SQL string that contains neither the
token sequence `CONNECT BY` nor the token `CONNECT_BY` (case-insensitive),
the extractor classifies it as not hierarchical and conversion returns the
not-applicable result — `success = false`, the input passed through
unchanged, and the single warning `"Not a CONNECT BY query"` — without
invoking join inference, column classification, or CTE assembly (the
result is produced by the first branch of `convert`). -/
theorem C4_amended_not_connect_by (k : Nat) (sql : Str)
    (h1 : occurs (lit "CONNECT BY") (toUp sql) = false)
    (h2 : occurs (lit "CONNECT_BY") (toUp sql) = false) :
    isConnectByQuery sql = false ∧
      convertWith k sql =
        { success := false, converted_sql := sql, original_sql := sql,
          warnings := [lit "Not a CONNECT BY query"], notes := [] } := by
  have hq : isConnectByQuery sql = false := by
    simp [isConnectByQuery, h1, h2]
  refine ⟨hq, ?_⟩
  unfold convertWith
  simp [hq]

/-- Witness for the amended C4 at `"SELECT 1"`. -/
theorem C4_amended_witness :
    isConnectByQuery (lit "SELECT 1") = false ∧
      convertWith 0 (lit "SELECT 1") =
        { success := false, converted_sql := lit "SELECT 1",
          original_sql := lit "SELECT 1",
          warnings := [lit "Not a CONNECT BY query"], notes := [] } :=
  C4_amended_not_connect_by 0 (lit "SELECT 1") (by decide) (by decide)

/-!
## Claim C9: internal failures degrade to a warning-carrying failure result
-/

/-- **C9.** `convert` is a total function of its input (the embedding is a
Lean function, mirroring that the only partial operation reachable in the
Python body — the `IndexError` of `_generate_alias` — is raised inside the
`try` of lines 137–153): whenever building the recursive CTE fails with an
internal exception message `e`, the caller receives a failure result with
the original SQL passed through and the exception text captured in the
warnings list. -/
theorem C9_exception_caught (k : Nat) (sql : Str) (comps : ConnectByComponents)
    (e : Str) (hq : isConnectByQuery sql = true)
    (hp : parseConnectByQuery sql = some comps)
    (hs : comps.is_sequence_generator = false)
    (hb : buildRecursiveCte comps (k + 1) = .error e) :
    convertWith k sql =
      { success := false, converted_sql := sql, original_sql := sql,
        warnings := [lit "Conversion error: " ++ e], notes := [] } := by
  unfold convertWith
  simp [hq, hp, hs, hb]

/-- Witness for C9: on `"SELECT x FROM a. CONNECT BY PRIOR x = y"` the
`FROM` target parses as `a.`, whose alias generation evaluates `name[0]`
on the empty string — the Python `IndexError("string index out of range")`
— and `convert` degrades it to a failure result carrying the message. -/
theorem C9_exception_caught_witness :
    convertWith 0 (lit "SELECT x FROM a. CONNECT BY PRIOR x = y") =
      { success := false,
        converted_sql := lit "SELECT x FROM a. CONNECT BY PRIOR x = y",
        original_sql := lit "SELECT x FROM a. CONNECT BY PRIOR x = y",
        warnings := [lit "Conversion error: string index out of range"],
        notes := [] } :=
  C9_exception_caught 0 (lit "SELECT x FROM a. CONNECT BY PRIOR x = y")
    { select_clause := lit "x", from_clause := lit "a.",
      connect_by_clause := some (lit "PRIOR x = y"), has_prior := true }
    (lit "string index out of range")
    (by decide) (by decide) (by decide) (by rfl)

/-!
## Claim C3: join inference is symmetric in the predicate's side order
-/

theorem dropSpc_of_qualId {s : Str} (h : IsQualId s) : s.dropWhile isSpc = s := by
  obtain ⟨hne, hall⟩ := h
  cases s with
  | nil => simp at hne
  | cons c t =>
    exact dropWhile_cons_neg t (wrdDot_not_spc (hall c (by simp)))

theorem takeSpc_nil_of_qualId {s : Str} (h : IsQualId s) (b : Str) :
    (s ++ b).takeWhile isSpc = [] := by
  obtain ⟨hne, hall⟩ := h
  cases s with
  | nil => simp at hne
  | cons c t =>
    exact takeWhile_cons_neg _ (wrdDot_not_spc (hall c (by simp)))

theorem priorLeft_pos (a b : Str) (ha : IsQualId a) (hb : IsQualId b) :
    priorLeft (lit "PRIOR " ++ a ++ lit " = " ++ b) = some (a, b) := by
  have h1 : lit "PRIOR " = ['P', 'R', 'I', 'O', 'R', ' '] := rfl
  have h2 : lit " = " = [' ', '=', ' '] := rfl
  have hs : lit "PRIOR " ++ a ++ lit " = " ++ b =
      'P' :: 'R' :: 'I' :: 'O' :: 'R' :: ' ' :: (a ++ ' ' :: '=' :: ' ' :: b) := by
    rw [h1, h2]; simp
  rw [hs]
  obtain ⟨hane, haall⟩ := ha
  obtain ⟨hbne, hball⟩ := hb
  unfold priorLeft
  have hd0 : ('P' :: 'R' :: 'I' :: 'O' :: 'R' :: ' ' :: (a ++ ' ' :: '=' :: ' ' :: b)).dropWhile isSpc =
      'P' :: 'R' :: 'I' :: 'O' :: 'R' :: ' ' :: (a ++ ' ' :: '=' :: ' ' :: b) :=
    dropWhile_cons_neg _ (by decide)
  simp only [hd0]
  have hci : ciEq (('P' :: 'R' :: 'I' :: 'O' :: 'R' :: ' ' :: (a ++ ' ' :: '=' :: ' ' :: b)).take 5)
      (lit "PRIOR") = true := by
    show ciEq ['P', 'R', 'I', 'O', 'R'] (lit "PRIOR") = true
    decide
  simp only [hci, if_true]
  have hdrop5 : ('P' :: 'R' :: 'I' :: 'O' :: 'R' :: ' ' :: (a ++ ' ' :: '=' :: ' ' :: b)).drop 5 =
      ' ' :: (a ++ ' ' :: '=' :: ' ' :: b) := rfl
  simp only [hdrop5]
  have htw : (' ' :: (a ++ ' ' :: '=' :: ' ' :: b)).takeWhile isSpc =
      ' ' :: ((a ++ ' ' :: '=' :: ' ' :: b).takeWhile isSpc) := by
    simp [List.takeWhile_cons, show isSpc ' ' = true by decide]
  have hta : (a ++ ' ' :: '=' :: ' ' :: b).takeWhile isSpc = [] :=
    takeSpc_nil_of_qualId ⟨hane, haall⟩ _
  have hdw : (' ' :: (a ++ ' ' :: '=' :: ' ' :: b)).dropWhile isSpc =
      a ++ ' ' :: '=' :: ' ' :: b := by
    rw [List.dropWhile_cons]
    simp only [show isSpc ' ' = true by decide, if_true]
    cases a with
    | nil => simp at hane
    | cons c t => exact dropWhile_cons_neg _ (wrdDot_not_spc (haall c (by simp)))
  simp only [htw, hta, hdw, List.isEmpty_cons, Bool.false_eq_true, if_false]
  have hg1 : (a ++ ' ' :: '=' :: ' ' :: b).takeWhile isWrdDot = a := by
    rw [takeWhile_app_of_all _ haall, takeWhile_cons_neg _ (by decide)]
    simp
  have hg1d : (a ++ ' ' :: '=' :: ' ' :: b).dropWhile isWrdDot = ' ' :: '=' :: ' ' :: b := by
    rw [dropWhile_app_of_all _ haall]
    exact dropWhile_cons_neg _ (by decide)
  have hg1e : a.isEmpty = false := by
    cases a with
    | nil => simp at hane
    | cons c t => rfl
  simp only [hg1, hg1d, hg1e, Bool.false_eq_true, if_false]
  have hd2 : (' ' :: '=' :: ' ' :: b).dropWhile isSpc = '=' :: ' ' :: b := by
    rw [List.dropWhile_cons]
    simp only [show isSpc ' ' = true by decide, if_true]
    exact dropWhile_cons_neg _ (by decide)
  simp only [hd2]
  have hd3 : (' ' :: b).dropWhile isSpc = b := by
    rw [List.dropWhile_cons]
    simp only [show isSpc ' ' = true by decide, if_true]
    exact dropSpc_of_qualId ⟨hbne, hball⟩
  simp only [hd3]
  have hg2 : b.takeWhile isWrdDot = b := takeWhile_all_eq hball
  have hg2d : b.dropWhile isWrdDot = [] := dropWhile_all_eq hball
  have hg2e : b.isEmpty = false := by
    cases b with
    | nil => simp at hbne
    | cons c t => rfl
  simp only [hg2, hg2d, hg2e, Bool.false_eq_true, if_false, List.dropWhile_nil,
    if_true]

theorem priorRight_pos (a b : Str) (ha : IsQualId a) (hb : IsQualId b) :
    priorRight (b ++ lit " = PRIOR " ++ a) = some (b, a) := by
  have h2 : lit " = PRIOR " = [' ', '=', ' ', 'P', 'R', 'I', 'O', 'R', ' '] := rfl
  have hs : b ++ lit " = PRIOR " ++ a =
      b ++ ' ' :: '=' :: ' ' :: 'P' :: 'R' :: 'I' :: 'O' :: 'R' :: ' ' :: a := by
    rw [h2]; simp
  rw [hs]
  obtain ⟨hane, haall⟩ := ha
  obtain ⟨hbne, hball⟩ := hb
  unfold priorRight
  have hd0 : (b ++ ' ' :: '=' :: ' ' :: 'P' :: 'R' :: 'I' :: 'O' :: 'R' :: ' ' :: a).dropWhile isSpc =
      b ++ ' ' :: '=' :: ' ' :: 'P' :: 'R' :: 'I' :: 'O' :: 'R' :: ' ' :: a := by
    cases b with
    | nil => simp at hbne
    | cons c t => exact dropWhile_cons_neg _ (wrdDot_not_spc (hball c (by simp)))
  simp only [hd0]
  have hg1 : (b ++ ' ' :: '=' :: ' ' :: 'P' :: 'R' :: 'I' :: 'O' :: 'R' :: ' ' :: a).takeWhile isWrdDot = b := by
    rw [takeWhile_app_of_all _ hball, takeWhile_cons_neg _ (by decide)]
    simp
  have hg1d : (b ++ ' ' :: '=' :: ' ' :: 'P' :: 'R' :: 'I' :: 'O' :: 'R' :: ' ' :: a).dropWhile isWrdDot =
      ' ' :: '=' :: ' ' :: 'P' :: 'R' :: 'I' :: 'O' :: 'R' :: ' ' :: a := by
    rw [dropWhile_app_of_all _ hball]
    exact dropWhile_cons_neg _ (by decide)
  have hg1e : b.isEmpty = false := by
    cases b with
    | nil => simp at hbne
    | cons c t => rfl
  simp only [hg1, hg1d, hg1e, Bool.false_eq_true, if_false]
  have hd2 : (' ' :: '=' :: ' ' :: 'P' :: 'R' :: 'I' :: 'O' :: 'R' :: ' ' :: a).dropWhile isSpc =
      '=' :: ' ' :: 'P' :: 'R' :: 'I' :: 'O' :: 'R' :: ' ' :: a := by
    rw [List.dropWhile_cons]
    simp only [show isSpc ' ' = true by decide, if_true]
    exact dropWhile_cons_neg _ (by decide)
  simp only [hd2]
  have hd3 : (' ' :: 'P' :: 'R' :: 'I' :: 'O' :: 'R' :: ' ' :: a).dropWhile isSpc =
      'P' :: 'R' :: 'I' :: 'O' :: 'R' :: ' ' :: a := by
    rw [List.dropWhile_cons]
    simp only [show isSpc ' ' = true by decide, if_true]
    exact dropWhile_cons_neg _ (by decide)
  simp only [hd3]
  have hci : ciEq (('P' :: 'R' :: 'I' :: 'O' :: 'R' :: ' ' :: a).take 5) (lit "PRIOR") = true := by
    show ciEq ['P', 'R', 'I', 'O', 'R'] (lit "PRIOR") = true
    decide
  simp only [hci, if_true]
  have hdrop5 : ('P' :: 'R' :: 'I' :: 'O' :: 'R' :: ' ' :: a).drop 5 = ' ' :: a := rfl
  simp only [hdrop5]
  have htw : (' ' :: a).takeWhile isSpc = ' ' :: a.takeWhile isSpc := by
    simp [List.takeWhile_cons, show isSpc ' ' = true by decide]
  have hta : a.takeWhile isSpc = [] := by
    cases a with
    | nil => simp at hane
    | cons c t => exact takeWhile_cons_neg _ (wrdDot_not_spc (haall c (by simp)))
  have hdw : (' ' :: a).dropWhile isSpc = a := by
    rw [List.dropWhile_cons]
    simp only [show isSpc ' ' = true by decide, if_true]
    exact dropSpc_of_qualId ⟨hane, haall⟩
  simp only [htw, hta, hdw, List.isEmpty_cons, Bool.false_eq_true, if_false]
  have hg2 : a.takeWhile isWrdDot = a := takeWhile_all_eq haall
  have hg2d : a.dropWhile isWrdDot = [] := dropWhile_all_eq haall
  have hg2e : a.isEmpty = false := by
    cases a with
    | nil => simp at hane
    | cons c t => rfl
  simp only [hg2, hg2d, hg2e, Bool.false_eq_true, if_false, List.dropWhile_nil,
    if_true]

theorem priorLeft_neg (a b : Str) (ha : IsQualId a) (hb : IsQualId b) :
    priorLeft (b ++ lit " = PRIOR " ++ a) = none := by
  have h2 : lit " = PRIOR " = [' ', '=', ' ', 'P', 'R', 'I', 'O', 'R', ' '] := rfl
  have hs : b ++ lit " = PRIOR " ++ a =
      b ++ ' ' :: '=' :: ' ' :: 'P' :: 'R' :: 'I' :: 'O' :: 'R' :: ' ' :: a := by
    rw [h2]; simp
  rw [hs]
  obtain ⟨hbne, hball⟩ := hb
  unfold priorLeft
  have hd0 : (b ++ ' ' :: '=' :: ' ' :: 'P' :: 'R' :: 'I' :: 'O' :: 'R' :: ' ' :: a).dropWhile isSpc =
      b ++ ' ' :: '=' :: ' ' :: 'P' :: 'R' :: 'I' :: 'O' :: 'R' :: ' ' :: a := by
    cases b with
    | nil => simp at hbne
    | cons c t => exact dropWhile_cons_neg _ (wrdDot_not_spc (hball c (by simp)))
  simp only [hd0]
  -- case analysis on the length of b: a match would need `PRIOR` followed
  -- by whitespace at the head, which the shape `b = PRIOR a` cannot supply
  match b, hbne, hball with
  | [c1], _, hball =>
    have hfail : ciEq [c1, ' ', '=', ' ', 'P'] (lit "PRIOR") = false := by
      unfold ciEq
      apply decide_eq_false
      intro hEq
      rw [show toUp (lit "PRIOR") = ['P', 'R', 'I', 'O', 'R'] from rfl] at hEq
      simp only [toUp, List.map_cons, List.map_nil, List.cons.injEq] at hEq
      exact absurd hEq.2.1 (by decide)
    simp [hfail]
  | [c1, c2], _, hball =>
    have hfail : ciEq [c1, c2, ' ', '=', ' '] (lit "PRIOR") = false := by
      unfold ciEq
      apply decide_eq_false
      intro hEq
      rw [show toUp (lit "PRIOR") = ['P', 'R', 'I', 'O', 'R'] from rfl] at hEq
      simp only [toUp, List.map_cons, List.map_nil, List.cons.injEq] at hEq
      exact absurd hEq.2.2.1 (by decide)
    simp [hfail]
  | [c1, c2, c3], _, hball =>
    have hfail : ciEq [c1, c2, c3, ' ', '='] (lit "PRIOR") = false := by
      unfold ciEq
      apply decide_eq_false
      intro hEq
      rw [show toUp (lit "PRIOR") = ['P', 'R', 'I', 'O', 'R'] from rfl] at hEq
      simp only [toUp, List.map_cons, List.map_nil, List.cons.injEq] at hEq
      exact absurd hEq.2.2.2.1 (by decide)
    simp [hfail]
  | [c1, c2, c3, c4], _, hball =>
    have hfail : ciEq [c1, c2, c3, c4, ' '] (lit "PRIOR") = false := by
      unfold ciEq
      apply decide_eq_false
      intro hEq
      rw [show toUp (lit "PRIOR") = ['P', 'R', 'I', 'O', 'R'] from rfl] at hEq
      simp only [toUp, List.map_cons, List.map_nil, List.cons.injEq] at hEq
      exact absurd hEq.2.2.2.2.1 (by decide)
    simp [hfail]
  | c1 :: c2 :: c3 :: c4 :: c5 :: t, _, hball =>
    by_cases hci : ciEq ((c1 :: c2 :: c3 :: c4 :: c5 :: (t ++ ' ' :: '=' :: ' ' :: 'P' :: 'R' :: 'I' :: 'O' :: 'R' :: ' ' :: a)).take 5)
        (lit "PRIOR") = true
    · simp only [List.cons_append] at hci ⊢
      simp only [hci, if_true]
      have hdrop5 : (c1 :: c2 :: c3 :: c4 :: c5 :: (t ++ ' ' :: '=' :: ' ' :: 'P' :: 'R' :: 'I' :: 'O' :: 'R' :: ' ' :: a)).drop 5 =
          t ++ ' ' :: '=' :: ' ' :: 'P' :: 'R' :: 'I' :: 'O' :: 'R' :: ' ' :: a := rfl
      simp only [hdrop5]
      cases t with
      | nil =>
        -- the text after `PRIOR`-shaped b is ` = …`: group 1 `[\w.]+` fails
        have htw : (([] : Str) ++ ' ' :: '=' :: ' ' :: 'P' :: 'R' :: 'I' :: 'O' :: 'R' :: ' ' :: a).takeWhile isSpc =
            ' ' :: (('=' :: ' ' :: 'P' :: 'R' :: 'I' :: 'O' :: 'R' :: ' ' :: a).takeWhile isSpc) := by
          simp [List.takeWhile_cons, show isSpc ' ' = true by decide]
        have htw2 : ('=' :: ' ' :: 'P' :: 'R' :: 'I' :: 'O' :: 'R' :: ' ' :: a).takeWhile isSpc = [] :=
          takeWhile_cons_neg (p := isSpc) _ (by decide)
        have hdw : (([] : Str) ++ ' ' :: '=' :: ' ' :: 'P' :: 'R' :: 'I' :: 'O' :: 'R' :: ' ' :: a).dropWhile isSpc =
            '=' :: ' ' :: 'P' :: 'R' :: 'I' :: 'O' :: 'R' :: ' ' :: a := by
          simp [List.dropWhile_cons, show isSpc ' ' = true by decide,
            show isSpc '=' = false by decide]
        simp only [htw, htw2, hdw, List.isEmpty_cons, Bool.false_eq_true, if_false]
        have hg : ('=' :: ' ' :: 'P' :: 'R' :: 'I' :: 'O' :: 'R' :: ' ' :: a).takeWhile isWrdDot = [] :=
          takeWhile_cons_neg (p := isWrdDot) _ (by decide)
        simp only [hg, List.isEmpty_nil, if_true]
      | cons d t' =>
        -- the sixth character of b is a `[\w.]` character, not whitespace
        have hd : isWrdDot d = true := hball d (by simp)
        simp only [List.cons_append]
        have htk : (d :: (t' ++ ' ' :: '=' :: ' ' :: 'P' :: 'R' :: 'I' :: 'O' :: 'R' :: ' ' :: a)).takeWhile isSpc = [] :=
          takeWhile_cons_neg (p := isSpc) _ (wrdDot_not_spc hd)
        simp only [htk, List.isEmpty_nil, if_true]
    · simp only [List.cons_append] at hci ⊢
      simp [Bool.not_eq_true] at hci
      simp [hci]

/-- **C3.** Join inference is symmetric in the predicate's side order: for
all (optionally dot-qualified) column identifiers `a` and `b`, the conjunct
`PRIOR a = b` and the conjunct `b = PRIOR a` resolve to the same join key —
child `b` bound to the base-table alias, parent `a` bound to the CTE name —
rendered as `<table_alias>.<last segment of b> = <cte_name>.<last segment
of a>`, with dot qualification stripped to the right-most identifier
segment on both sides. -/
theorem C3_join_inference_symmetric (ta cn a b : Str)
    (ha : IsQualId a) (hb : IsQualId b) :
    parseCBC ta cn (lit "PRIOR " ++ a ++ lit " = " ++ b) =
        some (ta ++ '.' :: lastSeg b ++ lit " = " ++ cn ++ '.' :: lastSeg a) ∧
      parseCBC ta cn (b ++ lit " = PRIOR " ++ a) =
        some (ta ++ '.' :: lastSeg b ++ lit " = " ++ cn ++ '.' :: lastSeg a) := by
  constructor
  · have hne : (lit "PRIOR " ++ a ++ lit " = " ++ b).isEmpty = false := by
      have h1 : lit "PRIOR " = ['P', 'R', 'I', 'O', 'R', ' '] := rfl
      rw [h1]; rfl
    unfold parseCBC parseCBCF
    simp only [hne, Bool.false_eq_true, if_false]
    unfold parseSimpleCond
    rw [priorLeft_pos a b ha hb]
    rfl
  · have hne : (b ++ lit " = PRIOR " ++ a).isEmpty = false := by
      obtain ⟨hbne, _⟩ := hb
      cases b with
      | nil => simp at hbne
      | cons c t => rfl
    unfold parseCBC parseCBCF
    simp only [hne, Bool.false_eq_true, if_false]
    unfold parseSimpleCond
    rw [priorLeft_neg a b ha hb, priorRight_pos a b ha hb]
    rfl

/-- Witness for C3 at `a = emp_id`, `b = e.mgr_id` with alias `t` and CTE
name `cte1`. -/
theorem C3_join_inference_symmetric_witness :
    parseCBC (lit "t") (lit "cte1") (lit "PRIOR " ++ lit "emp_id" ++ lit " = " ++ lit "e.mgr_id") =
        some (lit "t" ++ '.' :: lastSeg (lit "e.mgr_id") ++ lit " = " ++ lit "cte1" ++ '.' :: lastSeg (lit "emp_id")) ∧
      parseCBC (lit "t") (lit "cte1") (lit "e.mgr_id" ++ lit " = PRIOR " ++ lit "emp_id") =
        some (lit "t" ++ '.' :: lastSeg (lit "e.mgr_id") ++ lit " = " ++ lit "cte1" ++ '.' :: lastSeg (lit "emp_id")) :=
  C3_join_inference_symmetric (lit "t") (lit "cte1") (lit "emp_id") (lit "e.mgr_id")
    ⟨by decide, by decide⟩ ⟨by decide, by decide⟩

/-!
## Claim C1: compound CONNECT BY predicates with unmatched conjuncts
-/

theorem occurs_app_right {p : Str} (x : Str) {y : Str} (h : occurs p y = true) :
    occurs p (x ++ y) = true := by
  induction x with
  | nil => simpa using h
  | cons c t ih =>
    simp only [List.cons_append]
    unfold occurs
    rw [Bool.or_eq_true]
    exact Or.inr ih

theorem isPrefOf_self_app (p : Str) (y : Str) : isPrefOf p (p ++ y) = true := by
  induction p with
  | nil => rfl
  | cons c t ih => simp [isPrefOf, ih]

theorem occurs_here (p y : Str) : occurs p (p ++ y) = true := by
  cases p with
  | nil => cases y <;> simp [occurs, isPrefOf, List.isEmpty]
  | cons c t =>
    simp only [List.cons_append]
    unfold occurs
    rw [Bool.or_eq_true]
    refine Or.inl ?_
    have := isPrefOf_self_app (c :: t) y
    simpa [List.cons_append] using this

/-- A single piece that fails the two `PRIOR` shapes and has no top-level
`AND` parses to `None` at every fuel. -/
theorem parseCBCF_none_simple (ta cn : Str) {u : Str}
    (h1 : parseSimpleCond ta cn u = none)
    (h2 : occurs (lit " AND ") (toUp u) = false) :
    ∀ f, parseCBCF ta cn f u = none := by
  intro f
  cases f with
  | zero => rfl
  | succ f =>
    unfold parseCBCF
    by_cases he : u.isEmpty
    · simp [he]
    · simp [he, h1, h2]

/-- **C1 (amended).** If *no* top-level `AND` conjunct of the `CONNECT BY`
predicate matches `PRIOR a = b` or `b = PRIOR a` (and the whole predicate
does not either), join inference marks the predicate unresolved
(part 1: `_parse_connect_by_condition` returns `None`); the assembled
recursive member then uses exactly the placeholder
`1=0  -- TODO: Fix join condition` and the first warning is the mandatory
manual-review warning (part 2); and the conversion still returns
`success = true` with those warnings (part 3). -/
theorem C1_amended_all_conjuncts_unresolved :
    (∀ ta cn s, parseSimpleCond ta cn s = none →
      (∀ p ∈ splitAnd s, parseSimpleCond ta cn (stripStr p) = none ∧
        occurs (lit " AND ") (toUp (stripStr p)) = false) →
      parseCBC ta cn s = none) ∧
    (∀ comps n tn ta out ws ns,
      headToken comps.from_clause = .ok tn →
      (comps.table_alias = some ta ∨
        (comps.table_alias = none ∧ generateAlias tn = .ok ta)) →
      joinCondOf comps ta (cteNameOf n) = none →
      buildRecursiveCte comps n = .ok (out, ws, ns) →
      ws.head? = some joinWarning ∧ occurs joinPlaceholder out = true) ∧
    (∀ k sql comps out ws ns,
      isConnectByQuery sql = true →
      parseConnectByQuery sql = some comps →
      comps.is_sequence_generator = false →
      buildRecursiveCte comps (k + 1) = .ok (out, ws, ns) →
      convertWith k sql =
        { success := true, converted_sql := out, original_sql := sql,
          warnings := ws, notes := ns }) := by
  refine ⟨?_, ?_, ?_⟩
  · intro ta cn s h1 hall
    unfold parseCBC parseCBCF
    by_cases he : s.isEmpty
    · simp [he]
    · simp only [he, Bool.false_eq_true, if_false, h1]
      by_cases ho : occurs (lit " AND ") (toUp s) = true
      · simp only [ho, if_true]
        have hnil : (splitAnd s).filterMap
            (fun p => parseCBCF ta cn s.length (stripStr p)) = [] := by
          rw [List.filterMap_eq_nil]
          intro p hp
          exact parseCBCF_none_simple ta cn (hall p hp).1 (hall p hp).2 s.length
        simp [hnil]
      · simp only [Bool.not_eq_true] at ho
        simp [ho]
  · intro comps n tn ta out ws ns hht hta hj hb
    have hbind : ∀ {α β : Type} (a : α) (f : α → Except Str β),
        (Except.ok a >>= f) = f a := fun a f => rfl
    rcases hta with h | ⟨h1, h2⟩ <;>
      [simp only [buildRecursiveCte, hht, hbind, h, hj, pure, Except.pure] at hb;
       simp only [buildRecursiveCte, hht, hbind, h1, h2, hj, pure, Except.pure] at hb] <;>
    · simp only [Except.ok.injEq, Prod.mk.injEq] at hb
      obtain ⟨hout, hws, hns⟩ := hb
      constructor
      · rw [← hws]
        simp
      · rw [← hout]
        simp only [List.append_assoc]
        repeat
          first
          | exact occurs_here _ _
          | apply occurs_app_right
  · intro k sql comps out ws ns hq hp hs hb
    unfold convertWith
    simp [hq, hp, hs, hb]

set_option maxRecDepth 40000 in
/-- Witness for the amended C1 at the query
`SELECT a FROM t CONNECT BY x > 5 AND y > 6`, whose two conjuncts both
fail the `PRIOR` shapes: join inference is unresolved, the placeholder and
the manual-review warning appear, and the conversion succeeds. -/
theorem C1_amended_witness :
    parseCBC (lit "t") (cteNameOf 1) (lit "x > 5 AND y > 6") = none ∧
    ([joinWarning].head? = some joinWarning ∧
      occurs joinPlaceholder
        (lit "WITH RECURSIVE hierarchy_cte_1 AS (\n    -- Anchor member: root nodes (START WITH condition)\n    SELECT a\n    FROM t AS t\n    WHERE 1=1\n    \n    UNION ALL\n    \n    -- Recursive member: child nodes (CONNECT BY condition)\n    SELECT t.a\n    FROM t AS t\n    INNER JOIN hierarchy_cte_1 ON 1=0  -- TODO: Fix join condition\n)\nSELECT a\nFROM hierarchy_cte_1") = true) ∧
    convertWith 0 (lit "SELECT a FROM t CONNECT BY x > 5 AND y > 6") =
      { success := true,
        converted_sql := lit "WITH RECURSIVE hierarchy_cte_1 AS (\n    -- Anchor member: root nodes (START WITH condition)\n    SELECT a\n    FROM t AS t\n    WHERE 1=1\n    \n    UNION ALL\n    \n    -- Recursive member: child nodes (CONNECT BY condition)\n    SELECT t.a\n    FROM t AS t\n    INNER JOIN hierarchy_cte_1 ON 1=0  -- TODO: Fix join condition\n)\nSELECT a\nFROM hierarchy_cte_1",
        original_sql := lit "SELECT a FROM t CONNECT BY x > 5 AND y > 6",
        warnings := [joinWarning], notes := [] } := by
  refine ⟨C1_amended_all_conjuncts_unresolved.1 (lit "t") (cteNameOf 1)
      (lit "x > 5 AND y > 6") (by decide) (by decide), ?_, ?_⟩
  · exact C1_amended_all_conjuncts_unresolved.2.1
      { select_clause := lit "a", from_clause := lit "t",
        connect_by_clause := some (lit "x > 5 AND y > 6") }
      1 (lit "t") (lit "t") _ _ _ (by rfl) (Or.inr ⟨rfl, by rfl⟩) (by decide) (by rfl)
  · exact C1_amended_all_conjuncts_unresolved.2.2 0
      (lit "SELECT a FROM t CONNECT BY x > 5 AND y > 6")
      { select_clause := lit "a", from_clause := lit "t",
        connect_by_clause := some (lit "x > 5 AND y > 6") }
      _ _ _ (by decide) (by decide) (by decide) (by rfl)

set_option maxRecDepth 40000 in
/-- **C1 (counterexample).** On
`SELECT a FROM t CONNECT BY PRIOR a = b AND x > 5` the predicate has a
top-level conjunct (`x > 5`) that matches neither `PRIOR a = b` nor
`b = PRIOR a`, yet the conversion does *not* mark the predicate
unresolved: the emitted join condition is the translation of the matching
conjunct (`t.b = hierarchy_cte_1.a`), the placeholder `1=0` does not
appear, and the warnings list is empty — contradicting the claimed
placeholder join condition and mandatory manual-review warning. -/
theorem C1_counterexample :
    (convert0 (lit "SELECT a FROM t CONNECT BY PRIOR a = b AND x > 5")).success = true ∧
    (convert0 (lit "SELECT a FROM t CONNECT BY PRIOR a = b AND x > 5")).warnings = [] ∧
    occurs (lit "t.b = hierarchy_cte_1.a")
      ((convert0 (lit "SELECT a FROM t CONNECT BY PRIOR a = b AND x > 5")).converted_sql) = true ∧
    occurs joinPlaceholder
      ((convert0 (lit "SELECT a FROM t CONNECT BY PRIOR a = b AND x > 5")).converted_sql) = false :=
  ⟨by decide, by decide, by decide, by decide⟩

/-!
## Lemmas about the `\bLEVEL\b` substitution scanners

Used by the sequence-generator claim (C8) and the column-classifier
claims (C2).
-/

theorem isWrd_up (c : Char) : isWrd (up c) = isWrd c := by
  unfold up
  split <;> first | rfl | decide

theorem occurs_cons_of_tail {p : Str} {c : Char} {t : Str}
    (h : occurs p t = true) : occurs p (c :: t) = true := by
  unfold occurs
  rw [Bool.or_eq_true]
  exact Or.inr h

theorem not_occurs_tail {p : Str} {c : Char} {t : Str}
    (h : occurs p (c :: t) = false) : occurs p t = false := by
  cases ho : occurs p t
  · rfl
  · rw [occurs_cons_of_tail ho] at h
    exact absurd h (by simp)

theorem ciEq_len {a b : Str} (h : ciEq a b = true) : a.length = b.length := by
  rw [ciEq_iff] at h
  have := congrArg List.length h
  simpa [toUp] using this

theorem ciEq_mem_wrd {w : Str} (h : ciEq w (lit "LEVEL") = true) :
    ∀ c ∈ w, isWrd c = true := by
  intro c hc
  rw [ciEq_iff] at h
  have hmem : up c ∈ toUp (lit "LEVEL") := by
    rw [← h]
    exact List.mem_map_of_mem up hc
  have hup : isWrd (up c) = true := by
    have : ∀ u ∈ toUp (lit "LEVEL"), isWrd u = true := by decide
    exact this _ hmem
  rw [isWrd_up] at hup
  exact hup

/-- A `ciEq`-to-`LEVEL` prefix of a string makes `LEVEL` occur in its
uppercase image. -/
theorem occurs_of_ciEq_take {s : Str} (h : ciEq (s.take 5) (lit "LEVEL") = true) :
    occurs (lit "LEVEL") (toUp s) = true := by
  rw [ciEq_iff] at h
  have hup : toUp (lit "LEVEL") = lit "LEVEL" := by decide
  rw [hup] at h
  have htake : (toUp s).take 5 = lit "LEVEL" := by
    rw [← h]
    simp [toUp, List.map_take]
  have : toUp s = lit "LEVEL" ++ (toUp s).drop 5 := by
    conv_lhs => rw [← List.take_append_drop 5 (toUp s)]
    rw [htake]
  rw [this]
  exact occurs_here _ _

/-- Fuel irrelevance for `subTokF`: any fuel at least the string length
gives the canonical value. -/
theorem subTokF_fuel (tok repl : Str) (htok : 1 ≤ tok.length) :
    ∀ (k : Nat) (s : Str) (f : Nat) (prev : Option Char), s.length = k →
      s.length ≤ f →
      subTokF tok repl f prev s = subTokF tok repl s.length prev s := by
  intro k
  induction k using Nat.strong_induction_on with
  | _ k ih =>
    intro s f prev hk hf
    cases s with
    | nil =>
      cases f with
      | zero => rfl
      | succ f => rfl
    | cons c t =>
      cases f with
      | zero => simp at hf
      | succ f =>
        simp only [List.length_cons] at hk hf
        show subTokF tok repl (f + 1) prev (c :: t)
          = subTokF tok repl (t.length + 1) prev (c :: t)
        unfold subTokF
        have hdlen : ((c :: t).drop tok.length).length = t.length + 1 - tok.length := by
          simp
        have hdlt : ((c :: t).drop tok.length).length < k := by omega
        have hdle₁ : ((c :: t).drop tok.length).length ≤ f := by omega
        have hdle₂ : ((c :: t).drop tok.length).length ≤ t.length := by omega
        by_cases hm : (noWrdBefore prev && ciEq ((c :: t).take tok.length) tok &&
            noWrdAt ((c :: t).drop tok.length)) = true
        · rw [if_pos hm, if_pos hm]
          congr 1
          rw [ih _ hdlt ((c :: t).drop tok.length) f
            (((c :: t).take tok.length).getLast?) rfl hdle₁,
            ih _ hdlt ((c :: t).drop tok.length) t.length
            (((c :: t).take tok.length).getLast?) rfl hdle₂]
        · rw [if_neg hm, if_neg hm]
          congr 1
          exact ih _ (by omega) t f (some c) rfl (by omega)

theorem subTokF_fuel_eq (tok repl : Str) (htok : 1 ≤ tok.length)
    {s : Str} {f : Nat} (hf : s.length ≤ f) (prev : Option Char) :
    subTokF tok repl f prev s = subTokF tok repl s.length prev s :=
  subTokF_fuel tok repl htok s.length s f prev rfl hf

theorem endsNonWrdB_spec {t : Str} (h : endsNonWrdB t = true) :
    ∃ t0 c0, t = t0 ++ [c0] ∧ isWrd c0 = false := by
  unfold endsNonWrdB at h
  cases hr : t.reverse with
  | nil => rw [hr] at h; exact absurd h (by simp)
  | cons c r =>
    rw [hr] at h
    refine ⟨r.reverse, c, ?_, ?_⟩
    · have := congrArg List.reverse hr
      simpa using this
    · simpa using h

theorem endsNonWrdB_cons {c : Char} {t : Str} (h : t ≠ []) :
    endsNonWrdB (c :: t) = endsNonWrdB t := by
  unfold endsNonWrdB
  cases hr : t.reverse with
  | nil => exact absurd (by simpa using congrArg List.reverse hr) h
  | cons e r =>
    have hrc : (c :: t).reverse = e :: (r ++ [c]) := by
      rw [List.reverse_cons, hr]
      simp
    rw [hrc]

/-- One unfolding step of `subTokF` on a nonempty string with positive
fuel. -/
theorem subTokF_step (tok repl : Str) (f : Nat) (prev : Option Char)
    (c : Char) (t : Str) :
    subTokF tok repl (f + 1) prev (c :: t) =
      if noWrdBefore prev && ciEq ((c :: t).take tok.length) tok &&
          noWrdAt ((c :: t).drop tok.length) then
        repl ++ subTokF tok repl f (((c :: t).take tok.length).getLast?)
          ((c :: t).drop tok.length)
      else c :: subTokF tok repl f (some c) t := rfl

/-- Under the text-segment constraints no case-insensitive `LEVEL` match
can start at the head of `t ++ rest` while any of `t` remains. -/
theorem levelCond_false {t rest : Str}
    (hne : t ≠ [])
    (htxt : occurs (lit "LEVEL") (toUp t) = false)
    (hend : rest = [] ∨ endsNonWrdB t = true) :
    ciEq ((t ++ rest).take 5) (lit "LEVEL") = false := by
  cases hci : ciEq ((t ++ rest).take 5) (lit "LEVEL")
  · rfl
  · exfalso
    have htot : 5 ≤ t.length + rest.length := by
      have hl := ciEq_len hci
      simp only [List.length_take, List.length_append] at hl
      have h5 : (lit "LEVEL").length = 5 := by decide
      rw [h5] at hl
      omega
    by_cases hlong : 5 ≤ t.length
    · have htake : (t ++ rest).take 5 = t.take 5 := by
        rw [List.take_append_eq_append_take]
        have h0 : 5 - t.length = 0 := by omega
        rw [h0]
        simp
      rw [htake] at hci
      rw [occurs_of_ciEq_take hci] at htxt
      exact absurd htxt (by simp)
    · have hrest : rest ≠ [] := by
        intro h
        rw [h] at htot
        simp at htot
        omega
      have hend' : endsNonWrdB t = true := by
        cases hend with
        | inl h => exact absurd h hrest
        | inr h => exact h
      obtain ⟨t0, c0, ht, hc0⟩ := endsNonWrdB_spec hend'
      have hmem : c0 ∈ (t ++ rest).take 5 := by
        rw [List.take_append_eq_append_take]
        have ht5 : t.take 5 = t := List.take_of_length_le (by omega)
        rw [ht5]
        apply List.mem_append_left
        rw [ht]
        exact List.mem_append_right _ (by simp)
      have hw := ciEq_mem_wrd hci c0 hmem
      rw [hw] at hc0
      exact absurd hc0 (by simp)

/-- `subTokF` for the token `LEVEL` copies a text segment verbatim when no
match can start inside it. -/
theorem subTok_copy (repl : Str) :
    ∀ (t : Str) (rest : Str) (f : Nat) (prev : Option Char),
      (t ++ rest).length ≤ f →
      occurs (lit "LEVEL") (toUp t) = false →
      (rest = [] ∨ endsNonWrdB t = true) →
      subTokF (lit "LEVEL") repl f prev (t ++ rest)
        = t ++ subTokF (lit "LEVEL") repl (f - t.length)
            (t.getLast?.elim prev some) rest := by
  intro t
  induction t with
  | nil =>
    intro rest f prev hf htxt hend
    simp [Option.elim]
  | cons c t' ih =>
    intro rest f prev hf htxt hend
    simp only [List.cons_append, List.length_cons, List.length_append] at hf ⊢
    cases f with
    | zero => omega
    | succ f =>
      rw [subTokF_step]
      have hci : ciEq ((c :: (t' ++ rest)).take 5) (lit "LEVEL") = false := by
        have hlc := levelCond_false (t := c :: t') (by simp) htxt hend
        simpa using hlc
      have h5 : (lit "LEVEL").length = 5 := by decide
      rw [if_neg (by rw [h5, hci]; simp)]
      have htxt' : occurs (lit "LEVEL") (toUp t') = false := by
        have hmc : toUp (c :: t') = up c :: toUp t' := by simp [toUp]
        rw [hmc] at htxt
        exact not_occurs_tail htxt
      cases ht' : t' with
      | nil =>
        subst ht'
        rfl
      | cons d t'' =>
        rw [← ht']
        have hend' : rest = [] ∨ endsNonWrdB t' = true := by
          cases hend with
          | inl h => exact Or.inl h
          | inr h =>
            right
            rw [endsNonWrdB_cons (by rw [ht']; simp)] at h
            exact h
        have hgl : ((c :: t').getLast?.elim prev some)
            = (t'.getLast?.elim (some c) some) := by
          rw [ht', List.getLast?_cons_cons]
          cases hg : (d :: t'').getLast? with
          | none => exact absurd hg (by simp)
          | some e => rfl
        rw [hgl]
        have hihl := ih rest f (some c)
          (by simp only [List.length_append]; omega) htxt' hend'
        rw [hihl]
        have hfe : f + 1 - (t'.length + 1) = f - t'.length := by omega
        rw [hfe]

/-- `subTokF` for the token `LEVEL` fires on a case variant of `LEVEL`
standing at word boundaries. -/
theorem subTok_level (repl : Str) (w rest : Str) (f : Nat) (prev : Option Char)
    (hw : toUp w = lit "LEVEL")
    (hp : noWrdBefore prev = true)
    (hrs : noWrdAt rest = true)
    (hf : (w ++ rest).length ≤ f) :
    subTokF (lit "LEVEL") repl f prev (w ++ rest)
      = repl ++ subTokF (lit "LEVEL") repl (f - 1) w.getLast? rest := by
  have hwlen : w.length = 5 := by
    have hl := congrArg List.length hw
    simpa [toUp] using hl
  have hf5 : 5 ≤ f := by
    simp only [List.length_append] at hf
    omega
  cases f with
  | zero => omega
  | succ f =>
    cases w with
    | nil => simp at hwlen
    | cons c w' =>
      have hsplit : (c :: w') ++ rest = c :: (w' ++ rest) := rfl
      simp only [List.cons_append]
      rw [subTokF_step]
      have h5 : (lit "LEVEL").length = 5 := by decide
      have htake : (c :: (w' ++ rest)).take 5 = c :: w' := by
        rw [← hsplit, List.take_append_eq_append_take,
          List.take_of_length_le (by omega), hwlen]
        simp
      have hdrop : (c :: (w' ++ rest)).drop 5 = rest := by
        rw [← hsplit, List.drop_append_eq_append_drop,
          List.drop_of_length_le (by omega), hwlen]
        simp
      have hci : ciEq (c :: w') (lit "LEVEL") = true := by
        rw [ciEq_iff, hw]
        decide
      rw [if_pos (by rw [h5, htake, hdrop, hci, hp, hrs]; rfl)]
      rw [h5, htake, hdrop]
      simp

/-- One unfolding step of `subLevelIdF` on a nonempty string with positive
fuel. -/
theorem subLevelIdF_step (f : Nat) (prev : Option Char) (c : Char) (t : Str) :
    subLevelIdF (f + 1) prev (c :: t) =
      if noWrdBefore prev && ciEq ((c :: t).take 5) (lit "LEVEL") &&
          noWrdAt ((c :: t).drop 5) &&
          !((((c :: t).drop 5).dropWhile isSpc).take 1 == ['(']) then
        lit "id" ++ subLevelIdF f (((c :: t).take 5).getLast?) ((c :: t).drop 5)
      else c :: subLevelIdF f (some c) t := rfl

/-- `subLevelIdF` copies a text segment verbatim when no match can start
inside it. -/
theorem subLevelId_copy :
    ∀ (t : Str) (rest : Str) (f : Nat) (prev : Option Char),
      (t ++ rest).length ≤ f →
      occurs (lit "LEVEL") (toUp t) = false →
      (rest = [] ∨ endsNonWrdB t = true) →
      subLevelIdF f prev (t ++ rest)
        = t ++ subLevelIdF (f - t.length) (t.getLast?.elim prev some) rest := by
  intro t
  induction t with
  | nil =>
    intro rest f prev hf htxt hend
    simp [Option.elim]
  | cons c t' ih =>
    intro rest f prev hf htxt hend
    simp only [List.cons_append, List.length_cons, List.length_append] at hf ⊢
    cases f with
    | zero => omega
    | succ f =>
      rw [subLevelIdF_step]
      have hci : ciEq ((c :: (t' ++ rest)).take 5) (lit "LEVEL") = false := by
        have hlc := levelCond_false (t := c :: t') (by simp) htxt hend
        simpa using hlc
      rw [if_neg (by rw [hci]; simp)]
      have htxt' : occurs (lit "LEVEL") (toUp t') = false := by
        have hmc : toUp (c :: t') = up c :: toUp t' := by simp [toUp]
        rw [hmc] at htxt
        exact not_occurs_tail htxt
      cases ht' : t' with
      | nil =>
        subst ht'
        rfl
      | cons d t'' =>
        rw [← ht']
        have hend' : rest = [] ∨ endsNonWrdB t' = true := by
          cases hend with
          | inl h => exact Or.inl h
          | inr h =>
            right
            rw [endsNonWrdB_cons (by rw [ht']; simp)] at h
            exact h
        have hgl : ((c :: t').getLast?.elim prev some)
            = (t'.getLast?.elim (some c) some) := by
          rw [ht', List.getLast?_cons_cons]
          cases hg : (d :: t'').getLast? with
          | none => exact absurd hg (by simp)
          | some e => rfl
        rw [hgl]
        have hihl := ih rest f (some c)
          (by simp only [List.length_append]; omega) htxt' hend'
        rw [hihl]
        have hfe : f + 1 - (t'.length + 1) = f - t'.length := by omega
        rw [hfe]

/-- `subLevelIdF` fires on a case variant of `LEVEL` standing at word
boundaries and not followed (after optional whitespace) by `(`. -/
theorem subLevelId_level (w rest : Str) (f : Nat) (prev : Option Char)
    (hw : toUp w = lit "LEVEL")
    (hp : noWrdBefore prev = true)
    (hrs : noWrdAt rest = true)
    (hla : ((rest.dropWhile isSpc).take 1 == ['(']) = false)
    (hf : (w ++ rest).length ≤ f) :
    subLevelIdF f prev (w ++ rest)
      = lit "id" ++ subLevelIdF (f - 1) w.getLast? rest := by
  have hwlen : w.length = 5 := by
    have hl := congrArg List.length hw
    simpa [toUp] using hl
  have hf5 : 5 ≤ f := by
    simp only [List.length_append] at hf
    omega
  cases f with
  | zero => omega
  | succ f =>
    cases w with
    | nil => simp at hwlen
    | cons c w' =>
      have hsplit : (c :: w') ++ rest = c :: (w' ++ rest) := rfl
      simp only [List.cons_append]
      rw [subLevelIdF_step]
      have htake : (c :: (w' ++ rest)).take 5 = c :: w' := by
        rw [← hsplit, List.take_append_eq_append_take,
          List.take_of_length_le (by omega), hwlen]
        simp
      have hdrop : (c :: (w' ++ rest)).drop 5 = rest := by
        rw [← hsplit, List.drop_append_eq_append_drop,
          List.drop_of_length_le (by omega), hwlen]
        simp
      have hci : ciEq (c :: w') (lit "LEVEL") = true := by
        rw [ciEq_iff, hw]
        decide
      rw [if_pos (by rw [htake, hdrop, hci, hp, hrs, hla]; rfl)]
      rw [htake, hdrop]
      simp

theorem segsRender_cons (w t : Str) (rest : List (Str × Str)) :
    segsRender ((w, t) :: rest) = w ++ (t ++ segsRender rest) := by
  simp [segsRender, List.append_assoc]

theorem segsRepl_cons (repl w t : Str) (rest : List (Str × Str)) :
    segsRepl repl ((w, t) :: rest) = repl ++ (t ++ segsRepl repl rest) := by
  simp [segsRepl, List.append_assoc]

/-- The head character of a well-formed nonempty segment rendering is a
word character (the first letter of a case variant of `LEVEL`). -/
theorem segsRender_head_wrd {w t : Str} {rest : List (Str × Str)}
    (hwf : segWF ((w, t) :: rest) = true) :
    ∃ c2 w2, w = c2 :: w2 ∧ isWrd c2 = true := by
  have hw : toUp w = lit "LEVEL" := by
    simp only [segWF, Bool.and_eq_true] at hwf
    exact beq_iff_eq.mp hwf.1.1.1.1.1
  cases w with
  | nil => exact absurd (congrArg List.length hw) (by simp [toUp]; decide)
  | cons c2 w2 =>
    refine ⟨c2, w2, rfl, ?_⟩
    have hup : up c2 = 'L' := by
      have : toUp (c2 :: w2) = up c2 :: toUp w2 := by simp [toUp]
      rw [this] at hw
      exact (List.cons.injEq _ _ _ _ ▸ hw).1
    rw [← isWrd_up, hup]
    decide

theorem noWrdAt_of_seg {t : Str} {rest : List (Str × Str)}
    (htk1 : (t.take 1).all (fun c => !isWrd c) = true)
    (hre : (rest.isEmpty || (!t.isEmpty && endsNonWrdB t)) = true) :
    noWrdAt (t ++ segsRender rest) = true := by
  cases t with
  | nil =>
    have hrest : rest = [] := by
      simp only [List.isEmpty_nil, Bool.true_and, Bool.or_eq_true] at hre
      cases hre with
      | inl h => exact List.isEmpty_iff.mp h
      | inr h => exact absurd h (by simp [endsNonWrdB])
    rw [hrest]
    rfl
  | cons c t2 =>
    have hcw : isWrd c = false := by
      have h1 : ((c :: t2).take 1).all (fun c => !isWrd c) = (!isWrd c) := by simp
      rw [h1] at htk1
      simpa using htk1
    show (!isWrd c) = true
    rw [hcw]
    rfl

/-- `re.sub(r'\bLEVEL\b', repl, s, re.IGNORECASE)` on a well-formed
segment rendering replaces exactly the `LEVEL` tokens. -/
theorem subTok_segs (repl : Str) :
    ∀ (ps : List (Str × Str)) (f : Nat) (prev : Option Char),
      segWF ps = true →
      noWrdBefore prev = true →
      (segsRender ps).length ≤ f →
      subTokF (lit "LEVEL") repl f prev (segsRender ps) = segsRepl repl ps := by
  intro ps
  induction ps with
  | nil =>
    intro f prev hwf hprev hf
    cases f <;> rfl
  | cons p rest ih =>
    intro f prev hwf hprev hf
    obtain ⟨w, t⟩ := p
    rw [segsRender_cons] at hf ⊢
    simp only [segWF, Bool.and_eq_true] at hwf
    obtain ⟨⟨⟨⟨⟨hw, hocc⟩, htk1⟩, hla⟩, hre⟩, hwfr⟩ := hwf
    have hwEq : toUp w = lit "LEVEL" := beq_iff_eq.mp hw
    have hoccF : occurs (lit "LEVEL") (toUp t) = false := by
      simpa using hocc
    have hwlen : w.length = 5 := by
      have hl := congrArg List.length hwEq
      simpa [toUp] using hl
    have hnwa : noWrdAt (t ++ segsRender rest) = true := noWrdAt_of_seg htk1 hre
    rw [subTok_level repl w (t ++ segsRender rest) f prev hwEq hprev hnwa hf]
    have hend' : segsRender rest = [] ∨ endsNonWrdB t = true := by
      rcases Bool.or_eq_true _ _ |>.mp hre with h | h
      · left
        rw [List.isEmpty_iff.mp h]
        rfl
      · right
        exact (Bool.and_eq_true _ _ |>.mp h).2
    have hflen : (t ++ segsRender rest).length ≤ f - 1 := by
      simp only [List.length_append] at hf ⊢
      omega
    rw [subTok_copy repl t (segsRender rest) (f - 1) w.getLast? hflen hoccF hend']
    rw [segsRepl_cons]
    congr 1
    congr 1
    cases hrc : rest with
    | nil =>
      show subTokF (lit "LEVEL") repl _ _ (segsRender []) = segsRepl repl []
      cases (f - 1 - t.length) <;> rfl
    | cons q rest' =>
      rw [← hrc]
      have hrne : rest ≠ [] := by rw [hrc]; simp
      have htne : t.isEmpty = false ∧ endsNonWrdB t = true := by
        rcases Bool.or_eq_true _ _ |>.mp hre with h | h
        · exact absurd (List.isEmpty_iff.mp h) hrne
        · have := Bool.and_eq_true _ _ |>.mp h
          exact ⟨by simpa using this.1, this.2⟩
      obtain ⟨t0, c0, ht0, hc0⟩ := endsNonWrdB_spec htne.2
      have hprev' : noWrdBefore (t.getLast?.elim w.getLast? some) = true := by
        rw [ht0, List.getLast?_concat]
        show (!isWrd c0) = true
        rw [hc0]
        rfl
      apply ih (f - 1 - t.length) _ hwfr hprev'
      simp only [List.length_append] at hf
      omega

theorem dropWhile_append_of_nil {p : Char → Bool} :
    ∀ (t rest : Str), t.dropWhile p = [] →
      (t ++ rest).dropWhile p = rest.dropWhile p := by
  intro t
  induction t with
  | nil =>
    intro rest h
    simp
  | cons c t' ih =>
    intro rest h
    rw [List.dropWhile_cons] at h
    by_cases hc : p c = true
    · rw [if_pos hc] at h
      show (c :: (t' ++ rest)).dropWhile p = rest.dropWhile p
      rw [List.dropWhile_cons, if_pos hc]
      exact ih rest h
    · rw [if_neg hc] at h
      exact absurd h (by simp)

theorem dropWhile_append_of_ne {p : Char → Bool} :
    ∀ (t rest : Str), t.dropWhile p ≠ [] →
      (t ++ rest).dropWhile p = t.dropWhile p ++ rest := by
  intro t
  induction t with
  | nil =>
    intro rest h
    exact absurd rfl h
  | cons c t' ih =>
    intro rest h
    cases hc : p c with
    | true =>
      rw [List.dropWhile_cons, if_pos hc] at h
      show (c :: (t' ++ rest)).dropWhile p = (c :: t').dropWhile p ++ rest
      rw [List.dropWhile_cons, if_pos hc, List.dropWhile_cons, if_pos hc]
      exact ih rest h
    | false =>
      show (c :: (t' ++ rest)).dropWhile p = (c :: t').dropWhile p ++ rest
      rw [dropWhile_cons_neg _ hc, dropWhile_cons_neg _ hc]
      rfl

/-- The `(?!\s*\()` lookahead of the `LEVEL` → `id` rewrite holds at the
start of a text segment followed by a well-formed rendering. -/
theorem lookahead_of_seg {t : Str} {rest : List (Str × Str)}
    (hla : ((t.dropWhile isSpc).take 1 == [ '(' ]) = false)
    (hwfr : segWF rest = true) :
    (((t ++ segsRender rest).dropWhile isSpc).take 1 == [ '(' ]) = false := by
  by_cases hdt : t.dropWhile isSpc = []
  · rw [dropWhile_append_of_nil t (segsRender rest) hdt]
    cases hrc : rest with
    | nil => rfl
    | cons q rest' =>
      obtain ⟨w2, t2⟩ := q
      rw [hrc] at hwfr
      obtain ⟨c2, w2', hw2, hc2w⟩ := segsRender_head_wrd hwfr
      rw [segsRender_cons, hw2]
      have hcsp : isSpc c2 = false := wrd_not_spc hc2w
      show (((c2 :: (w2' ++ (t2 ++ segsRender rest'))).dropWhile isSpc).take 1
        == [ '(' ]) = false
      rw [dropWhile_cons_neg _ hcsp]
      apply Bool.eq_false_iff.mpr
      intro habs
      have hle : ([c2] : Str) = [ '(' ] := by
        have h1 : ((c2 :: (w2' ++ (t2 ++ segsRender rest'))).take 1) = [c2] := by
          simp
        rw [h1] at habs
        exact beq_iff_eq.mp habs
      have : c2 = '(' := by
        injection hle
      rw [this] at hc2w
      exact absurd hc2w (by decide)
  · rw [dropWhile_append_of_ne t (segsRender rest) hdt]
    cases hdtc : t.dropWhile isSpc with
    | nil => exact absurd hdtc hdt
    | cons e dt' =>
      rw [hdtc] at hla
      show (((e :: dt') ++ segsRender rest).take 1 == [ '(' ]) = false
      have h1 : ((e :: dt') ++ segsRender rest).take 1 = [e] := by simp
      have h2 : (e :: dt').take 1 = [e] := by simp
      rw [h1]
      rw [h2] at hla
      exact hla

/-- `re.sub(r'\bLEVEL\b(?!\s*\()', 'id', s, re.IGNORECASE)` on a
well-formed segment rendering replaces exactly the `LEVEL` tokens. -/
theorem subLevelId_segs :
    ∀ (ps : List (Str × Str)) (f : Nat) (prev : Option Char),
      segWF ps = true →
      noWrdBefore prev = true →
      (segsRender ps).length ≤ f →
      subLevelIdF f prev (segsRender ps) = segsRepl (lit "id") ps := by
  intro ps
  induction ps with
  | nil =>
    intro f prev hwf hprev hf
    cases f <;> rfl
  | cons p rest ih =>
    intro f prev hwf hprev hf
    obtain ⟨w, t⟩ := p
    rw [segsRender_cons] at hf ⊢
    simp only [segWF, Bool.and_eq_true] at hwf
    obtain ⟨⟨⟨⟨⟨hw, hocc⟩, htk1⟩, hla⟩, hre⟩, hwfr⟩ := hwf
    have hwEq : toUp w = lit "LEVEL" := beq_iff_eq.mp hw
    have hoccF : occurs (lit "LEVEL") (toUp t) = false := by
      simpa using hocc
    have hwlen : w.length = 5 := by
      have hl := congrArg List.length hwEq
      simpa [toUp] using hl
    have hnwa : noWrdAt (t ++ segsRender rest) = true := noWrdAt_of_seg htk1 hre
    have hlaF : ((t.dropWhile isSpc).take 1 == [ '(' ]) = false := by
      simpa using hla
    have hla' : (((t ++ segsRender rest).dropWhile isSpc).take 1 == [ '(' ])
        = false := lookahead_of_seg hlaF hwfr
    rw [subLevelId_level w (t ++ segsRender rest) f prev hwEq hprev hnwa hla' hf]
    have hend' : segsRender rest = [] ∨ endsNonWrdB t = true := by
      rcases Bool.or_eq_true _ _ |>.mp hre with h | h
      · left
        rw [List.isEmpty_iff.mp h]
        rfl
      · right
        exact (Bool.and_eq_true _ _ |>.mp h).2
    have hflen : (t ++ segsRender rest).length ≤ f - 1 := by
      simp only [List.length_append] at hf ⊢
      omega
    rw [subLevelId_copy t (segsRender rest) (f - 1) w.getLast? hflen hoccF hend']
    rw [segsRepl_cons]
    congr 1
    congr 1
    cases hrc : rest with
    | nil =>
      show subLevelIdF _ _ (segsRender []) = segsRepl (lit "id") []
      cases (f - 1 - t.length) <;> rfl
    | cons q rest' =>
      rw [← hrc]
      have hrne : rest ≠ [] := by rw [hrc]; simp
      have htne : t.isEmpty = false ∧ endsNonWrdB t = true := by
        rcases Bool.or_eq_true _ _ |>.mp hre with h | h
        · exact absurd (List.isEmpty_iff.mp h) hrne
        · have hh := Bool.and_eq_true _ _ |>.mp h
          exact ⟨by simpa using hh.1, hh.2⟩
      obtain ⟨t0, c0, ht0, hc0⟩ := endsNonWrdB_spec htne.2
      have hprev' : noWrdBefore (t.getLast?.elim w.getLast? some) = true := by
        rw [ht0, List.getLast?_concat]
        show (!isWrd c0) = true
        rw [hc0]
        rfl
      apply ih (f - 1 - t.length) _ hwfr hprev'
      simp only [List.length_append] at hf
      omega

theorem subLevelId_grammar (t0 : Str) (ps : List (Str × Str))
    (h0 : occurs (lit "LEVEL") (toUp t0) = false)
    (hb : (ps.isEmpty || t0.isEmpty || endsNonWrdB t0) = true)
    (hwf : segWF ps = true) :
    subLevelId (t0 ++ segsRender ps) = t0 ++ segsRepl (lit "id") ps := by
  unfold subLevelId
  by_cases ht0 : t0 = []
  · subst ht0
    simp only [List.nil_append]
    exact subLevelId_segs ps _ none hwf rfl le_rfl
  · have hend' : segsRender ps = [] ∨ endsNonWrdB t0 = true := by
      rcases Bool.or_eq_true _ _ |>.mp hb with h | h
      · rcases Bool.or_eq_true _ _ |>.mp h with h2 | h2
        · left
          rw [List.isEmpty_iff.mp h2]
          rfl
        · exact absurd (List.isEmpty_iff.mp h2) ht0
      · exact Or.inr h
    rw [subLevelId_copy t0 (segsRender ps) (t0 ++ segsRender ps).length none
      le_rfl h0 hend']
    congr 1
    cases hps : ps with
    | nil =>
      show subLevelIdF _ _ (segsRender []) = segsRepl (lit "id") []
      cases ((t0 ++ segsRender []).length - t0.length) <;> rfl
    | cons q ps' =>
      rw [← hps]
      have hnwd : endsNonWrdB t0 = true := by
        cases hend' with
        | inl h =>
          exfalso
          rw [hps] at h
          obtain ⟨w2, t2⟩ := q
          rw [segsRender_cons] at h
          rw [hps] at hwf
          obtain ⟨c2, w2', hw2, _⟩ := segsRender_head_wrd hwf
          rw [hw2] at h
          exact absurd h (by simp)
        | inr h => exact h
      obtain ⟨t00, c0, ht00, hc0⟩ := endsNonWrdB_spec hnwd
      have hprev : noWrdBefore (t0.getLast?.elim none some) = true := by
        rw [ht00, List.getLast?_concat]
        show (!isWrd c0) = true
        rw [hc0]
        rfl
      apply subLevelId_segs ps _ _ hwf hprev
      simp only [List.length_append]
      omega

theorem subToken_grammar (repl t0 : Str) (ps : List (Str × Str))
    (h0 : occurs (lit "LEVEL") (toUp t0) = false)
    (hb : (ps.isEmpty || t0.isEmpty || endsNonWrdB t0) = true)
    (hwf : segWF ps = true) :
    subToken (lit "LEVEL") repl (t0 ++ segsRender ps)
      = t0 ++ segsRepl repl ps := by
  unfold subToken
  by_cases ht0 : t0 = []
  · subst ht0
    simp only [List.nil_append]
    exact subTok_segs repl ps _ none hwf rfl le_rfl
  · have hend' : segsRender ps = [] ∨ endsNonWrdB t0 = true := by
      rcases Bool.or_eq_true _ _ |>.mp hb with h | h
      · rcases Bool.or_eq_true _ _ |>.mp h with h2 | h2
        · left
          rw [List.isEmpty_iff.mp h2]
          rfl
        · exact absurd (List.isEmpty_iff.mp h2) ht0
      · exact Or.inr h
    rw [subTok_copy repl t0 (segsRender ps) (t0 ++ segsRender ps).length none
      le_rfl h0 hend']
    congr 1
    cases hps : ps with
    | nil =>
      show subTokF (lit "LEVEL") repl _ _ (segsRender []) = segsRepl repl []
      cases ((t0 ++ segsRender []).length - t0.length) <;> rfl
    | cons q ps' =>
      rw [← hps]
      have hnwd : endsNonWrdB t0 = true := by
        cases hend' with
        | inl h =>
          exfalso
          rw [hps] at h
          obtain ⟨w2, t2⟩ := q
          rw [segsRender_cons] at h
          rw [hps] at hwf
          obtain ⟨c2, w2', hw2, _⟩ := segsRender_head_wrd hwf
          rw [hw2] at h
          exact absurd h (by simp)
        | inr h => exact h
      obtain ⟨t00, c0, ht00, hc0⟩ := endsNonWrdB_spec hnwd
      have hprev : noWrdBefore (t0.getLast?.elim none some) = true := by
        rw [ht00, List.getLast?_concat]
        show (!isWrd c0) = true
        rw [hc0]
        rfl
      apply subTok_segs repl ps _ _ hwf hprev
      simp only [List.length_append]
      omega


/-- **C8.** For a sequence-generator query, `_convert_sequence_generator`
emits `SELECT <select list with every standalone LEVEL replaced by id>`
followed by `FROM RANGE(1, N+1)` where `N+1` is computed arithmetically
when the limit is a literal integer and `FROM RANGE(1, <limit> + 1)` when
the limit is an identifier; any `ORDER BY` is carried through with the
same `LEVEL` → `id` substitution. -/
theorem C8_sequence_generator_rewrite
    (comps : ConnectByComponents) (l t0 : Str)
    (ps : List (Str × Str))
    (hl : comps.level_limit = some l) (hne : l ≠ [])
    (hsel : comps.select_clause = t0 ++ segsRender ps)
    (h0 : occurs (lit "LEVEL") (toUp t0) = false)
    (hb : (ps.isEmpty || t0.isEmpty || endsNonWrdB t0) = true)
    (hwf : segWF ps = true) :
    (comps.order_by_clause = none →
      convertSequenceGenerator comps =
        lit "SELECT " ++ (t0 ++ segsRepl (lit "id") ps) ++ lit "\nFROM " ++
          (if pyIsDigit l then
            lit "RANGE(1, " ++ natToStr (digitsToNat l + 1) ++ lit ")"
          else lit "RANGE(1, " ++ l ++ lit " + 1)")) ∧
    (∀ (ob0 : Str) (qs : List (Str × Str)),
      comps.order_by_clause = some (ob0 ++ segsRender qs) →
      occurs (lit "LEVEL") (toUp ob0) = false →
      (qs.isEmpty || ob0.isEmpty || endsNonWrdB ob0) = true →
      segWF qs = true →
      ob0 ++ segsRender qs ≠ [] →
      convertSequenceGenerator comps =
        lit "SELECT " ++ (t0 ++ segsRepl (lit "id") ps) ++ lit "\nFROM " ++
          (if pyIsDigit l then
            lit "RANGE(1, " ++ natToStr (digitsToNat l + 1) ++ lit ")"
          else lit "RANGE(1, " ++ l ++ lit " + 1)") ++
          lit "\nORDER BY " ++ (ob0 ++ segsRepl (lit "id") qs)) := by
  have hlE : l.isEmpty = false := by
    cases l with
    | nil => exact absurd rfl hne
    | cons a b => rfl
  have hsub : subLevelId comps.select_clause = t0 ++ segsRepl (lit "id") ps := by
    rw [hsel]
    exact subLevelId_grammar t0 ps h0 hb hwf
  constructor
  · intro hob
    unfold convertSequenceGenerator
    rw [hl, hob]
    simp only [hlE, Bool.false_eq_true, if_false, hsub]
  · intro ob0 qs hob hq0 hqb hqwf hobne
    have hobSub : subToken (lit "LEVEL") (lit "id") (ob0 ++ segsRender qs)
        = ob0 ++ segsRepl (lit "id") qs :=
      subToken_grammar (lit "id") ob0 qs hq0 hqb hqwf
    have hobE : (ob0 ++ segsRender qs).isEmpty = false := by
      cases hobc : ob0 ++ segsRender qs with
      | nil => exact absurd hobc hobne
      | cons a b => rfl
    unfold convertSequenceGenerator
    rw [hl, hob]
    simp only [hlE, Bool.false_eq_true, if_false, hobE, hsub, hobSub]

theorem C8_sequence_generator_rewrite_witness :
    convertSequenceGenerator
      { select_clause := lit "LEVEL * 2", from_clause := lit "DUAL",
        is_sequence_generator := true, level_limit := some (lit "5"),
        order_by_clause := some (lit "LEVEL"), has_level := true }
      = lit "SELECT id * 2\nFROM RANGE(1, 6)\nORDER BY id" := by
  have h := (C8_sequence_generator_rewrite
    { select_clause := lit "LEVEL * 2", from_clause := lit "DUAL",
      is_sequence_generator := true, level_limit := some (lit "5"),
      order_by_clause := some (lit "LEVEL"), has_level := true }
    (lit "5") [] [(lit "LEVEL", lit " * 2")]
    rfl (by decide) (by decide) (by decide) (by decide) (by decide)).2
    [] [(lit "LEVEL", [])]
    (by decide) (by decide) (by decide) (by decide) (by decide)
  exact h.trans (by decide)

theorem optWordEnd_wrd {v w : Str} (h : optWordEnd v = some (some w)) :
    ∀ c ∈ w, isWrd c = true := by
  unfold optWordEnd at h
  by_cases hw : (v.takeWhile isWrd).isEmpty = true
  · rw [if_pos hw] at h
    by_cases hsp : (v.dropWhile isSpc).isEmpty = true
    · rw [if_pos hsp] at h
      exact absurd h (by simp)
    · rw [if_neg hsp] at h
      exact absurd h (by simp)
  · rw [if_neg hw] at h
    by_cases ht : ((v.dropWhile isWrd).dropWhile isSpc).isEmpty = true
    · rw [if_pos ht] at h
      have hwe : v.takeWhile isWrd = w := by simpa using h
      intro c hc
      rw [← hwe] at hc
      exact List.mem_takeWhile_imp hc
    · rw [if_neg ht] at h
      exact absurd h (by simp)

theorem aliasTail_wrd {v w : Str} (h : aliasTail v = some (some w)) :
    ∀ c ∈ w, isWrd c = true := by
  unfold aliasTail at h
  by_cases hcond : (ciEq (v.take 2) (lit "AS") &&
      !((v.drop 2).takeWhile isSpc).isEmpty) = true
  · rw [if_pos hcond] at h
    cases ho : optWordEnd ((v.drop 2).dropWhile isSpc) with
    | none =>
      rw [ho] at h
      exact optWordEnd_wrd h
    | some r =>
      rw [ho] at h
      have hr : r = some w := by simpa using h
      exact optWordEnd_wrd (ho.trans (by rw [hr]))
  · rw [if_neg hcond] at h
    exact optWordEnd_wrd h

theorem isleafAlias_wrd (col : Str) : ∀ c ∈ isleafAlias col, isWrd c = true := by
  by_cases hcond : (ciEq ((col.dropWhile isSpc).take 17) (lit "CONNECT_BY_ISLEAF") &&
      !(((col.dropWhile isSpc).drop 17).takeWhile isSpc).isEmpty) = true
  · cases ha : aliasTail (((col.dropWhile isSpc).drop 17).dropWhile isSpc) with
    | none =>
      simp only [isleafAlias, hcond, if_true, ha]
      decide
    | some r =>
      cases r with
      | none =>
        simp only [isleafAlias, hcond, if_true, ha]
        decide
      | some w =>
        simp only [isleafAlias, hcond, if_true, ha]
        exact aliasTail_wrd ha
  · simp only [isleafAlias]
    rw [if_neg hcond]
    decide

theorem joinWith_eq_join (sep : Str) :
    ∀ (ys : List Str) (y : Str),
      joinWith sep (y :: ys) = y ++ (ys.map (fun z => sep ++ z)).join := by
  intro ys
  induction ys with
  | nil =>
    intro y
    simp [joinWith]
  | cons z zs ih =>
    intro y
    show y ++ sep ++ joinWith sep (z :: zs) = _
    rw [ih z]
    simp [List.append_assoc]

/-- Splitting a comma-joined list at a distinguished entry. -/
theorem joinWith_after (sep : Str) :
    ∀ (xs : List Str) (cmt : Str) (ys : List Str),
      ∃ pre, joinWith sep (xs ++ cmt :: ys)
        = pre ++ cmt ++ (ys.map (fun z => sep ++ z)).join := by
  intro xs
  induction xs with
  | nil =>
    intro cmt ys
    exact ⟨[], by simpa using joinWith_eq_join sep ys cmt⟩
  | cons x xs' ih =>
    intro cmt ys
    obtain ⟨pre, hpre⟩ := ih cmt ys
    have hne : xs' ++ cmt :: ys ≠ [] := by
      cases xs' <;> simp
    have hstep : joinWith sep (x :: (xs' ++ cmt :: ys))
        = x ++ sep ++ joinWith sep (xs' ++ cmt :: ys) := by
      cases hc : xs' ++ cmt :: ys with
      | nil => exact absurd hc hne
      | cons a b => rfl
    refine ⟨x ++ sep ++ pre, ?_⟩
    rw [List.cons_append, hstep, hpre]
    simp [List.append_assoc]

theorem mem_map_join_decomp {ys : List Str} {y : Str} (f : Str → Str)
    (hy : y ∈ ys) :
    ∃ a b, (ys.map f).join = a ++ f y ++ b := by
  induction ys with
  | nil => exact absurd hy (by simp)
  | cons z zs ih =>
    rcases List.mem_cons.mp hy with h | h
    · subst h
      exact ⟨[], (zs.map f).join, by simp⟩
    · obtain ⟨a, b, hab⟩ := ih h
      refine ⟨f z ++ a, b, ?_⟩
      simp only [List.map_cons, List.join_cons, hab]
      simp [List.append_assoc]

/-- **C10.** A select item classified as CONNECT_BY_ISLEAF contributes no
column to the anchor or recursive lists; its only trace is an output entry
beginning with `--`, which contains no newline, and when it is spliced
into the comma-joined single-line outer projection every later column
falls after the `--` marker with no intervening newline; the
CONNECT_BY_ISLEAF warning and note are still emitted by the assembler. -/
theorem C10_isleaf_comment_only
    (col0 col : Str) (hcol : stripStr col0 = col)
    (h1 : col.isEmpty = false)
    (h2 : isBareLevel col = false)
    (h3 : levelAliasMatch col = none)
    (h4 : pathMatch col = none)
    (h5 : rootMatch col = none)
    (h6 : isleafMatch col = true) :
    (∀ tableAlias cteName st,
      colStep tableAlias cteName st col0 =
        (st.1, st.2.1, st.2.2 ++
          [lit "-- CONNECT_BY_ISLEAF needs manual implementation AS " ++
            isleafAlias col])) ∧
    isPrefOf (lit "--")
      (lit "-- CONNECT_BY_ISLEAF needs manual implementation AS " ++
        isleafAlias col) = true ∧
    (∀ c ∈ lit "-- CONNECT_BY_ISLEAF needs manual implementation AS " ++
        isleafAlias col, c ≠ '\n') ∧
    (∀ (xs ys : List Str), (∀ y ∈ ys, ∀ c ∈ y, c ≠ '\n') →
      ∃ pre suf,
        joinWith (lit ", ") (xs ++
          (lit "-- CONNECT_BY_ISLEAF needs manual implementation AS " ++
            isleafAlias col) :: ys)
          = pre ++ (lit "-- CONNECT_BY_ISLEAF needs manual implementation AS " ++
              isleafAlias col) ++ suf ∧
        (∀ c ∈ suf, c ≠ '\n') ∧
        (∀ y ∈ ys, occurs y suf = true)) ∧
    (∀ (comps : ConnectByComponents) (n : Nat) (out : Str) (ws ns : List Str),
      comps.has_connect_by_isleaf = true →
      buildRecursiveCte comps n = Except.ok (out, ws, ns) →
      lit "CONNECT_BY_ISLEAF may need manual verification" ∈ ws ∧
      lit "CONNECT_BY_ISLEAF approximated - uses NOT EXISTS subquery" ∈ ns) := by
  refine ⟨?_, ?_, ?_, ?_, ?_⟩
  · intro tableAlias cteName st
    simp [colStep, hcol, h1, h2, h3, h4, h5, h6]
  · rfl
  · intro c hc
    rcases List.mem_append.mp hc with h | h
    · exact (by decide :
        ∀ c ∈ lit "-- CONNECT_BY_ISLEAF needs manual implementation AS ",
          c ≠ '\n') c h
    · intro hEq
      have hwc := isleafAlias_wrd col c h
      rw [hEq] at hwc
      exact absurd hwc (by decide)
  · intro xs ys hys
    obtain ⟨pre, hpre⟩ := joinWith_after (lit ", ") xs
      (lit "-- CONNECT_BY_ISLEAF needs manual implementation AS " ++
        isleafAlias col) ys
    refine ⟨pre, (ys.map (fun z => lit ", " ++ z)).join, hpre, ?_, ?_⟩
    · intro c hc
      rw [List.mem_join] at hc
      obtain ⟨s, hs, hcs⟩ := hc
      rw [List.mem_map] at hs
      obtain ⟨y, hy, rfl⟩ := hs
      rcases List.mem_append.mp hcs with h | h
      · exact (by decide : ∀ c ∈ lit ", ", c ≠ '\n') c h
      · exact hys y hy c h
    · intro y hy
      obtain ⟨a, b, hab⟩ := mem_map_join_decomp (fun z => lit ", " ++ z) hy
      rw [hab]
      simp only [List.append_assoc]
      exact occurs_app_right a (occurs_app_right (lit ", ") (occurs_here y b))
  · intro comps n out ws ns hflag hb
    unfold buildRecursiveCte at hb
    have hbind : ∀ {α β : Type} (a : α) (f : α → Except Str β),
        (Except.ok a >>= f) = f a := fun a f => rfl
    have herr : ∀ {α β : Type} (e : Str) (f : α → Except Str β),
        ((Except.error e : Except Str α) >>= f) = Except.error e :=
      fun e f => rfl
    cases hht : headToken comps.from_clause with
    | error e =>
      rw [hht, herr] at hb
      exact absurd hb (by simp)
    | ok tn =>
      rw [hht, hbind] at hb
      cases hta : comps.table_alias with
      | some a =>
        simp only [hta, hbind, hflag, if_true, pure, Except.pure,
          Except.ok.injEq, Prod.mk.injEq] at hb
        obtain ⟨hout, hws, hns⟩ := hb
        constructor
        · rw [← hws]
          simp
        · rw [← hns]
          simp
      | none =>
        cases hga : generateAlias tn with
        | error e =>
          simp only [hta, hga, herr] at hb
          exact absurd hb (by simp)
        | ok a =>
          simp only [hta, hga, hbind, hflag, if_true, pure, Except.pure,
            Except.ok.injEq, Prod.mk.injEq] at hb
          obtain ⟨hout, hws, hns⟩ := hb
          constructor
          · rw [← hws]
            simp
          · rw [← hns]
            simp

theorem C10_isleaf_comment_only_witness :
    colStep (lit "e") (cteNameOf 1)
      ([lit "emp_id"], [lit "e.emp_id"], [lit "emp_id"])
      (lit "CONNECT_BY_ISLEAF AS leaf")
      = ([lit "emp_id"], [lit "e.emp_id"],
         [lit "emp_id",
          lit "-- CONNECT_BY_ISLEAF needs manual implementation AS leaf"]) := by
  have h := (C10_isleaf_comment_only (lit "CONNECT_BY_ISLEAF AS leaf")
    (lit "CONNECT_BY_ISLEAF AS leaf") (by decide) (by decide) (by decide)
    (by decide) (by decide) (by decide) (by decide)).1
    (lit "e") (cteNameOf 1) ([lit "emp_id"], [lit "e.emp_id"], [lit "emp_id"])
  exact h.trans (by decide)

set_option maxRecDepth 400000 in
/-- Counterexample to C6 as stated: a successful sequence-generator
conversion emits no `WITH RECURSIVE` block at all. -/
theorem C6_counterexample :
    (convert0 (lit "SELECT LEVEL FROM DUAL CONNECT BY LEVEL <= 5")).success
      = true ∧
    occurs (lit "WITH RECURSIVE")
      (convert0 (lit "SELECT LEVEL FROM DUAL CONNECT BY LEVEL <= 5")).converted_sql
      = false := by
  constructor
  · rfl
  · rfl

theorem isPrefOf_exists : ∀ {p s : Str}, isPrefOf p s = true → ∃ v, s = p ++ v := by
  intro p
  induction p with
  | nil =>
    intro s h
    exact ⟨s, rfl⟩
  | cons c p' ih =>
    intro s h
    cases s with
    | nil => exact absurd h (by simp [isPrefOf])
    | cons d s' =>
      rw [show isPrefOf (c :: p') (d :: s') = ((c == d) && isPrefOf p' s') from rfl,
        Bool.and_eq_true] at h
      obtain ⟨v, hv⟩ := ih h.2
      refine ⟨v, ?_⟩
      rw [hv, beq_iff_eq.mp h.1]
      rfl

theorem occurs_exists {p : Str} : ∀ {s : Str}, occurs p s = true →
    ∃ u v, s = u ++ (p ++ v) := by
  intro s
  induction s with
  | nil =>
    intro h
    have hp : p = [] := by
      cases p with
      | nil => rfl
      | cons c t => exact absurd h (by simp [occurs, List.isEmpty])
    exact ⟨[], [], by rw [hp]; rfl⟩
  | cons c t ih =>
    intro h
    rw [show occurs p (c :: t) = (isPrefOf p (c :: t) || occurs p t) from rfl,
      Bool.or_eq_true] at h
    rcases h with h | h
    · obtain ⟨v, hv⟩ := isPrefOf_exists h
      exact ⟨[], v, by rw [← hv]; rfl⟩
    · obtain ⟨u, v, huv⟩ := ih h
      exact ⟨c :: u, v, by rw [huv]; rfl⟩

theorem isPrefOf_append_cases : ∀ (a : Str) {P b : Str},
    isPrefOf P (a ++ b) = true →
    isPrefOf P a = true ∨ ∃ b0, P = a ++ b0 ∧ b0 ≠ [] ∧ isPrefOf b0 b = true := by
  intro a
  induction a with
  | nil =>
    intro P b h
    cases hP : P with
    | nil => exact Or.inl rfl
    | cons c P' =>
      right
      refine ⟨c :: P', (List.nil_append _).symm, by simp, ?_⟩
      rw [← hP]
      simpa using h
  | cons x a' ih =>
    intro P b h
    cases P with
    | nil => exact Or.inl rfl
    | cons c P' =>
      rw [show isPrefOf (c :: P') ((x :: a') ++ b)
          = ((c == x) && isPrefOf P' (a' ++ b)) from rfl,
        Bool.and_eq_true] at h
      obtain ⟨h1, h2⟩ := h
      rcases ih h2 with h3 | ⟨b0, hb1, hb2, hb3⟩
      · left
        show ((c == x) && isPrefOf P' a') = true
        rw [h1, h3]
        rfl
      · right
        refine ⟨b0, ?_, hb2, hb3⟩
        rw [hb1, beq_iff_eq.mp h1]
        rfl

theorem occurs_append_cases (P : Str) : ∀ (a b : Str),
    occurs P (a ++ b) = true →
    occurs P a = true ∨ occurs P b = true ∨
      ∃ a0 p1 p2, a = a0 ++ p1 ∧ P = p1 ++ p2 ∧ p1 ≠ [] ∧ p2 ≠ [] ∧
        isPrefOf p2 b = true := by
  intro a
  induction a with
  | nil =>
    intro b h
    exact Or.inr (Or.inl (by simpa using h))
  | cons x a' ih =>
    intro b h
    rw [show occurs P ((x :: a') ++ b)
        = (isPrefOf P ((x :: a') ++ b) || occurs P (a' ++ b)) from rfl,
      Bool.or_eq_true] at h
    rcases h with h | h
    · rcases isPrefOf_append_cases (x :: a') h with h1 | ⟨b0, hb1, hb2, hb3⟩
      · left
        show (isPrefOf P (x :: a') || occurs P a') = true
        rw [h1]
        rfl
      · right; right
        exact ⟨[], x :: a', b0, by simp, hb1, by simp, hb2, hb3⟩
    · rcases ih b h with h1 | h1 | ⟨a0, p1, p2, ha, hP, hp1, hp2, hpf⟩
      · exact Or.inl (occurs_cons_of_tail h1)
      · exact Or.inr (Or.inl h1)
      · right; right
        exact ⟨x :: a0, p1, p2, by rw [ha]; rfl, hP, hp1, hp2, hpf⟩

/-- Master append step for the pattern `WITH RECURSIVE`: no occurrence in
either part and no boundary-crossing occurrence means none in the
concatenation. -/
theorem occursWR_app {x rest : Str}
    (hx : occurs (lit "WITH RECURSIVE") x = false)
    (hrest : occurs (lit "WITH RECURSIVE") rest = false)
    (hcross : ∀ k, 0 < k → k < 14 → k ≤ x.length →
      ¬(x.drop (x.length - k) = (lit "WITH RECURSIVE").take k ∧
        isPrefOf ((lit "WITH RECURSIVE").drop k) rest = true)) :
    occurs (lit "WITH RECURSIVE") (x ++ rest) = false := by
  cases ho : occurs (lit "WITH RECURSIVE") (x ++ rest)
  · rfl
  · exfalso
    rcases occurs_append_cases _ x rest ho with h | h | ⟨a0, p1, p2, ha, hP, hp1, hp2, hpf⟩
    · rw [h] at hx
      exact absurd hx (by simp)
    · rw [h] at hrest
      exact absurd hrest (by simp)
    · have hlen : p1.length + p2.length = 14 := by
        have hl := congrArg List.length hP
        simp only [List.length_append] at hl
        rw [show (lit "WITH RECURSIVE").length = 14 from by decide] at hl
        omega
      have hk1 : 0 < p1.length := by
        cases p1 with
        | nil => exact absurd rfl hp1
        | cons _ _ => simp
      have hk2 : p1.length < 14 := by
        cases p2 with
        | nil => exact absurd rfl hp2
        | cons _ _ => simp at hlen; omega
      have hkx : p1.length ≤ x.length := by
        rw [ha]
        simp
      refine hcross p1.length hk1 hk2 hkx ⟨?_, ?_⟩
      · rw [ha]
        have hd : (a0 ++ p1).length - p1.length = a0.length := by simp
        rw [hd, List.drop_left, hP, List.take_left]
      · rw [hP, List.drop_left]
        exact hpf

theorem occursWR_app_noW {x rest : Str}
    (hxW : ∀ c ∈ x, c ≠ 'W')
    (hrest : occurs (lit "WITH RECURSIVE") rest = false) :
    occurs (lit "WITH RECURSIVE") (x ++ rest) = false := by
  have hx : occurs (lit "WITH RECURSIVE") x = false := by
    cases hox : occurs (lit "WITH RECURSIVE") x
    · rfl
    · exfalso
      obtain ⟨u, v, huv⟩ := occurs_exists hox
      have hmem : 'W' ∈ x := by
        rw [huv]
        exact List.mem_append_right _ (List.mem_append_left _ (by decide))
      exact absurd rfl (hxW 'W' hmem)
  apply occursWR_app hx hrest
  rintro k h0 h14 hkx ⟨hdrop, _⟩
  have hWmem : 'W' ∈ (lit "WITH RECURSIVE").take k := by
    interval_cases k <;> decide
  rw [← hdrop] at hWmem
  exact absurd rfl (hxW 'W' (List.mem_of_mem_drop hWmem))

theorem not_isPrefOf_nl {p2 t : Str} (hp : p2 ≠ [])
    (hmem : ∀ c ∈ p2, c ≠ '\n') :
    isPrefOf p2 ('\n' :: t) = false := by
  cases p2 with
  | nil => exact absurd rfl hp
  | cons c p' =>
    show ((c == '\n') && isPrefOf p' t) = false
    have hcb : (c == '\n') = false := by
      cases hb : c == '\n'
      · rfl
      · exact absurd (beq_iff_eq.mp hb) (hmem c (by simp))
    rw [hcb]
    rfl

theorem occursWR_frag_nl {x t : Str}
    (hx : occurs (lit "WITH RECURSIVE") x = false)
    (ht : occurs (lit "WITH RECURSIVE") ('\n' :: t) = false) :
    occurs (lit "WITH RECURSIVE") (x ++ '\n' :: t) = false := by
  apply occursWR_app hx ht
  rintro k h0 h14 hkx ⟨_, hpf⟩
  have hne : (lit "WITH RECURSIVE").drop k ≠ [] := by
    intro hcon
    have hl := congrArg List.length hcon
    simp only [List.length_drop, List.length_nil] at hl
    rw [show (lit "WITH RECURSIVE").length = 14 from by decide] at hl
    omega
  have hmem : ∀ c ∈ (lit "WITH RECURSIVE").drop k, c ≠ '\n' := fun c hc =>
    (by decide : ∀ c ∈ lit "WITH RECURSIVE", c ≠ '\n') c (List.mem_of_mem_drop hc)
  rw [not_isPrefOf_nl hne hmem] at hpf
  exact absurd hpf (by simp)

theorem occursWR_frag_sp {x t : Str} {c2 : Char} (hc2 : c2 ≠ 'R')
    (hx : occurs (lit "WITH RECURSIVE") x = false)
    (ht : occurs (lit "WITH RECURSIVE") (' ' :: c2 :: t) = false) :
    occurs (lit "WITH RECURSIVE") (x ++ ' ' :: c2 :: t) = false := by
  apply occursWR_app hx ht
  rintro k h0 h14 hkx ⟨_, hpf⟩
  cases hp2 : (lit "WITH RECURSIVE").drop k with
  | nil =>
    have hl := congrArg List.length hp2
    simp only [List.length_drop, List.length_nil] at hl
    rw [show (lit "WITH RECURSIVE").length = 14 from by decide] at hl
    omega
  | cons c p2' =>
    rw [hp2] at hpf
    rw [show isPrefOf (c :: p2') (' ' :: c2 :: t)
        = ((c == ' ') && isPrefOf p2' (c2 :: t)) from rfl,
      Bool.and_eq_true] at hpf
    have hcsp : c = ' ' := beq_iff_eq.mp hpf.1
    have hk4 : k = 4 := by
      have hhead : ((lit "WITH RECURSIVE").drop k).head? = some ' ' := by
        rw [hp2, hcsp]
        rfl
      exact (by decide : ∀ k, k < 14 →
        ((lit "WITH RECURSIVE").drop k).head? = some ' ' → k = 4) k h14 hhead
    rw [hk4] at hp2
    rw [show (lit "WITH RECURSIVE").drop 4 = ' ' :: lit "RECURSIVE" from rfl] at hp2
    have hp2e : p2' = lit "RECURSIVE" := by
      injection hp2 with hh1 hh2
      exact hh2.symm
    have h2 := hpf.2
    rw [hp2e, show isPrefOf (lit "RECURSIVE") (c2 :: t)
        = (('R' == c2) && isPrefOf (lit "ECURSIVE") t) from rfl,
      Bool.and_eq_true] at h2
    exact absurd (beq_iff_eq.mp h2.1).symm hc2

theorem occursWR_app_concrete (x : Str) {rest : Str}
    (hx : occurs (lit "WITH RECURSIVE") x = false)
    (hnc : ∀ k, k < 14 → 0 < k → k ≤ x.length →
      x.drop (x.length - k) ≠ (lit "WITH RECURSIVE").take k)
    (hrest : occurs (lit "WITH RECURSIVE") rest = false) :
    occurs (lit "WITH RECURSIVE") (x ++ rest) = false := by
  apply occursWR_app hx hrest
  rintro k h0 h14 hkx ⟨hdrop, _⟩
  exact hnc k h14 h0 hkx hdrop

/-- Combining two suffix parts that are empty or newline-headed. -/
theorem occursWR_nlopt_app {a b : Str}
    (ha : occurs (lit "WITH RECURSIVE") a = false)
    (hah : a = [] ∨ ∃ t, a = '\n' :: t)
    (hb : occurs (lit "WITH RECURSIVE") b = false)
    (hbh : b = [] ∨ ∃ t, b = '\n' :: t) :
    occurs (lit "WITH RECURSIVE") (a ++ b) = false ∧
      (a ++ b = [] ∨ ∃ t, a ++ b = '\n' :: t) := by
  rcases hah with rfl | ⟨ta, rfl⟩
  · exact ⟨by simpa using hb, by simpa using hbh⟩
  · constructor
    · rcases hbh with rfl | ⟨tb, rfl⟩
      · simpa using ha
      · have := occursWR_frag_nl (x := '\n' :: ta) ha hb
        simpa using this
    · right
      exact ⟨ta ++ b, rfl⟩

theorem natToStrAux_digits : ∀ (f n : Nat), ∀ c ∈ natToStrAux f n, isDig c = true := by
  intro f
  induction f with
  | zero =>
    intro n c hc
    simp [natToStrAux] at hc
  | succ f ih =>
    intro n c hc
    rw [show natToStrAux (f + 1) n
        = (if n < 10 then [digitChar n]
           else natToStrAux f (n / 10) ++ [digitChar (n % 10)]) from rfl] at hc
    by_cases hn : n < 10
    · rw [if_pos hn] at hc
      simp only [List.mem_singleton] at hc
      subst hc
      interval_cases n <;> decide
    · rw [if_neg hn] at hc
      rcases List.mem_append.mp hc with h | h
      · exact ih _ c h
      · simp only [List.mem_singleton] at h
        subst h
        have h10 : n % 10 < 10 := Nat.mod_lt _ (by omega)
        set m := n % 10 with hm
        interval_cases m <;> decide

theorem natToStr_ne_nil (n : Nat) : natToStr n ≠ [] := by
  unfold natToStr
  rw [show natToStrAux (n + 1) n
      = (if n < 10 then [digitChar n]
         else natToStrAux n (n / 10) ++ [digitChar (n % 10)]) from rfl]
  by_cases hn : n < 10
  · rw [if_pos hn]
    simp
  · rw [if_neg hn]
    simp

theorem pyIsDigit_natToStr (n : Nat) : pyIsDigit (natToStr n) = true := by
  unfold pyIsDigit
  rw [Bool.and_eq_true]
  constructor
  · cases hc : natToStr n with
    | nil => exact absurd hc (natToStr_ne_nil n)
    | cons a b => rfl
  · rw [List.all_eq_true]
    intro c hc
    exact natToStrAux_digits _ _ c hc

theorem cteNameOf_noW (n : Nat) : ∀ c ∈ cteNameOf n, c ≠ 'W' := by
  intro c hc
  rcases List.mem_append.mp hc with h | h
  · exact (by decide : ∀ c ∈ lit "hierarchy_cte_", c ≠ 'W') c h
  · intro hEq
    have hd := natToStrAux_digits _ _ c h
    rw [hEq] at hd
    exact absurd hd (by decide)



/-- The tail (after the leading `W`) of the assembled CTE template
contains no occurrence of `WITH RECURSIVE`, provided the interpolated
fragments contain none. -/
theorem wr_tail_clean
    (cn c1 tn ta aw c21 jc c22 send : Str)
    (hcn : ∀ c ∈ cn, c ≠ 'W')
    (hc1 : occurs (lit "WITH RECURSIVE") c1 = false)
    (htn : occurs (lit "WITH RECURSIVE") tn = false)
    (hta : occurs (lit "WITH RECURSIVE") ta = false)
    (haw : occurs (lit "WITH RECURSIVE") aw = false)
    (hc21 : occurs (lit "WITH RECURSIVE") c21 = false)
    (hjc : occurs (lit "WITH RECURSIVE") jc = false)
    (hc22 : occurs (lit "WITH RECURSIVE") c22 = false)
    (hsend : occurs (lit "WITH RECURSIVE") send = false)
    (hsendh : send = [] ∨ ∃ t, send = '\n' :: t) :
    occurs (lit "WITH RECURSIVE")
      (lit "ITH RECURSIVE " ++ (cn ++ (lit " AS (\n    -- Anchor member: root nodes (START WITH condition)\n    SELECT " ++ (c1 ++ (lit "\n    FROM " ++ (tn ++ (lit " AS " ++ (ta ++ (lit "\n    WHERE " ++ (aw ++ (lit "\n    \n    UNION ALL\n    \n    -- Recursive member: child nodes (CONNECT BY condition)\n    SELECT " ++ (c21 ++ (lit "\n    FROM " ++ (tn ++ (lit " AS " ++ (ta ++ (lit "\n    INNER JOIN " ++ (cn ++ (lit " ON " ++ (jc ++ (lit "\n)\nSELECT " ++ (c22 ++ (lit "\nFROM " ++ (cn ++ (send))))))))))))))))))))))))) = false := by
  have hs1 : occurs (lit "WITH RECURSIVE")
      (cn ++ (send)) = false :=
    occursWR_app_noW hcn hsend
  have hs2 : occurs (lit "WITH RECURSIVE")
      (lit "\nFROM " ++ (cn ++ (send))) = false :=
    occursWR_app_noW (by decide) hs1
  have hs3 : occurs (lit "WITH RECURSIVE")
      (c22 ++ (lit "\nFROM " ++ (cn ++ (send)))) = false :=
    occursWR_frag_nl hc22 hs2
  have hs4 : occurs (lit "WITH RECURSIVE")
      (lit "\n)\nSELECT " ++ (c22 ++ (lit "\nFROM " ++ (cn ++ (send))))) = false :=
    occursWR_app_noW (by decide) hs3
  have hs5 : occurs (lit "WITH RECURSIVE")
      (jc ++ (lit "\n)\nSELECT " ++ (c22 ++ (lit "\nFROM " ++ (cn ++ (send)))))) = false :=
    occursWR_frag_nl hjc hs4
  have hs6 : occurs (lit "WITH RECURSIVE")
      (lit " ON " ++ (jc ++ (lit "\n)\nSELECT " ++ (c22 ++ (lit "\nFROM " ++ (cn ++ (send))))))) = false :=
    occursWR_app_noW (by decide) hs5
  have hs7 : occurs (lit "WITH RECURSIVE")
      (cn ++ (lit " ON " ++ (jc ++ (lit "\n)\nSELECT " ++ (c22 ++ (lit "\nFROM " ++ (cn ++ (send)))))))) = false :=
    occursWR_app_noW hcn hs6
  have hs8 : occurs (lit "WITH RECURSIVE")
      (lit "\n    INNER JOIN " ++ (cn ++ (lit " ON " ++ (jc ++ (lit "\n)\nSELECT " ++ (c22 ++ (lit "\nFROM " ++ (cn ++ (send))))))))) = false :=
    occursWR_app_noW (by decide) hs7
  have hs9 : occurs (lit "WITH RECURSIVE")
      (ta ++ (lit "\n    INNER JOIN " ++ (cn ++ (lit " ON " ++ (jc ++ (lit "\n)\nSELECT " ++ (c22 ++ (lit "\nFROM " ++ (cn ++ (send)))))))))) = false :=
    occursWR_frag_nl hta hs8
  have hs10 : occurs (lit "WITH RECURSIVE")
      (lit " AS " ++ (ta ++ (lit "\n    INNER JOIN " ++ (cn ++ (lit " ON " ++ (jc ++ (lit "\n)\nSELECT " ++ (c22 ++ (lit "\nFROM " ++ (cn ++ (send))))))))))) = false :=
    occursWR_app_noW (by decide) hs9
  have hs11 : occurs (lit "WITH RECURSIVE")
      (tn ++ (lit " AS " ++ (ta ++ (lit "\n    INNER JOIN " ++ (cn ++ (lit " ON " ++ (jc ++ (lit "\n)\nSELECT " ++ (c22 ++ (lit "\nFROM " ++ (cn ++ (send)))))))))))) = false :=
    occursWR_frag_sp (by decide) htn hs10
  have hs12 : occurs (lit "WITH RECURSIVE")
      (lit "\n    FROM " ++ (tn ++ (lit " AS " ++ (ta ++ (lit "\n    INNER JOIN " ++ (cn ++ (lit " ON " ++ (jc ++ (lit "\n)\nSELECT " ++ (c22 ++ (lit "\nFROM " ++ (cn ++ (send))))))))))))) = false :=
    occursWR_app_noW (by decide) hs11
  have hs13 : occurs (lit "WITH RECURSIVE")
      (c21 ++ (lit "\n    FROM " ++ (tn ++ (lit " AS " ++ (ta ++ (lit "\n    INNER JOIN " ++ (cn ++ (lit " ON " ++ (jc ++ (lit "\n)\nSELECT " ++ (c22 ++ (lit "\nFROM " ++ (cn ++ (send)))))))))))))) = false :=
    occursWR_frag_nl hc21 hs12
  have hs14 : occurs (lit "WITH RECURSIVE")
      (lit "\n    \n    UNION ALL\n    \n    -- Recursive member: child nodes (CONNECT BY condition)\n    SELECT " ++ (c21 ++ (lit "\n    FROM " ++ (tn ++ (lit " AS " ++ (ta ++ (lit "\n    INNER JOIN " ++ (cn ++ (lit " ON " ++ (jc ++ (lit "\n)\nSELECT " ++ (c22 ++ (lit "\nFROM " ++ (cn ++ (send))))))))))))))) = false :=
    occursWR_app_noW (by decide) hs13
  have hs15 : occurs (lit "WITH RECURSIVE")
      (aw ++ (lit "\n    \n    UNION ALL\n    \n    -- Recursive member: child nodes (CONNECT BY condition)\n    SELECT " ++ (c21 ++ (lit "\n    FROM " ++ (tn ++ (lit " AS " ++ (ta ++ (lit "\n    INNER JOIN " ++ (cn ++ (lit " ON " ++ (jc ++ (lit "\n)\nSELECT " ++ (c22 ++ (lit "\nFROM " ++ (cn ++ (send)))))))))))))))) = false :=
    occursWR_frag_nl haw hs14
  have hs16 : occurs (lit "WITH RECURSIVE")
      (lit "\n    WHERE " ++ (aw ++ (lit "\n    \n    UNION ALL\n    \n    -- Recursive member: child nodes (CONNECT BY condition)\n    SELECT " ++ (c21 ++ (lit "\n    FROM " ++ (tn ++ (lit " AS " ++ (ta ++ (lit "\n    INNER JOIN " ++ (cn ++ (lit " ON " ++ (jc ++ (lit "\n)\nSELECT " ++ (c22 ++ (lit "\nFROM " ++ (cn ++ (send))))))))))))))))) = false :=
    occursWR_app_concrete
      (lit "\n    WHERE ")
      (by decide) (by decide) hs15
  have hs17 : occurs (lit "WITH RECURSIVE")
      (ta ++ (lit "\n    WHERE " ++ (aw ++ (lit "\n    \n    UNION ALL\n    \n    -- Recursive member: child nodes (CONNECT BY condition)\n    SELECT " ++ (c21 ++ (lit "\n    FROM " ++ (tn ++ (lit " AS " ++ (ta ++ (lit "\n    INNER JOIN " ++ (cn ++ (lit " ON " ++ (jc ++ (lit "\n)\nSELECT " ++ (c22 ++ (lit "\nFROM " ++ (cn ++ (send)))))))))))))))))) = false :=
    occursWR_frag_nl hta hs16
  have hs18 : occurs (lit "WITH RECURSIVE")
      (lit " AS " ++ (ta ++ (lit "\n    WHERE " ++ (aw ++ (lit "\n    \n    UNION ALL\n    \n    -- Recursive member: child nodes (CONNECT BY condition)\n    SELECT " ++ (c21 ++ (lit "\n    FROM " ++ (tn ++ (lit " AS " ++ (ta ++ (lit "\n    INNER JOIN " ++ (cn ++ (lit " ON " ++ (jc ++ (lit "\n)\nSELECT " ++ (c22 ++ (lit "\nFROM " ++ (cn ++ (send))))))))))))))))))) = false :=
    occursWR_app_noW (by decide) hs17
  have hs19 : occurs (lit "WITH RECURSIVE")
      (tn ++ (lit " AS " ++ (ta ++ (lit "\n    WHERE " ++ (aw ++ (lit "\n    \n    UNION ALL\n    \n    -- Recursive member: child nodes (CONNECT BY condition)\n    SELECT " ++ (c21 ++ (lit "\n    FROM " ++ (tn ++ (lit " AS " ++ (ta ++ (lit "\n    INNER JOIN " ++ (cn ++ (lit " ON " ++ (jc ++ (lit "\n)\nSELECT " ++ (c22 ++ (lit "\nFROM " ++ (cn ++ (send)))))))))))))))))))) = false :=
    occursWR_frag_sp (by decide) htn hs18
  have hs20 : occurs (lit "WITH RECURSIVE")
      (lit "\n    FROM " ++ (tn ++ (lit " AS " ++ (ta ++ (lit "\n    WHERE " ++ (aw ++ (lit "\n    \n    UNION ALL\n    \n    -- Recursive member: child nodes (CONNECT BY condition)\n    SELECT " ++ (c21 ++ (lit "\n    FROM " ++ (tn ++ (lit " AS " ++ (ta ++ (lit "\n    INNER JOIN " ++ (cn ++ (lit " ON " ++ (jc ++ (lit "\n)\nSELECT " ++ (c22 ++ (lit "\nFROM " ++ (cn ++ (send))))))))))))))))))))) = false :=
    occursWR_app_noW (by decide) hs19
  have hs21 : occurs (lit "WITH RECURSIVE")
      (c1 ++ (lit "\n    FROM " ++ (tn ++ (lit " AS " ++ (ta ++ (lit "\n    WHERE " ++ (aw ++ (lit "\n    \n    UNION ALL\n    \n    -- Recursive member: child nodes (CONNECT BY condition)\n    SELECT " ++ (c21 ++ (lit "\n    FROM " ++ (tn ++ (lit " AS " ++ (ta ++ (lit "\n    INNER JOIN " ++ (cn ++ (lit " ON " ++ (jc ++ (lit "\n)\nSELECT " ++ (c22 ++ (lit "\nFROM " ++ (cn ++ (send)))))))))))))))))))))) = false :=
    occursWR_frag_nl hc1 hs20
  have hs22 : occurs (lit "WITH RECURSIVE")
      (lit " AS (\n    -- Anchor member: root nodes (START WITH condition)\n    SELECT " ++ (c1 ++ (lit "\n    FROM " ++ (tn ++ (lit " AS " ++ (ta ++ (lit "\n    WHERE " ++ (aw ++ (lit "\n    \n    UNION ALL\n    \n    -- Recursive member: child nodes (CONNECT BY condition)\n    SELECT " ++ (c21 ++ (lit "\n    FROM " ++ (tn ++ (lit " AS " ++ (ta ++ (lit "\n    INNER JOIN " ++ (cn ++ (lit " ON " ++ (jc ++ (lit "\n)\nSELECT " ++ (c22 ++ (lit "\nFROM " ++ (cn ++ (send))))))))))))))))))))))) = false :=
    occursWR_app_concrete
      (lit " AS (\n    -- Anchor member: root nodes (START WITH condition)\n    SELECT ")
      (by decide) (by decide) hs21
  have hs23 : occurs (lit "WITH RECURSIVE")
      (cn ++ (lit " AS (\n    -- Anchor member: root nodes (START WITH condition)\n    SELECT " ++ (c1 ++ (lit "\n    FROM " ++ (tn ++ (lit " AS " ++ (ta ++ (lit "\n    WHERE " ++ (aw ++ (lit "\n    \n    UNION ALL\n    \n    -- Recursive member: child nodes (CONNECT BY condition)\n    SELECT " ++ (c21 ++ (lit "\n    FROM " ++ (tn ++ (lit " AS " ++ (ta ++ (lit "\n    INNER JOIN " ++ (cn ++ (lit " ON " ++ (jc ++ (lit "\n)\nSELECT " ++ (c22 ++ (lit "\nFROM " ++ (cn ++ (send)))))))))))))))))))))))) = false :=
    occursWR_app_noW hcn hs22
  exact occursWR_app_noW (by decide) hs23


/-- Shape and uniqueness facts for the assembled template: it starts with
`WITH RECURSIVE hierarchy_cte_<n> AS (` and the text `WITH RECURSIVE`
does not occur past the first character. -/
theorem wr_out_clean (n : Nat) (c1 tn ta aw c21 jc c22 lp gp op : Str)
    (htn : occurs (lit "WITH RECURSIVE") tn = false)
    (hta : occurs (lit "WITH RECURSIVE") ta = false)
    (hc1 : occurs (lit "WITH RECURSIVE") c1 = false)
    (hc21 : occurs (lit "WITH RECURSIVE") c21 = false)
    (hc22 : occurs (lit "WITH RECURSIVE") c22 = false)
    (haw : occurs (lit "WITH RECURSIVE") aw = false)
    (hjc : occurs (lit "WITH RECURSIVE") jc = false)
    (hlp : occurs (lit "WITH RECURSIVE") lp = false ∧
      (lp = [] ∨ ∃ t, lp = '\n' :: t))
    (hgp : occurs (lit "WITH RECURSIVE") gp = false ∧
      (gp = [] ∨ ∃ t, gp = '\n' :: t))
    (hop : occurs (lit "WITH RECURSIVE") op = false ∧
      (op = [] ∨ ∃ t, op = '\n' :: t)) :
    (∃ rest,
      lit "WITH RECURSIVE " ++
        cteNameOf n ++
        lit " AS (\n    -- Anchor member: root nodes (START WITH condition)\n    SELECT " ++
        c1 ++
        lit "\n    FROM " ++
        tn ++
        lit " AS " ++
        ta ++
        lit "\n    WHERE " ++
        aw ++
        lit "\n    \n    UNION ALL\n    \n    -- Recursive member: child nodes (CONNECT BY condition)\n    SELECT " ++
        c21 ++
        lit "\n    FROM " ++
        tn ++
        lit " AS " ++
        ta ++
        lit "\n    INNER JOIN " ++
        cteNameOf n ++
        lit " ON " ++
        jc ++
        lit "\n)\nSELECT " ++
        c22 ++
        lit "\nFROM " ++
        cteNameOf n ++
        lp ++
        gp ++
        op
      = (lit "WITH RECURSIVE " ++ (lit "hierarchy_cte_" ++ natToStr n) ++
          lit " AS (") ++ rest) ∧
    occurs (lit "WITH RECURSIVE")
      ((lit "WITH RECURSIVE " ++
        cteNameOf n ++
        lit " AS (\n    -- Anchor member: root nodes (START WITH condition)\n    SELECT " ++
        c1 ++
        lit "\n    FROM " ++
        tn ++
        lit " AS " ++
        ta ++
        lit "\n    WHERE " ++
        aw ++
        lit "\n    \n    UNION ALL\n    \n    -- Recursive member: child nodes (CONNECT BY condition)\n    SELECT " ++
        c21 ++
        lit "\n    FROM " ++
        tn ++
        lit " AS " ++
        ta ++
        lit "\n    INNER JOIN " ++
        cteNameOf n ++
        lit " ON " ++
        jc ++
        lit "\n)\nSELECT " ++
        c22 ++
        lit "\nFROM " ++
        cteNameOf n ++
        lp ++
        gp ++
        op).drop 1)
      = false := by
  have hGO := occursWR_nlopt_app hgp.1 hgp.2 hop.1 hop.2
  have hS := occursWR_nlopt_app hlp.1 hlp.2 hGO.1 hGO.2
  constructor
  · refine ⟨lit "\n    -- Anchor member: root nodes (START WITH condition)\n    SELECT " ++ (c1 ++ (lit "\n    FROM " ++ (tn ++ (lit " AS " ++ (ta ++ (lit "\n    WHERE " ++ (aw ++ (lit "\n    \n    UNION ALL\n    \n    -- Recursive member: child nodes (CONNECT BY condition)\n    SELECT " ++ (c21 ++ (lit "\n    FROM " ++ (tn ++ (lit " AS " ++ (ta ++ (lit "\n    INNER JOIN " ++ (cteNameOf n ++ (lit " ON " ++ (jc ++ (lit "\n)\nSELECT " ++ (c22 ++ (lit "\nFROM " ++ (cteNameOf n ++ ((lp ++ (gp ++ op)))))))))))))))))))))))), ?_⟩
    rw [show lit " AS (\n    -- Anchor member: root nodes (START WITH condition)\n    SELECT "
        = lit " AS (" ++ lit "\n    -- Anchor member: root nodes (START WITH condition)\n    SELECT "
        from by decide]
    simp only [cteNameOf, List.append_assoc]
  · have hnorm : lit "WITH RECURSIVE " ++
        cteNameOf n ++
        lit " AS (\n    -- Anchor member: root nodes (START WITH condition)\n    SELECT " ++
        c1 ++
        lit "\n    FROM " ++
        tn ++
        lit " AS " ++
        ta ++
        lit "\n    WHERE " ++
        aw ++
        lit "\n    \n    UNION ALL\n    \n    -- Recursive member: child nodes (CONNECT BY condition)\n    SELECT " ++
        c21 ++
        lit "\n    FROM " ++
        tn ++
        lit " AS " ++
        ta ++
        lit "\n    INNER JOIN " ++
        cteNameOf n ++
        lit " ON " ++
        jc ++
        lit "\n)\nSELECT " ++
        c22 ++
        lit "\nFROM " ++
        cteNameOf n ++
        lp ++
        gp ++
        op
      = lit "WITH RECURSIVE " ++ (cteNameOf n ++ (lit " AS (\n    -- Anchor member: root nodes (START WITH condition)\n    SELECT " ++ (c1 ++ (lit "\n    FROM " ++ (tn ++ (lit " AS " ++ (ta ++ (lit "\n    WHERE " ++ (aw ++ (lit "\n    \n    UNION ALL\n    \n    -- Recursive member: child nodes (CONNECT BY condition)\n    SELECT " ++ (c21 ++ (lit "\n    FROM " ++ (tn ++ (lit " AS " ++ (ta ++ (lit "\n    INNER JOIN " ++ (cteNameOf n ++ (lit " ON " ++ (jc ++ (lit "\n)\nSELECT " ++ (c22 ++ (lit "\nFROM " ++ (cteNameOf n ++ ((lp ++ (gp ++ op)))))))))))))))))))))))))) := by
      simp only [List.append_assoc]
    rw [hnorm]
    exact wr_tail_clean (cteNameOf n) c1 tn ta aw c21 jc c22 (lp ++ (gp ++ op))
      (cteNameOf_noW n) hc1 htn hta haw hc21 hjc hc22 hS.1 hS.2

set_option maxHeartbeats 3000000 in
/-- Structure of the output of a successful `buildRecursiveCte` call. -/
theorem buildRecursiveCte_ok_shape
    (comps : ConnectByComponents) (n : Nat) (tn ta out : Str)
    (ws ns : List Str)
    (hht : headToken comps.from_clause = Except.ok tn)
    (hta : comps.table_alias = some ta ∨
      (comps.table_alias = none ∧ generateAlias tn = Except.ok ta))
    (hb : buildRecursiveCte comps n = Except.ok (out, ws, ns)) :
    ∃ jc lp gp op,
      out = lit "WITH RECURSIVE " ++
          cteNameOf n ++
          lit " AS (\n    -- Anchor member: root nodes (START WITH condition)\n    SELECT " ++
          (buildColumnLists comps ta (cteNameOf n)).1 ++
          lit "\n    FROM " ++
          tn ++
          lit " AS " ++
          ta ++
          lit "\n    WHERE " ++
          anchorWhere comps ++
          lit "\n    \n    UNION ALL\n    \n    -- Recursive member: child nodes (CONNECT BY condition)\n    SELECT " ++
          (buildColumnLists comps ta (cteNameOf n)).2.1 ++
          lit "\n    FROM " ++
          tn ++
          lit " AS " ++
          ta ++
          lit "\n    INNER JOIN " ++
          cteNameOf n ++
          lit " ON " ++
          jc ++
          lit "\n)\nSELECT " ++
          (buildColumnLists comps ta (cteNameOf n)).2.2 ++
          lit "\nFROM " ++
          cteNameOf n ++
          lp ++
          gp ++
          op ∧
      (jc = joinPlaceholder ∨
        ∃ j, joinCondOf comps ta (cteNameOf n) = some j ∧ j.isEmpty = false ∧
          jc = j) ∧
      (lp = [] ∨
        ∃ s, extractLevelFilter comps = some s ∧ s.isEmpty = false ∧
          lp = lit "\nWHERE " ++ s) ∧
      (gp = [] ∨
        ∃ g, comps.group_by_clause = some g ∧ g.isEmpty = false ∧
          gp = lit "\nGROUP BY " ++ convertPseudoColumns g (cteNameOf n)) ∧
      (op = [] ∨
        (∃ ob, comps.order_by_clause = some ob ∧ ob.isEmpty = false ∧
          op = lit "\nORDER BY " ++ convertPseudoColumns ob (cteNameOf n)) ∨
        (∃ os, comps.order_siblings_by = some os ∧ os.isEmpty = false ∧
          op = lit "\nORDER BY level, " ++ convertPseudoColumns os (cteNameOf n))) := by
  have hbind : ∀ {α β : Type} (a : α) (f : α → Except Str β),
      (Except.ok a >>= f) = f a := fun a f => rfl
  unfold buildRecursiveCte at hb
  rw [hht, hbind] at hb
  rcases hta with hta1 | ⟨hta1, hta2⟩ <;>
    [simp only [hta1, hbind] at hb;
     simp only [hta1, hta2, hbind] at hb]
  all_goals rcases hjo : joinCondOf comps ta (cteNameOf n) with _ | j
  all_goals try cases hje : j.isEmpty
  all_goals rcases hlfo : extractLevelFilter comps with _ | s
  all_goals try cases hse : s.isEmpty
  all_goals rcases hgo : comps.group_by_clause with _ | g
  all_goals try cases hge : g.isEmpty
  all_goals rcases hobo : comps.order_by_clause with _ | ob
  all_goals try cases hobe : ob.isEmpty
  all_goals rcases hoso : comps.order_siblings_by with _ | os
  all_goals try cases hose : os.isEmpty
  all_goals simp only [hjo, hlfo, hgo, hobo, hoso, pure, Except.pure] at hb
  all_goals try simp only [hje, if_true, Bool.false_eq_true, if_false] at hb
  all_goals try simp only [hse, if_true, Bool.false_eq_true, if_false] at hb
  all_goals try simp only [hge, if_true, Bool.false_eq_true, if_false] at hb
  all_goals try simp only [hobe, if_true, Bool.false_eq_true, if_false] at hb
  all_goals try simp only [hose, if_true, Bool.false_eq_true, if_false] at hb
  all_goals simp only [Except.ok.injEq, Prod.mk.injEq] at hb
  all_goals obtain ⟨hout, hws, hns⟩ := hb
  all_goals refine ⟨_, _, _, _, hout.symm, ?_, ?_, ?_, ?_⟩
  all_goals first
    | exact Or.inl rfl
    | exact Or.inr ⟨_, rfl, hje, rfl⟩
    | exact Or.inr ⟨_, rfl, hse, rfl⟩
    | exact Or.inr ⟨_, rfl, hge, rfl⟩
    | exact Or.inr (Or.inl ⟨_, rfl, hobe, rfl⟩)
    | exact Or.inr (Or.inr ⟨_, rfl, hose, rfl⟩)

/-- **C6 (amended).** Every successfully assembled recursive CTE (the
non-sequence-generator success path) starts with
`WITH RECURSIVE hierarchy_cte_<digits> AS (` and — provided none of the
query-derived fragments themselves contain the text `WITH RECURSIVE` —
that text occurs nowhere past the first character, so the block and its
name are unique in the emitted statement.  (Sequence-generator successes
emit no such block at all; see the counterexample.) -/
theorem C6_amended_unique_cte
    (comps : ConnectByComponents) (n : Nat) (tn ta out : Str)
    (ws ns : List Str)
    (hht : headToken comps.from_clause = Except.ok tn)
    (hta : comps.table_alias = some ta ∨
      (comps.table_alias = none ∧ generateAlias tn = Except.ok ta))
    (hb : buildRecursiveCte comps n = Except.ok (out, ws, ns))
    (htnc : occurs (lit "WITH RECURSIVE") tn = false)
    (htac : occurs (lit "WITH RECURSIVE") ta = false)
    (hc1c : occurs (lit "WITH RECURSIVE")
      (buildColumnLists comps ta (cteNameOf n)).1 = false)
    (hc21c : occurs (lit "WITH RECURSIVE")
      (buildColumnLists comps ta (cteNameOf n)).2.1 = false)
    (hc22c : occurs (lit "WITH RECURSIVE")
      (buildColumnLists comps ta (cteNameOf n)).2.2 = false)
    (hawc : occurs (lit "WITH RECURSIVE") (anchorWhere comps) = false)
    (hjcc : ∀ j, joinCondOf comps ta (cteNameOf n) = some j →
      occurs (lit "WITH RECURSIVE") j = false)
    (hlfc : ∀ s, extractLevelFilter comps = some s →
      occurs (lit "WITH RECURSIVE") s = false)
    (hgc : ∀ g, comps.group_by_clause = some g →
      occurs (lit "WITH RECURSIVE") (convertPseudoColumns g (cteNameOf n)) = false)
    (hobc : ∀ s, comps.order_by_clause = some s →
      occurs (lit "WITH RECURSIVE") (convertPseudoColumns s (cteNameOf n)) = false)
    (hosc : ∀ s, comps.order_siblings_by = some s →
      occurs (lit "WITH RECURSIVE") (convertPseudoColumns s (cteNameOf n)) = false) :
    pyIsDigit (natToStr n) = true ∧
    (∃ rest, out = (lit "WITH RECURSIVE " ++ (lit "hierarchy_cte_" ++ natToStr n) ++
      lit " AS (") ++ rest) ∧
    occurs (lit "WITH RECURSIVE") (out.drop 1) = false := by
  obtain ⟨jc, lp, gp, op, hout, hj2, hl2, hg2, ho2⟩ :=
    buildRecursiveCte_ok_shape comps n tn ta out ws ns hht hta hb
  have hjcF : occurs (lit "WITH RECURSIVE") jc = false := by
    rcases hj2 with rfl | ⟨j, hjo, hje, hjq⟩
    · decide
    · rw [hjq]
      exact hjcc j hjo
  have hlpF : occurs (lit "WITH RECURSIVE") lp = false ∧
      (lp = [] ∨ ∃ t, lp = '\n' :: t) := by
    rcases hl2 with rfl | ⟨s, hlfo, hse, rfl⟩
    · exact ⟨rfl, Or.inl rfl⟩
    · exact ⟨occursWR_app_concrete (lit "\nWHERE ") (by decide) (by decide)
        (hlfc s hlfo), Or.inr ⟨_, rfl⟩⟩
  have hgpF : occurs (lit "WITH RECURSIVE") gp = false ∧
      (gp = [] ∨ ∃ t, gp = '\n' :: t) := by
    rcases hg2 with rfl | ⟨g, hgo, hge, rfl⟩
    · exact ⟨rfl, Or.inl rfl⟩
    · exact ⟨occursWR_app_noW (by decide) (hgc g hgo), Or.inr ⟨_, rfl⟩⟩
  have hopF : occurs (lit "WITH RECURSIVE") op = false ∧
      (op = [] ∨ ∃ t, op = '\n' :: t) := by
    rcases ho2 with rfl | ⟨ob, hobo, hobe, rfl⟩ | ⟨os, hoso, hose, rfl⟩
    · exact ⟨rfl, Or.inl rfl⟩
    · exact ⟨occursWR_app_noW (by decide) (hobc ob hobo), Or.inr ⟨_, rfl⟩⟩
    · exact ⟨occursWR_app_noW (by decide) (hosc os hoso), Or.inr ⟨_, rfl⟩⟩
  have hmain := wr_out_clean n (buildColumnLists comps ta (cteNameOf n)).1 tn ta
    (anchorWhere comps) (buildColumnLists comps ta (cteNameOf n)).2.1 jc
    (buildColumnLists comps ta (cteNameOf n)).2.2 lp gp op
    htnc htac hc1c hc21c hc22c hawc hjcF hlpF hgpF hopF
  refine ⟨pyIsDigit_natToStr n, ?_, ?_⟩
  · rw [hout]
    exact hmain.1
  · rw [hout]
    exact hmain.2

set_option maxRecDepth 400000 in
theorem C6_amended_unique_cte_witness :
    pyIsDigit (natToStr 1) = true ∧
    (∃ rest, lit "WITH RECURSIVE hierarchy_cte_1 AS (\n    -- Anchor member: root nodes (START WITH condition)\n    SELECT a\n    FROM t AS t\n    WHERE 1=1\n    \n    UNION ALL\n    \n    -- Recursive member: child nodes (CONNECT BY condition)\n    SELECT t.a\n    FROM t AS t\n    INNER JOIN hierarchy_cte_1 ON 1=0  -- TODO: Fix join condition\n)\nSELECT a\nFROM hierarchy_cte_1"
      = (lit "WITH RECURSIVE " ++ (lit "hierarchy_cte_" ++ natToStr 1) ++
          lit " AS (") ++ rest) ∧
    occurs (lit "WITH RECURSIVE")
      ((lit "WITH RECURSIVE hierarchy_cte_1 AS (\n    -- Anchor member: root nodes (START WITH condition)\n    SELECT a\n    FROM t AS t\n    WHERE 1=1\n    \n    UNION ALL\n    \n    -- Recursive member: child nodes (CONNECT BY condition)\n    SELECT t.a\n    FROM t AS t\n    INNER JOIN hierarchy_cte_1 ON 1=0  -- TODO: Fix join condition\n)\nSELECT a\nFROM hierarchy_cte_1").drop 1) = false := by
  refine C6_amended_unique_cte
      { select_clause := lit "a", from_clause := lit "t",
        connect_by_clause := some (lit "x > 5") }
      1 (lit "t") (lit "t")
      (lit "WITH RECURSIVE hierarchy_cte_1 AS (\n    -- Anchor member: root nodes (START WITH condition)\n    SELECT a\n    FROM t AS t\n    WHERE 1=1\n    \n    UNION ALL\n    \n    -- Recursive member: child nodes (CONNECT BY condition)\n    SELECT t.a\n    FROM t AS t\n    INNER JOIN hierarchy_cte_1 ON 1=0  -- TODO: Fix join condition\n)\nSELECT a\nFROM hierarchy_cte_1")
      [joinWarning] []
      (by rfl) (Or.inr ⟨rfl, by rfl⟩) (by rfl)
      (by decide) (by decide) (by decide) (by decide) (by decide) (by decide)
      ?_ ?_ ?_ ?_ ?_
  · intro j h
    have hjnone : joinCondOf { select_clause := lit "a", from_clause := lit "t", connect_by_clause := some (lit "x > 5") } (lit "t") (cteNameOf 1) = none := by rfl
    rw [hjnone] at h
    exact absurd h (by simp)
  · intro s h
    exact Option.noConfusion h
  · intro g h
    exact Option.noConfusion h
  · intro s h
    exact Option.noConfusion h
  · intro s h
    exact Option.noConfusion h


/-!
## C7: anchor WHERE and outer level filter — scanner lemmas
-/

theorem subLevelCmpF_step (f : Nat) (prev : Option Char) (c : Char) (t : Str) :
    subLevelCmpF (f + 1) prev (c :: t) =
      match (if noWrdBefore prev then levelCmpLenAt (c :: t) else none) with
      | some L => subLevelCmpF f (((c :: t).take L).getLast?) ((c :: t).drop L)
      | none => c :: subLevelCmpF f (some c) t := rfl

theorem subLevelCmp_copy :
    ∀ (t rest : Str) (f : Nat) (prev : Option Char),
      (t ++ rest).length ≤ f →
      occurs (lit "LEVEL") (toUp t) = false →
      (rest = [] ∨ endsNonWrdB t = true) →
      subLevelCmpF f prev (t ++ rest)
        = t ++ subLevelCmpF (f - t.length) (t.getLast?.elim prev some) rest := by
  intro t
  induction t with
  | nil =>
    intro rest f prev hf htxt hend
    simp [Option.elim]
  | cons c t' ih =>
    intro rest f prev hf htxt hend
    simp only [List.cons_append, List.length_cons, List.length_append] at hf ⊢
    cases f with
    | zero => omega
    | succ f =>
      rw [subLevelCmpF_step]
      have hci : ciEq ((c :: (t' ++ rest)).take 5) (lit "LEVEL") = false := by
        have hlc := levelCond_false (t := c :: t') (by simp) htxt hend
        simpa using hlc
      have hnone : (if noWrdBefore prev then levelCmpLenAt (c :: (t' ++ rest))
          else none) = none := by
        cases hnw : noWrdBefore prev
        · rfl
        · rw [if_pos rfl]
          unfold levelCmpLenAt
          simp only [hci, Bool.false_eq_true, if_false]
      rw [hnone]
      have htxt' : occurs (lit "LEVEL") (toUp t') = false := by
        have hmc : toUp (c :: t') = up c :: toUp t' := by simp [toUp]
        rw [hmc] at htxt
        exact not_occurs_tail htxt
      cases ht' : t' with
      | nil =>
        subst ht'
        rfl
      | cons d t'' =>
        rw [← ht']
        have hend' : rest = [] ∨ endsNonWrdB t' = true := by
          cases hend with
          | inl h => exact Or.inl h
          | inr h =>
            right
            rw [endsNonWrdB_cons (by rw [ht']; simp)] at h
            exact h
        have hgl : ((c :: t').getLast?.elim prev some)
            = (t'.getLast?.elim (some c) some) := by
          rw [ht', List.getLast?_cons_cons]
          cases hg : (d :: t'').getLast? with
          | none => exact absurd hg (by simp)
          | some e => rfl
        rw [hgl]
        have hihl := ih rest f (some c)
          (by simp only [List.length_append]; omega) htxt' hend'
        rw [hihl]
        have hfe : f + 1 - (t'.length + 1) = f - t'.length := by omega
        rw [hfe]

theorem not_isPrefOf_wrd {p2 : Str} {c : Char} {t : Str} (hp : p2 ≠ [])
    (hall : ∀ x ∈ p2, isWrd x = true) (hc : isWrd c = false) :
    isPrefOf p2 (c :: t) = false := by
  cases p2 with
  | nil => exact absurd rfl hp
  | cons d p' =>
    show ((d == c) && isPrefOf p' t) = false
    have hdb : (d == c) = false := by
      cases hb : d == c
      · rfl
      · rw [← beq_iff_eq.mp hb] at hc
        rw [hall d (by simp)] at hc
        exact absurd hc (by simp)
    rw [hdb]
    rfl

/-- Appending the conjunct separator cannot create a `LEVEL` occurrence. -/
theorem occurs_LEVEL_append_sep {t : Str}
    (h : occurs (lit "LEVEL") (toUp t) = false) :
    occurs (lit "LEVEL") (toUp (t ++ lit " AND ")) = false := by
  cases ho : occurs (lit "LEVEL") (toUp (t ++ lit " AND "))
  · rfl
  · exfalso
    rw [show toUp (t ++ lit " AND ") = toUp t ++ lit " AND " from by
      simp [toUp]; decide] at ho
    rcases occurs_append_cases _ _ _ ho with h1 | h1 | ⟨a0, p1, p2, ha, hP, hp1, hp2, hpf⟩
    · rw [h1] at h
      exact absurd h (by simp)
    · exact absurd h1 (by decide)
    · have hmem : ∀ x ∈ p2, isWrd x = true := by
        intro x hx
        have : x ∈ lit "LEVEL" := by
          rw [hP]
          exact List.mem_append_right _ hx
        exact (by decide : ∀ x ∈ lit "LEVEL", isWrd x = true) x this
      rw [show (lit " AND ") = ' ' :: lit "AND " from rfl] at hpf
      rw [not_isPrefOf_wrd hp2 hmem (by decide)] at hpf
      exact absurd hpf (by simp)

theorem isOpChar_not_spc {c : Char} (h : isOpChar c = true) : isSpc c = false := by
  unfold isOpChar at h
  rcases Bool.or_eq_true _ _ |>.mp h with h1 | h1
  · rcases Bool.or_eq_true _ _ |>.mp h1 with h2 | h2
    · rcases Bool.or_eq_true _ _ |>.mp h2 with h3 | h3
      · rw [show c = '<' from by simpa using h3]; decide
      · rw [show c = '>' from by simpa using h3]; decide
    · rw [show c = '=' from by simpa using h2]; decide
  · rw [show c = '!' from by simpa using h1]; decide

theorem isDig_not_spc {c : Char} (h : isDig c = true) : isSpc c = false := by
  cases hs : isSpc c
  · rfl
  · exfalso
    unfold isSpc at hs
    rcases Bool.or_eq_true _ _ |>.mp hs with h1 | h1
    case inr => rw [show c = '\r' from by simpa using h1] at h; exact absurd h (by decide)
    rcases Bool.or_eq_true _ _ |>.mp h1 with h2 | h2
    case inr => rw [show c = '\x0c' from by simpa using h2] at h; exact absurd h (by decide)
    rcases Bool.or_eq_true _ _ |>.mp h2 with h3 | h3
    case inr => rw [show c = '\x0b' from by simpa using h3] at h; exact absurd h (by decide)
    rcases Bool.or_eq_true _ _ |>.mp h3 with h4 | h4
    case inr => rw [show c = '\n' from by simpa using h4] at h; exact absurd h (by decide)
    rcases Bool.or_eq_true _ _ |>.mp h4 with h5 | h5
    case inr => rw [show c = '\t' from by simpa using h5] at h; exact absurd h (by decide)
    rw [show c = ' ' from by simpa using h5] at h
    exact absurd h (by decide)

theorem isDig_not_op {c : Char} (h : isDig c = true) : isOpChar c = false := by
  cases ho : isOpChar c
  · rfl
  · exfalso
    unfold isOpChar at ho
    rcases Bool.or_eq_true _ _ |>.mp ho with h1 | h1
    · rcases Bool.or_eq_true _ _ |>.mp h1 with h2 | h2
      · rcases Bool.or_eq_true _ _ |>.mp h2 with h3 | h3
        · rw [show c = '<' from by simpa using h3] at h; exact absurd h (by decide)
        · rw [show c = '>' from by simpa using h3] at h; exact absurd h (by decide)
      · rw [show c = '=' from by simpa using h2] at h; exact absurd h (by decide)
    · rw [show c = '!' from by simpa using h1] at h; exact absurd h (by decide)

theorem isSpc_not_op {c : Char} (h : isSpc c = true) : isOpChar c = false := by
  cases ho : isOpChar c
  · rfl
  · rw [isOpChar_not_spc ho] at h
    exact absurd h (by simp)

theorem isSpc_not_dig {c : Char} (h : isSpc c = true) : isDig c = false := by
  cases ho : isDig c
  · rfl
  · rw [isDig_not_spc ho] at h
    exact absurd h (by simp)

/-- Evaluation of `levelCmpLenAt` at a well-formed `LEVEL` comparison. -/
theorem levelCmpLenAt_eval (w sp1 ops sp2 ds rest : Str)
    (hw : toUp w = lit "LEVEL")
    (hsp1 : ∀ c ∈ sp1, isSpc c = true)
    (hops : ops ≠ []) (hopsAll : ∀ c ∈ ops, isOpChar c = true)
    (hsp2 : ∀ c ∈ sp2, isSpc c = true)
    (hds : ds ≠ []) (hdsAll : ∀ c ∈ ds, isDig c = true)
    (hrest : rest = [] ∨
      (∃ r2, rest = lit " AND " ++ r2 ∧
        (r2.take 1).all (fun c => !isSpc c) = true)) :
    levelCmpLenAt (w ++ (sp1 ++ (ops ++ (sp2 ++ (ds ++ rest)))))
      = some ((w ++ (sp1 ++ (ops ++ (sp2 ++ (ds ++ rest))))).length - rest.length
          + (if rest = [] then 0 else 5)) := by
  have hwlen : w.length = 5 := by
    have hl := congrArg List.length hw
    simpa [toUp] using hl
  have htake5 : (w ++ (sp1 ++ (ops ++ (sp2 ++ (ds ++ rest))))).take 5 = w := by
    rw [List.take_append_eq_append_take, List.take_of_length_le (by omega), hwlen]
    simp
  have hdrop5 : (w ++ (sp1 ++ (ops ++ (sp2 ++ (ds ++ rest))))).drop 5
      = sp1 ++ (ops ++ (sp2 ++ (ds ++ rest))) := by
    rw [List.drop_append_eq_append_drop, List.drop_of_length_le (by omega), hwlen]
    simp
  have hci : ciEq ((w ++ (sp1 ++ (ops ++ (sp2 ++ (ds ++ rest))))).take 5)
      (lit "LEVEL") = true := by
    rw [htake5, ciEq_iff, hw]
    decide
  -- ops is nonempty: name its head
  obtain ⟨o, ops', hopsc⟩ : ∃ o ops', ops = o :: ops' := by
    cases ops with
    | nil => exact absurd rfl hops
    | cons o ops' => exact ⟨o, ops', rfl⟩
  obtain ⟨d0, ds', hdsc⟩ : ∃ d0 ds', ds = d0 :: ds' := by
    cases ds with
    | nil => exact absurd rfl hds
    | cons d0 ds' => exact ⟨d0, ds', rfl⟩
  have hu1 : (sp1 ++ (ops ++ (sp2 ++ (ds ++ rest)))).dropWhile isSpc
      = ops ++ (sp2 ++ (ds ++ rest)) := by
    rw [dropWhile_app_of_all _ hsp1]
    rw [hopsc]
    exact dropWhile_cons_neg _ (isOpChar_not_spc (hopsAll o (by rw [hopsc]; simp)))
  have hopsTake : (ops ++ (sp2 ++ (ds ++ rest))).takeWhile isOpChar = ops := by
    rw [takeWhile_app_of_all _ hopsAll]
    have hnil : (sp2 ++ (ds ++ rest)).takeWhile isOpChar = [] := by
      cases hsp2c : sp2 with
      | nil =>
        simp only [List.nil_append]
        rw [hdsc]
        exact takeWhile_cons_neg _ (isDig_not_op (hdsAll d0 (by rw [hdsc]; simp)))
      | cons s0 sp2' =>
        simp only [List.cons_append]
        exact takeWhile_cons_neg _ (isSpc_not_op (hsp2 s0 (by rw [hsp2c]; simp)))
    rw [hnil, List.append_nil]
  have hu2a : (ops ++ (sp2 ++ (ds ++ rest))).dropWhile isOpChar
      = sp2 ++ (ds ++ rest) := by
    rw [dropWhile_app_of_all _ hopsAll]
    cases hsp2c : sp2 with
    | nil =>
      simp only [List.nil_append]
      rw [hdsc]
      simp only [List.cons_append]
      exact dropWhile_cons_neg _ (isDig_not_op (hdsAll d0 (by rw [hdsc]; simp)))
    | cons s0 sp2m =>
      simp only [List.cons_append]
      exact dropWhile_cons_neg _ (isSpc_not_op (hsp2 s0 (by rw [hsp2c]; simp)))
  have hu2 : ((ops ++ (sp2 ++ (ds ++ rest))).dropWhile isOpChar).dropWhile isSpc
      = ds ++ rest := by
    rw [hu2a, dropWhile_app_of_all _ hsp2, hdsc]
    simp only [List.cons_append]
    exact dropWhile_cons_neg _ (isDig_not_spc (hdsAll d0 (by rw [hdsc]; simp)))
  have hdsTake : (ds ++ rest).takeWhile isDig = ds := by
    rw [takeWhile_app_of_all _ hdsAll]
    have hnil2 : rest.takeWhile isDig = [] := by
      rcases hrest with rfl | ⟨r2, rfl, hr2h⟩
      · rfl
      · rw [show lit " AND " ++ r2 = ' ' :: (lit "AND " ++ r2) from rfl]
        exact takeWhile_cons_neg _ (by decide)
    rw [hnil2, List.append_nil]
  have hu3a : (ds ++ rest).dropWhile isDig = rest := by
    rw [dropWhile_app_of_all _ hdsAll]
    rcases hrest with rfl | ⟨r2, rfl, hr2h⟩
    · rfl
    · rw [show lit " AND " ++ r2 = ' ' :: (lit "AND " ++ r2) from rfl]
      exact dropWhile_cons_neg _ (by decide)
  have hopsE : ops.isEmpty = false := by rw [hopsc]; rfl
  have hdsE : ds.isEmpty = false := by rw [hdsc]; rfl
  unfold levelCmpLenAt
  rw [if_pos hci]
  simp only [hdrop5, hu1, hopsTake, hopsE, Bool.false_eq_true, if_false,
    hu2, hdsTake, hdsE, hu3a]
  rcases hrest with rfl | ⟨r2, rfl, hr2h⟩
  · have he1 : (([] : Str).dropWhile isSpc) = [] := rfl
    rw [he1]
    have he2 : ciEq (([] : Str).take 3) (lit "AND") = false := by decide
    rw [he2]
    simp
  · have he1 : (lit " AND " ++ r2).dropWhile isSpc = lit "AND " ++ r2 := by
      rw [show lit " AND " ++ r2 = ' ' :: (lit "AND " ++ r2) from rfl,
        List.dropWhile_cons, if_pos (by decide)]
      rw [show lit "AND " ++ r2 = 'A' :: (lit "ND " ++ r2) from rfl]
      exact dropWhile_cons_neg _ (by decide)
    rw [he1]
    have he2 : ciEq ((lit "AND " ++ r2).take 3) (lit "AND") = true := by
      rw [show (lit "AND " ++ r2).take 3 = lit "AND" from rfl]
      decide
    rw [if_pos he2]
    have he3 : ((lit "AND " ++ r2).drop 3).takeWhile isSpc = [' '] := by
      rw [show (lit "AND " ++ r2).drop 3 = ' ' :: r2 from rfl,
        List.takeWhile_cons, if_pos (by decide)]
      have he4 : r2.takeWhile isSpc = [] := by
        cases hr2c : r2 with
        | nil => rfl
        | cons a r2m =>
          apply takeWhile_cons_neg
          have h5 := hr2h
          rw [hr2c] at h5
          simpa using h5
      rw [he4]
    rw [he3]
    rw [if_neg (show ¬(lit " AND " ++ r2 = []) from by
      rw [show lit " AND " ++ r2 = ' ' :: (lit "AND " ++ r2) from rfl]
      simp)]
    simp only [Option.some.injEq, List.length_append, List.length_cons,
      List.length_nil]
    have hsep : (lit " AND ").length = 5 := by decide
    have hand : (lit "AND ").length = 4 := by decide
    omega




theorem subLevelCmp_lvl_last (w sp1 ops sp2 ds : Str) (f : Nat) (prev : Option Char)
    (hw : toUp w = lit "LEVEL")
    (hsp1 : ∀ c ∈ sp1, isSpc c = true)
    (hops : ops ≠ []) (hopsAll : ∀ c ∈ ops, isOpChar c = true)
    (hsp2 : ∀ c ∈ sp2, isSpc c = true)
    (hds : ds ≠ []) (hdsAll : ∀ c ∈ ds, isDig c = true)
    (hp : noWrdBefore prev = true)
    (hf : (w ++ (sp1 ++ (ops ++ (sp2 ++ ds)))).length ≤ f) :
    subLevelCmpF f prev (w ++ (sp1 ++ (ops ++ (sp2 ++ ds)))) = [] := by
  have hwlen : w.length = 5 := by
    have hl := congrArg List.length hw
    simpa [toUp] using hl
  have hL := levelCmpLenAt_eval w sp1 ops sp2 ds [] hw hsp1 hops hopsAll hsp2
    hds hdsAll (Or.inl rfl)
  rw [show ds ++ ([] : Str) = ds from List.append_nil ds] at hL
  simp only [List.length_nil, Nat.sub_zero, eq_self_iff_true, if_true,
    Nat.add_zero] at hL
  cases f with
  | zero =>
    exfalso
    simp only [List.length_append] at hf
    omega
  | succ f =>
    cases w with
    | nil => simp at hwlen
    | cons c w' =>
      simp only [List.cons_append] at hL ⊢
      rw [subLevelCmpF_step]
      rw [if_pos hp, hL]
      show subLevelCmpF f
          (List.take (c :: (w' ++ (sp1 ++ (ops ++ (sp2 ++ ds))))).length
            (c :: (w' ++ (sp1 ++ (ops ++ (sp2 ++ ds)))))).getLast?
          (List.drop (c :: (w' ++ (sp1 ++ (ops ++ (sp2 ++ ds))))).length
            (c :: (w' ++ (sp1 ++ (ops ++ (sp2 ++ ds)))))) = []
      rw [List.drop_length]
      cases f <;> rfl

theorem subLevelCmp_lvl_mid (w sp1 ops sp2 ds r2 : Str) (f : Nat) (prev : Option Char)
    (hw : toUp w = lit "LEVEL")
    (hsp1 : ∀ c ∈ sp1, isSpc c = true)
    (hops : ops ≠ []) (hopsAll : ∀ c ∈ ops, isOpChar c = true)
    (hsp2 : ∀ c ∈ sp2, isSpc c = true)
    (hds : ds ≠ []) (hdsAll : ∀ c ∈ ds, isDig c = true)
    (hr2h : (r2.take 1).all (fun c => !isSpc c) = true)
    (hp : noWrdBefore prev = true)
    (hf : (w ++ (sp1 ++ (ops ++ (sp2 ++ (ds ++ (lit " AND " ++ r2)))))).length ≤ f) :
    subLevelCmpF f prev (w ++ (sp1 ++ (ops ++ (sp2 ++ (ds ++ (lit " AND " ++ r2))))))
      = subLevelCmpF (f - 1) (some ' ') r2 := by
  have hwlen : w.length = 5 := by
    have hl := congrArg List.length hw
    simpa [toUp] using hl
  have hL := levelCmpLenAt_eval w sp1 ops sp2 ds (lit " AND " ++ r2) hw hsp1 hops
    hopsAll hsp2 hds hdsAll (Or.inr ⟨r2, rfl, hr2h⟩)
  rw [if_neg (show ¬(lit " AND " ++ r2 = []) from by
    rw [show lit " AND " ++ r2 = ' ' :: (lit "AND " ++ r2) from rfl]
    simp)] at hL
  have hXdef : w ++ (sp1 ++ (ops ++ (sp2 ++ (ds ++ (lit " AND " ++ r2)))))
      = (w ++ (sp1 ++ (ops ++ (sp2 ++ (ds ++ lit " AND "))))) ++ r2 := by
    simp [List.append_assoc]
  have hXlen : (w ++ (sp1 ++ (ops ++ (sp2 ++ (ds ++ lit " AND "))))).length
      = (w ++ (sp1 ++ (ops ++ (sp2 ++ (ds ++ (lit " AND " ++ r2)))))).length
        - (lit " AND " ++ r2).length + 5 := by
    simp only [List.length_append]
    have h1 : (lit " AND ").length = 5 := by decide
    omega
  cases f with
  | zero =>
    exfalso
    simp only [List.length_append] at hf
    omega
  | succ f =>
    cases w with
    | nil => simp at hwlen
    | cons c w' =>
      simp only [List.cons_append] at hL ⊢
      rw [subLevelCmpF_step]
      rw [if_pos hp, hL]
      show subLevelCmpF f
          (List.take ((c :: (w' ++ (sp1 ++ (ops ++ (sp2 ++ (ds ++ (lit " AND " ++ r2))))))).length
              - (lit " AND " ++ r2).length + 5)
            (c :: (w' ++ (sp1 ++ (ops ++ (sp2 ++ (ds ++ (lit " AND " ++ r2)))))))).getLast?
          (List.drop ((c :: (w' ++ (sp1 ++ (ops ++ (sp2 ++ (ds ++ (lit " AND " ++ r2))))))).length
              - (lit " AND " ++ r2).length + 5)
            (c :: (w' ++ (sp1 ++ (ops ++ (sp2 ++ (ds ++ (lit " AND " ++ r2))))))))
          = subLevelCmpF (f + 1 - 1) (some ' ') r2
      have hXc : c :: (w' ++ (sp1 ++ (ops ++ (sp2 ++ (ds ++ (lit " AND " ++ r2))))))
          = (c :: (w' ++ (sp1 ++ (ops ++ (sp2 ++ (ds ++ lit " AND ")))))) ++ r2 := by
        simp [List.append_assoc]
      have hLval : (c :: (w' ++ (sp1 ++ (ops ++ (sp2 ++ (ds ++ (lit " AND " ++ r2))))))).length
            - (lit " AND " ++ r2).length + 5
          = (c :: (w' ++ (sp1 ++ (ops ++ (sp2 ++ (ds ++ lit " AND ")))))).length := by
        simp only [List.length_append, List.length_cons]
        have h1 : (lit " AND ").length = 5 := by decide
        have h2 : (lit " AND " ++ r2).length = 5 + r2.length := by
          simp only [List.length_append]
          omega
        omega
      rw [hLval, hXc, List.drop_left, List.take_left]
      congr 1
      have hXsp : c :: (w' ++ (sp1 ++ (ops ++ (sp2 ++ (ds ++ lit " AND ")))))
          = (c :: (w' ++ (sp1 ++ (ops ++ (sp2 ++ (ds ++ lit " AND")))))) ++ [' '] := by
        simp [List.append_assoc]
        rfl
      rw [hXsp, List.getLast?_concat]

theorem endsNonWrdB_concat {y : Str} {c : Char} (hc : isWrd c = false) :
    endsNonWrdB (y ++ [c]) = true := by
  unfold endsNonWrdB
  rw [List.reverse_append]
  show (!isWrd c) = true
  rw [hc]
  rfl

theorem wAtomOk_lvl_parts {w sp1 ops sp2 ds : Str}
    (h : wAtomOk (.lvl w sp1 ops sp2 ds) = true) :
    toUp w = lit "LEVEL" ∧ (∀ c ∈ sp1, isSpc c = true) ∧
    (ops ≠ [] ∧ ∀ c ∈ ops, isOpChar c = true) ∧
    (∀ c ∈ sp2, isSpc c = true) ∧
    (ds ≠ [] ∧ ∀ c ∈ ds, isDig c = true) := by
  simp only [wAtomOk, Bool.and_eq_true] at h
  obtain ⟨⟨⟨⟨hw, hsp1⟩, hops⟩, hsp2⟩, hds⟩ := h
  obtain ⟨hopsne, hopsall⟩ := hops
  obtain ⟨hdsne, hdsall⟩ := hds
  refine ⟨beq_iff_eq.mp hw, by simpa using hsp1,
    ⟨?_, by simpa using hopsall⟩, by simpa using hsp2,
    ⟨?_, by simpa using hdsall⟩⟩
  · intro hcon
    rw [hcon] at hopsne
    exact absurd hopsne (by simp)
  · intro hcon
    rw [hcon] at hdsne
    exact absurd hdsne (by simp)

theorem wAtomOk_plain_parts {t : Str}
    (h : wAtomOk (.plain t) = true) :
    t ≠ [] ∧ (t.take 1).all (fun c => !isSpc c) = true ∧
    (t.reverse.take 1).all (fun c => !isSpc c) = true ∧
    occurs (lit "LEVEL") (toUp t) = false ∧
    occurs (lit "AND") (toUp t) = false := by
  simp only [wAtomOk, Bool.and_eq_true] at h
  obtain ⟨⟨⟨⟨hne, h1⟩, h2⟩, h3⟩, h4⟩ := h
  refine ⟨?_, h1, h2, by simpa using h3, by simpa using h4⟩
  intro hcon
  rw [hcon] at hne
  exact absurd hne (by simp)

/-- The rendering of a nonempty well-formed conjunct list starts with a
non-space character. -/
theorem wRender_head {b : WAtom} {rest : List WAtom}
    (hok : wAtomOk b = true) :
    ((wRender (b :: rest)).take 1).all (fun c => !isSpc c) = true := by
  cases b with
  | lvl w sp1 ops sp2 ds =>
    obtain ⟨hw, _, _, _, _⟩ := wAtomOk_lvl_parts hok
    have hwlen : w.length = 5 := by
      have hl := congrArg List.length hw
      simpa [toUp] using hl
    cases hwc : w with
    | nil => rw [hwc] at hwlen; simp at hwlen
    | cons c w' =>
      have hchead : (wRender (WAtom.lvl w sp1 ops sp2 ds :: rest)).take 1 = [c] := by
        cases rest with
        | nil =>
          show ((w ++ (sp1 ++ (ops ++ (sp2 ++ ds)))).take 1) = [c]
          rw [hwc]
          rfl
        | cons b' rest' =>
          show ((w ++ (sp1 ++ (ops ++ (sp2 ++ ds))) ++ lit " AND " ++
            joinWith (lit " AND ") ((b' :: rest').map wAtomStr)).take 1) = [c]
          rw [hwc]
          rfl
      rw [← hwc, hchead]
      have hcw : isWrd c = true := by
        have hup : up c = 'L' := by
          rw [hwc] at hw
          have : toUp (c :: w') = up c :: toUp w' := by simp [toUp]
          rw [this] at hw
          exact (List.cons.injEq _ _ _ _ ▸ hw).1
        rw [← isWrd_up, hup]
        decide
      simp [wrd_not_spc hcw]
  | plain t =>
    obtain ⟨hne, h1, _, _, _⟩ := wAtomOk_plain_parts hok
    cases htc : t with
    | nil => exact absurd htc hne
    | cons c t' =>
      have hchead : (wRender (WAtom.plain t :: rest)).take 1 = [c] := by
        cases rest with
        | nil =>
          show (t.take 1) = [c]
          rw [htc]
          rfl
        | cons b' rest' =>
          show ((t ++ lit " AND " ++
            joinWith (lit " AND ") ((b' :: rest').map wAtomStr)).take 1) = [c]
          rw [htc]
          rfl
      rw [← htc, hchead]
      rw [htc] at h1
      simpa using h1

/-- `subLevelCmpF` on a rendered conjunct list yields the stripped form. -/
theorem subLevelCmp_render (atoms : List WAtom) :
    ∀ (f : Nat) (prev : Option Char),
      (∀ a ∈ atoms, wAtomOk a = true) →
      noWrdBefore prev = true →
      (wRender atoms).length ≤ f →
      subLevelCmpF f prev (wRender atoms) = wStripped atoms := by
  induction atoms with
  | nil =>
    intro f prev _ _ _
    cases f <;> rfl
  | cons a rest ih =>
    intro f prev hok hprev hf
    have hoka : wAtomOk a = true := hok a (by simp)
    cases a with
    | lvl w sp1 ops sp2 ds =>
      obtain ⟨hw, hsp1, ⟨hopsne, hopsall⟩, hsp2, ⟨hdsne, hdsall⟩⟩ :=
        wAtomOk_lvl_parts hoka
      cases rest with
      | nil =>
        have hrw : wRender [WAtom.lvl w sp1 ops sp2 ds]
            = w ++ (sp1 ++ (ops ++ (sp2 ++ ds))) := rfl
        rw [hrw] at hf ⊢
        rw [subLevelCmp_lvl_last w sp1 ops sp2 ds f prev hw hsp1 hopsne hopsall
          hsp2 hdsne hdsall hprev hf]
        rfl
      | cons b rest2 =>
        have hrw : wRender (WAtom.lvl w sp1 ops sp2 ds :: b :: rest2)
            = (w ++ (sp1 ++ (ops ++ (sp2 ++ ds)))) ++ lit " AND "
              ++ wRender (b :: rest2) := rfl
        rw [hrw] at hf ⊢
        simp only [List.append_assoc] at hf ⊢
        have hr2h : ((wRender (b :: rest2)).take 1).all
            (fun c => !isSpc c) = true := wRender_head (hok b (by simp))
        rw [subLevelCmp_lvl_mid w sp1 ops sp2 ds (wRender (b :: rest2)) f prev
          hw hsp1 hopsne hopsall hsp2 hdsne hdsall hr2h hprev hf]
        show subLevelCmpF (f - 1) (some ' ') (wRender (b :: rest2))
            = wStripped (b :: rest2)
        refine ih (f - 1) (some ' ')
          (fun x hx => hok x (List.mem_cons_of_mem _ hx)) (by decide) ?_
        have h5 : (lit " AND ").length = 5 := by decide
        simp only [List.length_append] at hf
        omega
    | plain t =>
      obtain ⟨htne, hth, htl, hlvl, hand⟩ := wAtomOk_plain_parts hoka
      cases rest with
      | nil =>
        have hrw : wRender [WAtom.plain t] = t := rfl
        rw [hrw] at hf ⊢
        have hc := subLevelCmp_copy t [] f prev
          (by simpa using hf) hlvl (Or.inl rfl)
        rw [List.append_nil] at hc
        rw [hc]
        show t ++ subLevelCmpF (f - t.length) (t.getLast?.elim prev some) [] = t
        have hz : subLevelCmpF (f - t.length) (t.getLast?.elim prev some) []
            = [] := by
          cases hn : f - t.length with
          | zero => rfl
          | succ m => rfl
        rw [hz, List.append_nil]
      | cons b rest2 =>
        have hrw : wRender (WAtom.plain t :: b :: rest2)
            = t ++ lit " AND " ++ wRender (b :: rest2) := rfl
        rw [hrw] at hf ⊢
        have hocc : occurs (lit "LEVEL") (toUp (t ++ lit " AND ")) = false :=
          occurs_LEVEL_append_sep hlvl
        have hpad : t ++ lit " AND " = (t ++ lit " AND") ++ [' '] := by
          rw [List.append_assoc]
          rfl
        have hend : endsNonWrdB (t ++ lit " AND ") = true := by
          rw [hpad]
          exact endsNonWrdB_concat (by decide)
        have hc := subLevelCmp_copy (t ++ lit " AND ") (wRender (b :: rest2))
          f prev hf hocc (Or.inr hend)
        rw [hc]
        have hgl : ((t ++ lit " AND ").getLast?).elim prev some = some ' ' := by
          rw [hpad, List.getLast?_concat]
          rfl
        rw [hgl]
        have hih := ih (f - (t ++ lit " AND ").length) (some ' ')
          (fun x hx => hok x (List.mem_cons_of_mem _ hx)) (by decide)
          (by simp only [List.length_append] at hf ⊢; omega)
        rw [hih]
        rfl

theorem subLevelCmp_wRender {atoms : List WAtom}
    (hok : ∀ a ∈ atoms, wAtomOk a = true) :
    subLevelCmp (wRender atoms) = wStripped atoms :=
  subLevelCmp_render atoms (wRender atoms).length none hok rfl (Nat.le_refl _)

/-- `wStripped` is the `AND`-join of the plain conjuncts, with one trailing
separator exactly when a stripped comparison was last. -/
theorem wStripped_cases : ∀ atoms : List WAtom,
    wStripped atoms = joinWith (lit " AND ") (wPlains atoms) ∨
    (wPlains atoms ≠ [] ∧
      wStripped atoms
        = joinWith (lit " AND ") (wPlains atoms) ++ lit " AND ") := by
  intro atoms
  induction atoms with
  | nil => exact Or.inl rfl
  | cons a rest ih =>
    cases a with
    | lvl w sp1 ops sp2 ds =>
      cases rest with
      | nil => exact Or.inl rfl
      | cons b rest2 => exact ih
    | plain t =>
      cases rest with
      | nil => exact Or.inl rfl
      | cons b rest2 =>
        rcases ih with h | ⟨hne, h⟩
        · cases hp : wPlains (b :: rest2) with
          | nil =>
            right
            constructor
            · show t :: wPlains (b :: rest2) ≠ []
              simp
            · show t ++ lit " AND " ++ wStripped (b :: rest2)
                = joinWith (lit " AND ") (t :: wPlains (b :: rest2))
                  ++ lit " AND "
              rw [hp] at h ⊢
              rw [h]
              show t ++ lit " AND " ++ ([] : Str)
                = joinWith (lit " AND ") [t] ++ lit " AND "
              rw [List.append_nil]
              rfl
          | cons p ps =>
            left
            show t ++ lit " AND " ++ wStripped (b :: rest2)
              = joinWith (lit " AND ") (t :: wPlains (b :: rest2))
            rw [h, hp]
            rfl
        · right
          cases hp : wPlains (b :: rest2) with
          | nil => exact absurd hp hne
          | cons p ps =>
            constructor
            · show t :: wPlains (b :: rest2) ≠ []
              simp
            · show t ++ lit " AND " ++ wStripped (b :: rest2)
                = joinWith (lit " AND ") (t :: wPlains (b :: rest2))
                  ++ lit " AND "
              rw [h, hp]
              show t ++ lit " AND "
                  ++ (joinWith (lit " AND ") (p :: ps) ++ lit " AND ")
                = t ++ lit " AND " ++ joinWith (lit " AND ") (p :: ps)
                  ++ lit " AND "
              simp [List.append_assoc]

theorem take1_append {t r : Str} (h : t ≠ []) : (t ++ r).take 1 = t.take 1 := by
  cases t with
  | nil => exact absurd rfl h
  | cons c t2 => rfl

theorem dropWhile_isSpc_id {s : Str}
    (h : (s.take 1).all (fun c => !isSpc c) = true) :
    s.dropWhile isSpc = s := by
  cases s with
  | nil => rfl
  | cons c t =>
    have hc : isSpc c = false := by
      have h1 : (!isSpc c) = true := by simpa using h
      simpa using h1
    exact dropWhile_cons_neg _ hc

theorem stripStr_id {s : Str}
    (h1 : (s.take 1).all (fun c => !isSpc c) = true)
    (h2 : (s.reverse.take 1).all (fun c => !isSpc c) = true) :
    stripStr s = s := by
  unfold stripStr
  rw [dropWhile_isSpc_id h1, dropWhile_isSpc_id h2, List.reverse_reverse]

theorem join_ne_nil {P : List Str} (hP : P ≠ [])
    (hne : ∀ t ∈ P, t ≠ []) : joinWith (lit " AND ") P ≠ [] := by
  cases P with
  | nil => exact absurd rfl hP
  | cons t rest =>
    cases rest with
    | nil => exact hne t (by simp)
    | cons u rest2 =>
      show t ++ lit " AND " ++ joinWith (lit " AND ") (u :: rest2) ≠ []
      intro hcon
      exact hne t (by simp)
        (List.append_eq_nil.mp (List.append_eq_nil.mp hcon).1).1

theorem join_head {P : List Str} (hP : P ≠ [])
    (hh : ∀ t ∈ P, (t.take 1).all (fun c => !isSpc c) = true)
    (hne : ∀ t ∈ P, t ≠ []) :
    ((joinWith (lit " AND ") P).take 1).all (fun c => !isSpc c) = true := by
  cases P with
  | nil => exact absurd rfl hP
  | cons t rest =>
    have hht := hh t (by simp)
    have hnet := hne t (by simp)
    cases rest with
    | nil => exact hht
    | cons u rest2 =>
      show (((t ++ lit " AND ") ++ joinWith (lit " AND ") (u :: rest2)).take
        1).all (fun c => !isSpc c) = true
      rw [take1_append (show t ++ lit " AND " ≠ [] from by
        intro hcon
        exact hnet (List.append_eq_nil.mp hcon).1), take1_append hnet]
      exact hht

theorem join_last : ∀ {P : List Str}, P ≠ [] →
    (∀ t ∈ P, (t.reverse.take 1).all (fun c => !isSpc c) = true) →
    (∀ t ∈ P, t ≠ []) →
    (((joinWith (lit " AND ") P).reverse.take 1)).all
      (fun c => !isSpc c) = true := by
  intro P
  induction P with
  | nil =>
    intro hP _ _
    exact absurd rfl hP
  | cons t rest ih =>
    intro _ hl hne
    cases rest with
    | nil => exact hl t (by simp)
    | cons u rest2 =>
      have hJne : joinWith (lit " AND ") (u :: rest2) ≠ [] :=
        join_ne_nil (by simp) (fun x hx => hne x (List.mem_cons_of_mem _ hx))
      show ((((t ++ lit " AND ")
        ++ joinWith (lit " AND ") (u :: rest2)).reverse.take 1)).all
          (fun c => !isSpc c) = true
      rw [List.reverse_append, take1_append (by
        intro hcon
        exact hJne (by simpa using congrArg List.reverse hcon))]
      exact ih (by simp) (fun x hx => hl x (List.mem_cons_of_mem _ hx))
        (fun x hx => hne x (List.mem_cons_of_mem _ hx))

theorem stripStr_join_trail {P : List Str} (hP : P ≠ [])
    (hh : ∀ t ∈ P, (t.take 1).all (fun c => !isSpc c) = true)
    (hne : ∀ t ∈ P, t ≠ []) :
    stripStr (joinWith (lit " AND ") P ++ lit " AND ")
      = joinWith (lit " AND ") P ++ lit " AND" := by
  have hd1 : (joinWith (lit " AND ") P ++ lit " AND ").dropWhile isSpc
      = joinWith (lit " AND ") P ++ lit " AND " := by
    apply dropWhile_isSpc_id
    rw [take1_append (join_ne_nil hP hne)]
    exact join_head hP hh hne
  have hrev : (joinWith (lit " AND ") P ++ lit " AND ").reverse
      = ' ' :: (lit "DNA " ++ (joinWith (lit " AND ") P).reverse) := by
    rw [List.reverse_append]
    rw [show (lit " AND ").reverse = ' ' :: lit "DNA " from by decide]
    rfl
  have hd2 : ((joinWith (lit " AND ") P ++ lit " AND ").reverse).dropWhile isSpc
      = lit "DNA " ++ (joinWith (lit " AND ") P).reverse := by
    rw [hrev, List.dropWhile_cons, if_pos (by decide)]
    rw [show lit "DNA " ++ (joinWith (lit " AND ") P).reverse
      = 'D' :: (lit "NA " ++ (joinWith (lit " AND ") P).reverse) from rfl]
    exact dropWhile_cons_neg _ (by decide)
  unfold stripStr
  rw [hd1, hd2, List.reverse_append, List.reverse_reverse]
  rw [show (lit "DNA ").reverse = lit " AND" from by decide]


theorem lazyUntil_at_end (la : Str → Bool) : ∀ (x y : Str),
    la y = true →
    (∀ x1 x2, x = x1 ++ x2 → x2 ≠ [] → la (x2 ++ y) = false) →
    lazyUntil la (x ++ y) = some (x, y) := by
  intro x
  induction x with
  | nil =>
    intro y hy _
    cases y with
    | nil =>
      show (if la [] then some (([] : Str), ([] : Str)) else none)
        = some ([], [])
      rw [if_pos hy]
    | cons c t =>
      show (if la (c :: t) then some (([] : Str), c :: t)
        else (lazyUntil la t).map (fun r => (c :: r.1, r.2))) = some ([], c :: t)
      rw [if_pos hy]
  | cons c x2 ih =>
    intro y hy hx
    have hla : la (c :: (x2 ++ y)) = false :=
      hx [] (c :: x2) rfl (by simp)
    show (if la (c :: (x2 ++ y)) then some (([] : Str), c :: (x2 ++ y))
      else (lazyUntil la (x2 ++ y)).map (fun r => (c :: r.1, r.2)))
      = some (c :: x2, y)
    rw [if_neg (by rw [hla]; exact Bool.false_ne_true)]
    rw [ih y hy (fun x1 x3 he hne => hx (c :: x1) x3 (by rw [he]; rfl) hne)]
    rfl

theorem lazyUntil_none (la : Str → Bool) : ∀ (s : Str),
    (∀ x1 x2, s = x1 ++ x2 → la x2 = false) →
    lazyUntil la s = none := by
  intro s
  induction s with
  | nil =>
    intro h
    show (if la [] then some (([] : Str), ([] : Str)) else none) = none
    rw [if_neg (by rw [h [] [] rfl]; exact Bool.false_ne_true)]
  | cons c t ih =>
    intro h
    show (if la (c :: t) then some (([] : Str), c :: t)
      else (lazyUntil la t).map (fun r => (c :: r.1, r.2))) = none
    rw [if_neg (by rw [h [] (c :: t) rfl]; exact Bool.false_ne_true)]
    rw [ih (fun x1 x2 he => h (c :: x1) x2 (by rw [he]; rfl))]
    rfl

/-- Anatomy of a successful trailing-`AND` test. -/
theorem trailAndTest_some {s : Str} (h : trailAndTest s = some ()) :
    ∃ sp a sp2, s = sp ++ (a ++ sp2) ∧ sp ≠ [] ∧ (∀ c ∈ sp, isSpc c = true) ∧
      ciEq a (lit "AND") = true ∧ (∀ c ∈ sp2, isSpc c = true) := by
  simp only [trailAndTest] at h
  by_cases hE : (s.takeWhile isSpc).isEmpty = true
  · rw [if_pos hE] at h
    exact absurd h (by simp)
  · rw [if_neg hE] at h
    by_cases hC : (ciEq ((s.dropWhile isSpc).take 3) (lit "AND")
        && (((s.dropWhile isSpc).drop 3).dropWhile isSpc).isEmpty) = true
    · rw [Bool.and_eq_true] at hC
      obtain ⟨hci, hsp⟩ := hC
      refine ⟨s.takeWhile isSpc, (s.dropWhile isSpc).take 3,
        (s.dropWhile isSpc).drop 3, ?_, ?_, ?_, hci, ?_⟩
      · rw [List.take_append_drop, List.takeWhile_append_dropWhile]
      · intro hcon
        rw [hcon] at hE
        exact hE rfl
      · exact fun c hc => List.mem_takeWhile_imp hc
      · intro c hc
        have hnil : ((s.dropWhile isSpc).drop 3).dropWhile isSpc = [] := by
          cases hd : ((s.dropWhile isSpc).drop 3).dropWhile isSpc with
          | nil => rfl
          | cons e l =>
            rw [hd] at hsp
            exact absurd hsp (by simp)
        exact List.dropWhile_eq_nil_iff.mp hnil c hc
    · rw [if_neg hC] at h
      exact absurd h (by simp)

/-- A suffix made of spaces at the end of a string whose last character is
not a space is empty. -/
theorem suffix_space_nil {s y sp2 : Str}
    (hsplit : s = y ++ sp2) (hall : ∀ c ∈ sp2, isSpc c = true)
    (hlast : (s.reverse.take 1).all (fun c => !isSpc c) = true) :
    sp2 = [] := by
  cases hs2 : sp2 with
  | nil => rfl
  | cons d sp2m =>
    exfalso
    have hrev : s.reverse = sp2.reverse ++ y.reverse := by
      rw [hsplit, List.reverse_append]
    cases hh : sp2.reverse with
    | nil =>
      rw [hs2] at hh
      simp at hh
    | cons e r =>
      have hsrev : s.reverse = e :: (r ++ y.reverse) := by
        rw [hrev, hh]
        rfl
      have hmem : e ∈ sp2 := by
        have he : e ∈ sp2.reverse := by rw [hh]; simp
        exact List.mem_reverse.mp he
      have hspc := hall e hmem
      rw [hsrev] at hlast
      have hne : (!isSpc e) = true := by simpa using hlast
      rw [hspc] at hne
      exact absurd hne (by decide)

/-- Extract the suffix from an equality of appends. -/
theorem suffix_of_append {l1 l2 y a : Str} (h : l1 ++ l2 = y ++ a)
    (hl : a.length ≤ l2.length) : ∃ y2, l2 = y2 ++ a := by
  have hlen := congrArg List.length h
  simp only [List.length_append] at hlen
  have hy : y.length = l1.length + (l2.length - a.length) := by omega
  have ha : a = l2.drop (l2.length - a.length) := by
    have h1 : (y ++ a).drop y.length = a := List.drop_left y a
    rw [← h, hy, List.drop_append_eq_append_drop] at h1
    rw [List.drop_of_length_le (by omega)] at h1
    simp only [List.nil_append] at h1
    rw [show l1.length + (l2.length - a.length) - l1.length
      = l2.length - a.length from by omega] at h1
    exact h1.symm
  refine ⟨l2.take (l2.length - a.length), ?_⟩
  conv_lhs => rw [← List.take_append_drop (l2.length - a.length) l2]
  rw [← ha]

theorem ciEq_cons_false {c d : Char} {a b : Str} (h : up c ≠ up d) :
    ciEq (c :: a) (d :: b) = false := by
  cases hci : ciEq (c :: a) (d :: b) with
  | false => rfl
  | true =>
    exfalso
    have := ciEq_iff.mp hci
    simp only [toUp, List.map] at this
    exact h (List.cons.injEq _ _ _ _ ▸ this).1

theorem occurs_of_infix {pat a : Str} (hpat : toUp pat = pat)
    (hci : ciEq a pat = true) :
    ∀ (y z : Str), occurs pat (toUp (y ++ (a ++ z))) = true := by
  intro y
  induction y with
  | nil =>
    intro z
    show occurs pat (toUp (a ++ z)) = true
    have hz : toUp (a ++ z) = pat ++ toUp z := by
      rw [show toUp (a ++ z) = toUp a ++ toUp z from by simp [toUp],
        ciEq_iff.mp hci, hpat]
    rw [hz]
    exact occurs_here _ _
  | cons c y2 ih =>
    intro z
    show occurs pat (toUp ((c :: y2) ++ (a ++ z))) = true
    rw [show toUp ((c :: y2) ++ (a ++ z))
      = up c :: toUp (y2 ++ (a ++ z)) from by simp [toUp]]
    exact occurs_cons_of_tail (ih z)

/-- No length-3 suffix of a rendered plain-conjunct list spells `AND`. -/
theorem join_last3 : ∀ (P : List Str),
    (∀ t ∈ P, t ≠ [] ∧ occurs (lit "AND") (toUp t) = false) →
    ∀ y a, joinWith (lit " AND ") P = y ++ a → a.length = 3 →
    ciEq a (lit "AND") = false := by
  intro P
  induction P with
  | nil =>
    intro _ y a hsplit hlen
    exfalso
    have ha : a = [] := (List.append_eq_nil.mp hsplit.symm).2
    rw [ha] at hlen
    simp at hlen
  | cons t rest ih =>
    intro hP y a hsplit hlen
    obtain ⟨htne, htocc⟩ := hP t (by simp)
    cases rest with
    | nil =>
      have ht : t = y ++ a := hsplit
      cases hci : ciEq a (lit "AND") with
      | false => rfl
      | true =>
        exfalso
        have ho := occurs_of_infix (by decide) hci y []
        rw [List.append_nil, ← ht] at ho
        rw [htocc] at ho
        exact absurd ho (by decide)
    | cons u rest2 =>
      have hJ : joinWith (lit " AND ") (t :: u :: rest2)
          = (t ++ lit " AND ") ++ joinWith (lit " AND ") (u :: rest2) := rfl
      rw [hJ] at hsplit
      by_cases hlen2 : 3 ≤ (joinWith (lit " AND ") (u :: rest2)).length
      · obtain ⟨y2, hy2⟩ := suffix_of_append hsplit (by omega)
        exact ih (fun x hx => hP x (List.mem_cons_of_mem _ hx)) y2 a hy2 hlen
      · cases rest2 with
        | cons v rest3 =>
          exfalso
          apply hlen2
          rw [show joinWith (lit " AND ") (u :: v :: rest3)
            = (u ++ lit " AND ") ++ joinWith (lit " AND ") (v :: rest3)
            from rfl]
          simp only [List.length_append]
          have h5 : (lit " AND ").length = 5 := by decide
          omega
        | nil =>
          obtain ⟨hune, _⟩ := hP u (by simp)
          cases hu : u with
          | nil => exact absurd hu hune
          | cons c urest =>
            cases hur : urest with
            | nil =>
              have hre : (t ++ lit " AN") ++ (lit "D " ++ [c]) = y ++ a := by
                rw [← hsplit, hu, hur]
                simp only [List.append_assoc]
                rfl
              have hlen3 : a.length ≤ (lit "D " ++ [c]).length := by
                rw [hlen, List.length_append]
                have h2 : (lit "D ").length = 2 := by decide
                simp [h2]
              obtain ⟨y2, hy2⟩ := suffix_of_append hre hlen3
              have hy2nil : y2 = [] := by
                have h2 : (lit "D ").length = 2 := by decide
                have hl2 := congrArg List.length hy2
                simp only [List.length_append, List.length_singleton, h2,
                  hlen] at hl2
                exact List.eq_nil_of_length_eq_zero (by omega)
              rw [hy2nil, List.nil_append] at hy2
              rw [← hy2]
              rw [show lit "D " ++ [c] = 'D' :: (' ' :: [c]) from rfl]
              exact ciEq_cons_false (by decide)
            | cons d urest2 =>
              cases hur2 : urest2 with
              | cons e u3 =>
                exfalso
                apply hlen2
                rw [show joinWith (lit " AND ") [u] = u from rfl, hu, hur, hur2]
                simp
              | nil =>
                have hre : (t ++ lit " AND") ++ (' ' :: (c :: [d])) = y ++ a := by
                  rw [← hsplit, hu, hur, hur2]
                  simp only [List.append_assoc]
                  rfl
                have hlen3 : a.length ≤ (' ' :: (c :: [d])).length := by
                  rw [hlen]
                  simp
                obtain ⟨y2, hy2⟩ := suffix_of_append hre hlen3
                have hy2nil : y2 = [] := by
                  have hl2 := congrArg List.length hy2
                  rw [List.length_append, hlen] at hl2
                  have h3 : (' ' :: (c :: [d])).length = 3 := rfl
                  rw [h3] at hl2
                  exact List.eq_nil_of_length_eq_zero (by omega)
                rw [hy2nil, List.nil_append] at hy2
                rw [← hy2]
                exact ciEq_cons_false (by decide)


/-- Appending `" AND"` to a string ending in a non-space never creates a
trailing-`AND` match at an interior position. -/
theorem trailAndTest_pad_none {x2 : Str} (hne : x2 ≠ [])
    (hlast : (x2.reverse.take 1).all (fun c => !isSpc c) = true) :
    trailAndTest (x2 ++ lit " AND") = none := by
  cases htt : trailAndTest (x2 ++ lit " AND") with
  | none => rfl
  | some u =>
    exfalso
    cases u
    obtain ⟨sp, a, sp2, hsplit, hspne, hspall, hci, hsp2all⟩ :=
      trailAndTest_some htt
    have hlastD : ((x2 ++ lit " AND").reverse.take 1).all
        (fun c => !isSpc c) = true := by
      rw [List.reverse_append,
        show (lit " AND").reverse = 'D' :: lit "NA " from by decide]
      rfl
    have hs : x2 ++ lit " AND" = (sp ++ a) ++ sp2 := by
      rw [hsplit, List.append_assoc]
    have hsp2nil : sp2 = [] := suffix_space_nil hs hsp2all hlastD
    rw [hsp2nil, List.append_nil] at hs
    have hlen : a.length = 3 := by
      have h1 := ciEq_len hci
      rw [show (lit "AND").length = 3 from by decide] at h1
      exact h1
    have hre : (x2 ++ [' ']) ++ lit "AND" = sp ++ a := by
      rw [← hs]
      simp only [List.append_assoc]
      rfl
    have hlen3 : a.length ≤ (lit "AND").length := by
      rw [hlen]
      decide
    obtain ⟨y2, hy2⟩ := suffix_of_append hre hlen3
    have hy2nil : y2 = [] := by
      have hl2 := congrArg List.length hy2
      rw [List.length_append, hlen,
        show (lit "AND").length = 3 from by decide] at hl2
      exact List.eq_nil_of_length_eq_zero (by omega)
    rw [hy2nil, List.nil_append] at hy2
    rw [← hy2] at hre
    have hsp3 : x2 ++ [' '] = sp := List.append_cancel_right hre
    rcases hxr : x2.reverse with _ | ⟨e, r⟩
    · apply hne
      simpa using congrArg List.reverse hxr
    · have he1 : (!isSpc e) = true := by
        rw [hxr] at hlast
        simpa using hlast
      have hmeme : e ∈ x2 := List.mem_reverse.mp (by rw [hxr]; simp)
      have hmems : e ∈ sp := by
        rw [← hsp3]
        exact List.mem_append_left _ hmeme
      have hes := hspall e hmems
      rw [hes] at he1
      exact absurd he1 (by decide)

/-- No suffix of a rendered plain-conjunct list passes the
trailing-`AND` test. -/
theorem trailAndTest_suffix_none {P : List Str}
    (hP : ∀ t ∈ P, t ≠ [] ∧ occurs (lit "AND") (toUp t) = false ∧
      (t.reverse.take 1).all (fun c => !isSpc c) = true)
    (hPne : P ≠ []) :
    ∀ x1 x2, joinWith (lit " AND ") P = x1 ++ x2 →
      trailAndTest x2 = none := by
  intro x1 x2 hsplit
  cases htt : trailAndTest x2 with
  | none => rfl
  | some u =>
    exfalso
    cases u
    obtain ⟨sp, a, sp2, hx2, hspne, hspall, hci, hsp2all⟩ :=
      trailAndTest_some htt
    have hJlast : ((joinWith (lit " AND ") P).reverse.take 1).all
        (fun c => !isSpc c) = true :=
      join_last hPne (fun t ht => (hP t ht).2.2) (fun t ht => (hP t ht).1)
    have hs : joinWith (lit " AND ") P = (x1 ++ (sp ++ a)) ++ sp2 := by
      rw [hsplit, hx2]
      simp [List.append_assoc]
    have hsp2nil : sp2 = [] := suffix_space_nil hs hsp2all hJlast
    rw [hsp2nil, List.append_nil] at hs
    have hlen : a.length = 3 := by
      have h1 := ciEq_len hci
      rw [show (lit "AND").length = 3 from by decide] at h1
      exact h1
    have hfalse := join_last3 P
      (fun t ht => ⟨(hP t ht).1, (hP t ht).2.1⟩) (x1 ++ sp) a
      (by rw [hs]; simp [List.append_assoc]) hlen
    rw [hci] at hfalse
    exact absurd hfalse (by decide)

theorem subTrailAnd_join {P : List Str}
    (hP : ∀ t ∈ P, t ≠ [] ∧ occurs (lit "AND") (toUp t) = false ∧
      (t.reverse.take 1).all (fun c => !isSpc c) = true)
    (hPne : P ≠ []) :
    subTrailAnd (joinWith (lit " AND ") P) = joinWith (lit " AND ") P := by
  unfold subTrailAnd
  rw [lazyUntil_none _ _ (fun x1 x2 h => by
    rw [trailAndTest_suffix_none hP hPne x1 x2 h]
    rfl)]

theorem subTrailAnd_join_pad {P : List Str}
    (hP : ∀ t ∈ P, t ≠ [] ∧ occurs (lit "AND") (toUp t) = false ∧
      (t.reverse.take 1).all (fun c => !isSpc c) = true)
    (hPne : P ≠ []) :
    subTrailAnd (joinWith (lit " AND ") P ++ lit " AND")
      = joinWith (lit " AND ") P := by
  unfold subTrailAnd
  rw [lazyUntil_at_end _ (joinWith (lit " AND ") P) (lit " AND")
    (by decide)
    (fun x1 x2 hsp hne2 => by
      have hx2r : x2.reverse ≠ [] := by
        intro hcon
        apply hne2
        simpa using congrArg List.reverse hcon
      have hlast2 : (x2.reverse.take 1).all (fun c => !isSpc c) = true := by
        have hJl := join_last hPne (fun t ht => (hP t ht).2.2)
          (fun t ht => (hP t ht).1)
        rw [hsp, List.reverse_append, take1_append hx2r] at hJl
        exact hJl
      rw [trailAndTest_pad_none hne2 hlast2]
      rfl)]

theorem levelCmpSearch_eq (s : Str) :
    levelCmpSearch s = scanFirstB lvlCmpTest none s := rfl

theorem lvlCmpTest_none {prev : Option Char} {v : Str}
    (h : ciEq (v.take 5) (lit "LEVEL") = false) :
    lvlCmpTest prev v = none := by
  unfold lvlCmpTest
  simp only [h, Bool.and_false, Bool.false_eq_true, if_false]

theorem scanFirstB_of_test {α : Type} (test : Option Char → Str → Option α)
    (prev : Option Char) (s : Str) {x : α} (h : test prev s = some x) :
    scanFirstB test prev s = some x := by
  cases s with
  | nil => exact h
  | cons c t =>
    show (match test prev (c :: t) with
      | some y => some y
      | none => scanFirstB test (some c) t) = some x
    rw [h]

theorem scanFirstB_skip {α : Type} (test : Option Char → Str → Option α)
    (htest : ∀ prev v, ciEq (v.take 5) (lit "LEVEL") = false →
      test prev v = none) :
    ∀ (t rest : Str) (prev : Option Char),
      occurs (lit "LEVEL") (toUp t) = false →
      (rest = [] ∨ endsNonWrdB t = true) →
      scanFirstB test prev (t ++ rest)
        = scanFirstB test (t.getLast?.elim prev some) rest := by
  intro t
  induction t with
  | nil =>
    intro rest prev _ _
    simp [Option.elim]
  | cons c t2 ih =>
    intro rest prev htxt hend
    have hci : ciEq (((c :: t2) ++ rest).take 5) (lit "LEVEL") = false := by
      have hlc := levelCond_false (t := c :: t2)
        (by simp) htxt hend
      simpa using hlc
    show scanFirstB test prev (c :: (t2 ++ rest)) = _
    rw [show scanFirstB test prev (c :: (t2 ++ rest))
      = (match test prev (c :: (t2 ++ rest)) with
         | some x => some x
         | none => scanFirstB test (some c) (t2 ++ rest)) from rfl]
    rw [htest prev (c :: (t2 ++ rest)) (by simpa using hci)]
    show scanFirstB test (some c) (t2 ++ rest)
      = scanFirstB test ((c :: t2).getLast?.elim prev some) rest
    cases ht2 : t2 with
    | nil =>
      subst ht2
      rfl
    | cons d t3 =>
      rw [← ht2]
      have htxt2 : occurs (lit "LEVEL") (toUp t2) = false := by
        have hmc : toUp (c :: t2) = up c :: toUp t2 := by simp [toUp]
        rw [hmc] at htxt
        exact not_occurs_tail htxt
      have hend2 : rest = [] ∨ endsNonWrdB t2 = true := by
        cases hend with
        | inl h => exact Or.inl h
        | inr h =>
          right
          rw [endsNonWrdB_cons (by rw [ht2]; simp)] at h
          exact h
      have hgl : ((c :: t2).getLast?.elim prev some)
          = (t2.getLast?.elim (some c) some) := by
        rw [ht2, List.getLast?_cons_cons]
        cases hg : (d :: t3).getLast? with
        | none => exact absurd hg (by simp)
        | some e => rfl
      rw [hgl]
      exact ih rest (some c) htxt2 hend2

/-- Evaluation of the `levelCmpSearch` test at a well-formed `LEVEL`
comparison. -/
theorem lvlCmpTest_hit (w sp1 ops sp2 ds rest : Str) (prev : Option Char)
    (hw : toUp w = lit "LEVEL")
    (hsp1 : ∀ c ∈ sp1, isSpc c = true)
    (hops : ops ≠ []) (hopsAll : ∀ c ∈ ops, isOpChar c = true)
    (hsp2 : ∀ c ∈ sp2, isSpc c = true)
    (hds : ds ≠ []) (hdsAll : ∀ c ∈ ds, isDig c = true)
    (hrest : rest.takeWhile isDig = [])
    (hprev : noWrdBefore prev = true) :
    lvlCmpTest prev (w ++ (sp1 ++ (ops ++ (sp2 ++ (ds ++ rest)))))
      = some (ops, ds) := by
  have hwlen : w.length = 5 := by
    have hl := congrArg List.length hw
    simpa [toUp] using hl
  have htake5 : (w ++ (sp1 ++ (ops ++ (sp2 ++ (ds ++ rest))))).take 5 = w := by
    rw [List.take_append_eq_append_take, List.take_of_length_le (by omega),
      hwlen]
    simp
  have hdrop5 : (w ++ (sp1 ++ (ops ++ (sp2 ++ (ds ++ rest))))).drop 5
      = sp1 ++ (ops ++ (sp2 ++ (ds ++ rest))) := by
    rw [List.drop_append_eq_append_drop, List.drop_of_length_le (by omega),
      hwlen]
    simp
  have hci : ciEq ((w ++ (sp1 ++ (ops ++ (sp2 ++ (ds ++ rest))))).take 5)
      (lit "LEVEL") = true := by
    rw [htake5, ciEq_iff, hw]
    decide
  obtain ⟨o, ops2, hopsc⟩ : ∃ o ops2, ops = o :: ops2 := by
    cases ops with
    | nil => exact absurd rfl hops
    | cons o ops2 => exact ⟨o, ops2, rfl⟩
  obtain ⟨d0, ds2, hdsc⟩ : ∃ d0 ds2, ds = d0 :: ds2 := by
    cases ds with
    | nil => exact absurd rfl hds
    | cons d0 ds2 => exact ⟨d0, ds2, rfl⟩
  have hu1 : (sp1 ++ (ops ++ (sp2 ++ (ds ++ rest)))).dropWhile isSpc
      = ops ++ (sp2 ++ (ds ++ rest)) := by
    rw [dropWhile_app_of_all _ hsp1, hopsc]
    exact dropWhile_cons_neg _ (isOpChar_not_spc (hopsAll o (by
      rw [hopsc]; simp)))
  have hopsTake : (ops ++ (sp2 ++ (ds ++ rest))).takeWhile isOpChar = ops := by
    rw [takeWhile_app_of_all _ hopsAll]
    have hnil : (sp2 ++ (ds ++ rest)).takeWhile isOpChar = [] := by
      cases hsp2c : sp2 with
      | nil =>
        simp only [List.nil_append]
        rw [hdsc]
        exact takeWhile_cons_neg _ (isDig_not_op (hdsAll d0 (by
          rw [hdsc]; simp)))
      | cons s0 sp2m =>
        simp only [List.cons_append]
        exact takeWhile_cons_neg _ (isSpc_not_op (hsp2 s0 (by
          rw [hsp2c]; simp)))
    rw [hnil, List.append_nil]
  have hu2a : (ops ++ (sp2 ++ (ds ++ rest))).dropWhile isOpChar
      = sp2 ++ (ds ++ rest) := by
    rw [dropWhile_app_of_all _ hopsAll]
    cases hsp2c : sp2 with
    | nil =>
      simp only [List.nil_append]
      rw [hdsc]
      simp only [List.cons_append]
      exact dropWhile_cons_neg _ (isDig_not_op (hdsAll d0 (by
        rw [hdsc]; simp)))
    | cons s0 sp2m =>
      simp only [List.cons_append]
      exact dropWhile_cons_neg _ (isSpc_not_op (hsp2 s0 (by
        rw [hsp2c]; simp)))
  have hu2 : ((ops ++ (sp2 ++ (ds ++ rest))).dropWhile
      isOpChar).dropWhile isSpc = ds ++ rest := by
    rw [hu2a, dropWhile_app_of_all _ hsp2, hdsc]
    simp only [List.cons_append]
    exact dropWhile_cons_neg _ (isDig_not_spc (hdsAll d0 (by
      rw [hdsc]; simp)))
  have hdsTake : (ds ++ rest).takeWhile isDig = ds := by
    rw [takeWhile_app_of_all _ hdsAll, hrest, List.append_nil]
  have hopsE : ops.isEmpty = false := by
    rw [hopsc]
    rfl
  have hdsE : ds.isEmpty = false := by
    rw [hdsc]
    rfl
  unfold lvlCmpTest
  rw [if_pos (by rw [hprev, hci]; rfl)]
  simp only [hdrop5, hu1, hopsTake, hopsE, Bool.false_eq_true, if_false,
    hu2, hdsTake, hdsE]

/-- `levelCmpSearch`-style scanning of a rendered conjunct list finds the
first `LEVEL` comparison. -/
theorem levelCmpSearch_render : ∀ (atoms : List WAtom) (prev : Option Char),
    (∀ a ∈ atoms, wAtomOk a = true) → noWrdBefore prev = true →
    scanFirstB lvlCmpTest prev (wRender atoms) = wFirstLvl atoms := by
  intro atoms
  induction atoms with
  | nil =>
    intro prev _ _
    show lvlCmpTest prev [] = none
    exact lvlCmpTest_none (by decide)
  | cons a rest ih =>
    intro prev hok hprev
    have hoka := hok a (by simp)
    cases a with
    | lvl w sp1 ops sp2 ds =>
      obtain ⟨hw, hsp1, ⟨hopsne, hopsall⟩, hsp2, ⟨hdsne, hdsall⟩⟩ :=
        wAtomOk_lvl_parts hoka
      cases rest with
      | nil =>
        have hX : wRender [WAtom.lvl w sp1 ops sp2 ds]
            = w ++ (sp1 ++ (ops ++ (sp2 ++ (ds ++ [])))) := by
          rw [show wRender [WAtom.lvl w sp1 ops sp2 ds]
            = w ++ (sp1 ++ (ops ++ (sp2 ++ ds))) from rfl]
          rw [List.append_nil]
        rw [hX]
        exact scanFirstB_of_test _ _ _
          (lvlCmpTest_hit w sp1 ops sp2 ds [] prev hw hsp1 hopsne hopsall
            hsp2 hdsne hdsall rfl hprev)
      | cons b rest2 =>
        have hX : wRender (WAtom.lvl w sp1 ops sp2 ds :: b :: rest2)
            = w ++ (sp1 ++ (ops ++ (sp2
              ++ (ds ++ (lit " AND " ++ wRender (b :: rest2)))))) := by
          rw [show wRender (WAtom.lvl w sp1 ops sp2 ds :: b :: rest2)
            = (w ++ (sp1 ++ (ops ++ (sp2 ++ ds)))) ++ lit " AND "
              ++ wRender (b :: rest2) from rfl]
          simp only [List.append_assoc]
        rw [hX]
        have hrest2 : (lit " AND " ++ wRender (b :: rest2)).takeWhile isDig
            = [] := by
          rw [show lit " AND " ++ wRender (b :: rest2)
            = ' ' :: (lit "AND " ++ wRender (b :: rest2)) from rfl]
          exact takeWhile_cons_neg _ (by decide)
        exact scanFirstB_of_test _ _ _
          (lvlCmpTest_hit w sp1 ops sp2 ds
            (lit " AND " ++ wRender (b :: rest2)) prev hw hsp1 hopsne
            hopsall hsp2 hdsne hdsall hrest2 hprev)
    | plain t =>
      obtain ⟨htne, hth, htl, hlvl, hand⟩ := wAtomOk_plain_parts hoka
      cases rest with
      | nil =>
        have hsk := scanFirstB_skip lvlCmpTest
          (fun p v h => lvlCmpTest_none h) t [] prev hlvl (Or.inl rfl)
        rw [List.append_nil] at hsk
        rw [show wRender [WAtom.plain t] = t from rfl, hsk]
        show lvlCmpTest (t.getLast?.elim prev some) [] = none
        exact lvlCmpTest_none (by decide)
      | cons b rest2 =>
        have hocc : occurs (lit "LEVEL") (toUp (t ++ lit " AND ")) = false :=
          occurs_LEVEL_append_sep hlvl
        have hpad : t ++ lit " AND " = (t ++ lit " AND") ++ [' '] := by
          rw [List.append_assoc]
          rfl
        have hend : endsNonWrdB (t ++ lit " AND ") = true := by
          rw [hpad]
          exact endsNonWrdB_concat (by decide)
        have hsk := scanFirstB_skip lvlCmpTest
          (fun p v h => lvlCmpTest_none h) (t ++ lit " AND ")
          (wRender (b :: rest2)) prev hocc (Or.inr hend)
        have hgl : ((t ++ lit " AND ").getLast?).elim prev some
            = some ' ' := by
          rw [hpad, List.getLast?_concat]
          rfl
        rw [hgl] at hsk
        rw [show wRender (WAtom.plain t :: b :: rest2)
          = (t ++ lit " AND ") ++ wRender (b :: rest2) from rfl, hsk]
        show scanFirstB lvlCmpTest (some ' ') (wRender (b :: rest2))
          = wFirstLvl (b :: rest2)
        exact ih (some ' ')
          (fun x hx => hok x (List.mem_cons_of_mem _ hx)) (by decide)


theorem wRender_ne_nil {a : WAtom} {rest : List WAtom}
    (hok : wAtomOk a = true) : wRender (a :: rest) ≠ [] := by
  have hsne : wAtomStr a ≠ [] := by
    cases a with
    | lvl w sp1 ops sp2 ds =>
      obtain ⟨hw, _, _, _, _⟩ := wAtomOk_lvl_parts hok
      have hwlen : w.length = 5 := by
        have hl := congrArg List.length hw
        simpa [toUp] using hl
      show w ++ (sp1 ++ (ops ++ (sp2 ++ ds))) ≠ []
      intro hcon
      have hw0 : w = [] := (List.append_eq_nil.mp hcon).1
      rw [hw0] at hwlen
      simp at hwlen
    | plain t =>
      obtain ⟨htne, _, _, _, _⟩ := wAtomOk_plain_parts hok
      exact htne
  cases rest with
  | nil => exact hsne
  | cons b rest2 =>
    show wAtomStr a ++ lit " AND " ++ joinWith (lit " AND ")
      ((b :: rest2).map wAtomStr) ≠ []
    intro hcon
    exact hsne (List.append_eq_nil.mp (List.append_eq_nil.mp hcon).1).1

theorem wPlains_ok {atoms : List WAtom}
    (hok : ∀ a ∈ atoms, wAtomOk a = true) :
    ∀ t ∈ wPlains atoms, t ≠ []
      ∧ (t.take 1).all (fun c => !isSpc c) = true
      ∧ (t.reverse.take 1).all (fun c => !isSpc c) = true
      ∧ occurs (lit "AND") (toUp t) = false := by
  induction atoms with
  | nil =>
    intro t ht
    exact absurd ht (by simp [wPlains])
  | cons a rest ih =>
    intro t ht
    cases a with
    | lvl w sp1 ops sp2 ds =>
      exact ih (fun x hx => hok x (List.mem_cons_of_mem _ hx)) t ht
    | plain t0 =>
      have hht : t = t0 ∨ t ∈ wPlains rest := by
        have : t ∈ t0 :: wPlains rest := ht
        simpa using this
      cases hht with
      | inl he =>
        obtain ⟨h1, h2, h3, _, h4⟩ :=
          wAtomOk_plain_parts (hok (WAtom.plain t0) (by simp))
        rw [he]
        exact ⟨h1, h2, h3, h4⟩
      | inr hm =>
        exact ih (fun x hx => hok x (List.mem_cons_of_mem _ hx)) t hm

theorem join_ne_AND {P : List Str}
    (hP : ∀ t ∈ P, t ≠ [] ∧ occurs (lit "AND") (toUp t) = false) :
    toUp (joinWith (lit " AND ") P) ≠ lit "AND" := by
  intro hcon
  have hlen : (joinWith (lit " AND ") P).length = 3 := by
    have := congrArg List.length hcon
    simpa [toUp] using this
  have hci : ciEq (joinWith (lit " AND ") P) (lit "AND") = true := by
    rw [ciEq_iff, hcon]
    decide
  have hfalse := join_last3 P hP [] (joinWith (lit " AND ") P) rfl hlen
  rw [hci] at hfalse
  exact absurd hfalse (by decide)

/-- The outer level filter of a rendered WHERE clause is the first `LEVEL`
comparison, rewritten, and any further comparisons are dropped. -/
theorem extractLevelFilter_render {comps : ConnectByComponents}
    {atoms : List WAtom}
    (hw : comps.where_clause = some (wRender atoms))
    (hok : ∀ a ∈ atoms, wAtomOk a = true) :
    extractLevelFilter comps
      = (wFirstLvl atoms).map (fun p => lit "level " ++ p.1 ++ ' ' :: p.2) := by
  unfold extractLevelFilter
  rw [hw]
  cases atoms with
  | nil => rfl
  | cons a rest =>
    have hne : wRender (a :: rest) ≠ [] := wRender_ne_nil (hok a (by simp))
    have hEm : (wRender (a :: rest)).isEmpty = false := by
      cases hW : wRender (a :: rest) with
      | nil => exact absurd hW hne
      | cons c l => rfl
    show (if (wRender (a :: rest)).isEmpty then none
      else match levelCmpSearch (wRender (a :: rest)) with
        | some (op, v) => some (lit "level " ++ op ++ ' ' :: v)
        | none => none) = _
    rw [hEm]
    simp only [Bool.false_eq_true, if_false]
    rw [levelCmpSearch_eq, levelCmpSearch_render (a :: rest) none hok rfl]
    cases hF : wFirstLvl (a :: rest) with
    | none => rfl
    | some p =>
      cases p with
      | mk op v => rfl

/-- The `WHERE`-derived part of the anchor computation. -/
theorem anchorWhere_body {atoms : List WAtom} (aw1 : Str)
    (hok : ∀ a ∈ atoms, wAtomOk a = true) :
    (wPlains atoms = [] →
      (if (wRender atoms).isEmpty then aw1
       else if !(stripStr (subTrailAnd (stripStr
             (subLevelCmp (wRender atoms))))).isEmpty
           && toUp (stripStr (subTrailAnd (stripStr
             (subLevelCmp (wRender atoms))))) ≠ lit "AND"
         then '(' :: aw1 ++ lit ") AND ("
           ++ stripStr (subTrailAnd (stripStr
             (subLevelCmp (wRender atoms)))) ++ [')']
         else aw1) = aw1) ∧
    (wPlains atoms ≠ [] →
      (if (wRender atoms).isEmpty then aw1
       else if !(stripStr (subTrailAnd (stripStr
             (subLevelCmp (wRender atoms))))).isEmpty
           && toUp (stripStr (subTrailAnd (stripStr
             (subLevelCmp (wRender atoms))))) ≠ lit "AND"
         then '(' :: aw1 ++ lit ") AND ("
           ++ stripStr (subTrailAnd (stripStr
             (subLevelCmp (wRender atoms)))) ++ [')']
         else aw1)
        = '(' :: aw1 ++ lit ") AND ("
          ++ joinWith (lit " AND ") (wPlains atoms) ++ [')']) := by
  have hplains := wPlains_ok hok
  have hsub : subLevelCmp (wRender atoms) = wStripped atoms :=
    subLevelCmp_wRender hok
  constructor
  · intro hP0
    rcases wStripped_cases atoms with hcase | ⟨hPne, hcase⟩
    · have hstrip : wStripped atoms = [] := by
        rw [hcase, hP0]
        rfl
      cases hat : atoms with
      | nil => rfl
      | cons a rest =>
        rw [hat] at hok hsub hstrip
        have hne2 : wRender (a :: rest) ≠ [] :=
          wRender_ne_nil (hok a (by simp))
        have hEm : (wRender (a :: rest)).isEmpty = false := by
          cases hW : wRender (a :: rest) with
          | nil => exact absurd hW hne2
          | cons c l => rfl
        rw [hEm]
        simp only [Bool.false_eq_true, if_false]
        rw [hsub, hstrip]
        rfl
    · exact absurd hP0 hPne
  · intro hPne
    have hPprops : ∀ t ∈ wPlains atoms, t ≠ []
        ∧ occurs (lit "AND") (toUp t) = false
        ∧ (t.reverse.take 1).all (fun c => !isSpc c) = true :=
      fun t ht => ⟨(hplains t ht).1, (hplains t ht).2.2.2,
        (hplains t ht).2.2.1⟩
    have hPhead : ∀ t ∈ wPlains atoms,
        (t.take 1).all (fun c => !isSpc c) = true :=
      fun t ht => (hplains t ht).2.1
    have hPnil : ∀ t ∈ wPlains atoms, t ≠ [] :=
      fun t ht => (hplains t ht).1
    have hJne : joinWith (lit " AND ") (wPlains atoms) ≠ [] :=
      join_ne_nil hPne hPnil
    have hJid : stripStr (joinWith (lit " AND ") (wPlains atoms))
        = joinWith (lit " AND ") (wPlains atoms) :=
      stripStr_id (join_head hPne hPhead hPnil)
        (join_last hPne (fun t ht => (hplains t ht).2.2.1) hPnil)
    have hW2 : stripStr (subTrailAnd (stripStr (subLevelCmp (wRender atoms))))
        = joinWith (lit " AND ") (wPlains atoms) := by
      rw [hsub]
      rcases wStripped_cases atoms with hcase | ⟨_, hcase⟩
      · rw [hcase, hJid, subTrailAnd_join hPprops hPne, hJid]
      · rw [hcase, stripStr_join_trail hPne hPhead hPnil,
          subTrailAnd_join_pad hPprops hPne, hJid]
    have hand : toUp (joinWith (lit " AND ") (wPlains atoms)) ≠ lit "AND" :=
      join_ne_AND (fun t ht => ⟨(hplains t ht).1, (hplains t ht).2.2.2⟩)
    have hJEm : (joinWith (lit " AND ") (wPlains atoms)).isEmpty = false := by
      cases hJ : joinWith (lit " AND ") (wPlains atoms) with
      | nil => exact absurd hJ hJne
      | cons c l => rfl
    have hne : wRender atoms ≠ [] := by
      cases atoms with
      | nil =>
        exfalso
        exact hPne rfl
      | cons a rest => exact wRender_ne_nil (hok a (by simp))
    have hEm : (wRender atoms).isEmpty = false := by
      cases hW : wRender atoms with
      | nil => exact absurd hW hne
      | cons c l => rfl
    rw [hEm]
    simp only [Bool.false_eq_true, if_false]
    rw [hW2, hJEm]
    rw [if_pos (by
      rw [Bool.and_eq_true]
      exact ⟨rfl, by simpa using hand⟩)]

/-- The anchor `WHERE`: `START WITH` (default `1=1`), conjoined with the
original `WHERE` stripped of its `LEVEL` comparisons whenever any plain
conjunct survives. -/
theorem anchorWhere_render {comps : ConnectByComponents}
    {atoms : List WAtom} {aw0 : Str}
    (hw : comps.where_clause = some (wRender atoms))
    (hok : ∀ a ∈ atoms, wAtomOk a = true)
    (haw : (match comps.start_with_clause with
      | some s => if s.isEmpty then lit "1=1" else s
      | none => lit "1=1") = aw0) :
    (wPlains atoms = [] → anchorWhere comps = aw0) ∧
    (wPlains atoms ≠ [] → anchorWhere comps
      = '(' :: aw0 ++ lit ") AND ("
        ++ joinWith (lit " AND ") (wPlains atoms) ++ [')']) := by
  refine ⟨fun hP0 => ?_, fun hPne => ?_⟩
  · cases hsw : comps.start_with_clause with
    | none =>
      have haw2 : lit "1=1" = aw0 := by
        rw [hsw] at haw
        exact haw
      unfold anchorWhere
      rw [hw, hsw, ← haw2]
      exact (anchorWhere_body (lit "1=1") hok).1 hP0
    | some s0 =>
      have haw2 : (if s0.isEmpty then lit "1=1" else s0) = aw0 := by
        rw [hsw] at haw
        exact haw
      unfold anchorWhere
      rw [hw, hsw, ← haw2]
      exact (anchorWhere_body (if s0.isEmpty then lit "1=1" else s0) hok).1 hP0
  · cases hsw : comps.start_with_clause with
    | none =>
      have haw2 : lit "1=1" = aw0 := by
        rw [hsw] at haw
        exact haw
      unfold anchorWhere
      rw [hw, hsw, ← haw2]
      exact (anchorWhere_body (lit "1=1") hok).2 hPne
    | some s0 =>
      have haw2 : (if s0.isEmpty then lit "1=1" else s0) = aw0 := by
        rw [hsw] at haw
        exact haw
      unfold anchorWhere
      rw [hw, hsw, ← haw2]
      exact (anchorWhere_body (if s0.isEmpty then lit "1=1" else s0) hok).2 hPne


/-- **C7**: for a `WHERE` clause made of well-formed top-level conjuncts,
the anchor member's `WHERE` equals the `START WITH` text (default `1=1`)
conjoined with the original `WHERE` from which every `LEVEL <op> <int>`
conjunct has been stripped (no conjunction at all when no plain conjunct
survives), and the outer level filter is the first `LEVEL <op> <int>`
comparison rewritten to `level <op> <int>`, with every later `LEVEL`
comparison dropped. -/
theorem C7_where_level_split (comps : ConnectByComponents)
    (atoms : List WAtom) (aw0 : Str)
    (hw : comps.where_clause = some (wRender atoms))
    (hok : ∀ a ∈ atoms, wAtomOk a = true)
    (haw : (match comps.start_with_clause with
      | some s => if s.isEmpty then lit "1=1" else s
      | none => lit "1=1") = aw0) :
    ((wPlains atoms = [] → anchorWhere comps = aw0) ∧
     (wPlains atoms ≠ [] → anchorWhere comps
        = '(' :: aw0 ++ lit ") AND ("
          ++ joinWith (lit " AND ") (wPlains atoms) ++ [')'])) ∧
    extractLevelFilter comps
      = (wFirstLvl atoms).map (fun p => lit "level " ++ p.1 ++ ' ' :: p.2) :=
  ⟨anchorWhere_render hw hok haw, extractLevelFilter_render hw hok⟩

theorem C7_where_level_split_witness :
    anchorWhere
      { select_clause := lit "x", from_clause := lit "t",
        where_clause := some (lit "dept = 10 AND LEVEL <= 5 AND sal > 0"),
        start_with_clause := some (lit "mgr IS NULL") }
      = lit "(mgr IS NULL) AND (dept = 10 AND sal > 0)" ∧
    extractLevelFilter
      { select_clause := lit "x", from_clause := lit "t",
        where_clause := some (lit "dept = 10 AND LEVEL <= 5 AND sal > 0"),
        start_with_clause := some (lit "mgr IS NULL") }
      = some (lit "level <= 5") := by
  have h := C7_where_level_split
    { select_clause := lit "x", from_clause := lit "t",
      where_clause := some (lit "dept = 10 AND LEVEL <= 5 AND sal > 0"),
      start_with_clause := some (lit "mgr IS NULL") }
    [WAtom.plain (lit "dept = 10"),
     WAtom.lvl (lit "LEVEL") [' '] (lit "<=") [' '] (lit "5"),
     WAtom.plain (lit "sal > 0")]
    (lit "mgr IS NULL")
    (by rfl)
    (by decide)
    (by rfl)
  refine ⟨?_, ?_⟩
  · have h2 := h.1.2 (by decide)
    rw [h2]
    rfl
  · rw [h.2]
    rfl

end O2D
